import Mathlib

/-!
# structValidator: a shallow embedding of `validator.go`

The Go package validates the fields of a struct against the clauses of the
`validate` struct tag, reading names, tags and values through `reflect`.

Modelling decisions, all taken from the source and from the documented
behaviour of the standard library it calls:

* A Go `string` is a Lean `String`; Go's `len(s)` is the number of bytes of the
  UTF-8 encoding, `String.utf8ByteSize`.
* Go's `int` is the 64-bit one; values are mathematical integers, and
  `strconv.Atoi` rejects numerals outside the 64-bit range. The code does no
  arithmetic on them, only comparisons.
* A `reflect.Value` carries its type: every value knows its kind and the text
  `Type().String()` prints. A struct value holds its fields in declaration
  order, each with what `reflect.StructField` exposes of its declaration.
* The elements of a slice or array are values of their own; Go gives them all
  one type, which the statements about lists of `int`s or of strings say of
  their lists.
* `reflect.VisibleFields` is embedded with its hiding rule, because the loop of
  `Validate` indexes `vv.Field(i)` by the position in its result.
* `Tag.Lookup("validate")` and `IsExported()` are read off the declaration of a
  field; the syntax of struct tags is not modelled.
* A run-time panic is the `Except.error` branch of `Except Panic`; the functions
  are total, so that a result `Except.ok` says that the call returns.
-/

namespace StructValidator

/-! ## The data model of `reflect` -/

/-- The kinds of `reflect.Kind`. -/
inductive Kind where
  | Invalid | Bool | Int | Int8 | Int16 | Int32 | Int64
  | Uint | Uint8 | Uint16 | Uint32 | Uint64 | Uintptr
  | Float32 | Float64 | Complex64 | Complex128
  | Array | Chan | Func | Interface | Map | Pointer | Slice | String | Struct
  | UnsafePointer
deriving DecidableEq, Repr

/-- The kinds that have no constructor of their own in `Value`: every kind
except `Int`, `String`, `Slice`, `Array`, `Struct`, `Pointer` (and `Invalid`,
which no field or element of a value has). -/
inductive OtherKind where
  | Bool | Int8 | Int16 | Int32 | Int64
  | Uint | Uint8 | Uint16 | Uint32 | Uint64 | Uintptr
  | Float32 | Float64 | Complex64 | Complex128
  | Chan | Func | Interface | Map | UnsafePointer
deriving DecidableEq, Repr

/-- The `reflect.Kind` of an `OtherKind`. -/
def OtherKind.toKind : OtherKind → Kind
  | .Bool => .Bool | .Int8 => .Int8 | .Int16 => .Int16 | .Int32 => .Int32
  | .Int64 => .Int64 | .Uint => .Uint | .Uint8 => .Uint8 | .Uint16 => .Uint16
  | .Uint32 => .Uint32 | .Uint64 => .Uint64 | .Uintptr => .Uintptr
  | .Float32 => .Float32 | .Float64 => .Float64 | .Complex64 => .Complex64
  | .Complex128 => .Complex128 | .Chan => .Chan | .Func => .Func
  | .Interface => .Interface | .Map => .Map | .UnsafePointer => .UnsafePointer

/-- What the declaration of a struct field exposes through
`reflect.StructField`: its name, whether it is exported (`IsExported()`),
the result of `Tag.Lookup("validate")` (`none` when the key is absent, and
`some ""` for an empty specification), and whether it is embedded. -/
structure FieldDecl where
  Name : String
  Exported : Bool
  validateTag : Option String
  Anonymous : Bool
deriving DecidableEq, Repr

mutual
/-- A Go value as `reflect` sees it. `ty` is the text of `Type().String()`.
* `int`: kind `Int`; `str`: kind `String`;
* `list`: kind `Array` when `array` is true, else `Slice`, with its elements;
* `struct`: kind `Struct`, with its fields in declaration order;
* `pointer`: kind `Pointer`; `elem` is the value pointed to, or for a nil
  pointer the zero value of the element type (the code reads only its type);
* `other`: any remaining kind; `content` is an integer encoding of the value
  (the number itself for the sized and unsigned integer kinds).
Struct types that embed a pointer to themselves have no finite value here. -/
inductive Value where
  | int (ty : String) (n : Int)
  | str (ty : String) (s : String)
  | list (array : Bool) (ty : String) (elems : List Value)
  | struct (ty : String) (fields : Fields)
  | pointer (ty : String) (elem : Value)
  | other (k : OtherKind) (ty : String) (content : Int)
/-- The fields of a struct value, in declaration order. -/
inductive Fields where
  | nil
  | cons (decl : FieldDecl) (v : Value) (rest : Fields)
end

/-- The run-time panics the code can raise. -/
inductive Panic where
  | nilDereference
  | indexOutOfRange
  | wrongKind
deriving DecidableEq, Repr

deriving instance DecidableEq for Except

/-- A `reflect.Type` as far as the code reads it: kind and printed name. -/
structure GoType where
  kind : Kind
  name : String
deriving DecidableEq, Repr

/-- `Value.Kind()`. -/
def Value.Kind : Value → Kind
  | .int _ _ => .Int
  | .str _ _ => .String
  | .list array _ _ => if array then .Array else .Slice
  | .struct _ _ => .Struct
  | .pointer _ _ => .Pointer
  | .other k _ _ => k.toKind

/-- The text of `Value.Type().String()`. -/
def Value.typeString : Value → String
  | .int ty _ => ty
  | .str ty _ => ty
  | .list _ ty _ => ty
  | .struct ty _ => ty
  | .pointer ty _ => ty
  | .other _ ty _ => ty

/-- `Value.Type()`. -/
def Value.Type (v : Value) : GoType := GoType.mk v.Kind v.typeString

/-- `Value.String()`: the string itself for kind `String`; for every other
kind it does not panic and returns `"<T Value>"`, `T` the type's name. -/
def Value.String : Value → String
  | .str _ s => s
  | v => "<" ++ v.typeString ++ " Value>"

/-- `Value.Int()`: the number for the signed integer kinds, a panic for every
other kind. -/
def Value.Int : Value → Except Panic Int
  | .int _ n => .ok n
  | .other .Int8 _ n => .ok n
  | .other .Int16 _ n => .ok n
  | .other .Int32 _ n => .ok n
  | .other .Int64 _ n => .ok n
  | _ => .error .wrongKind

/-- `Value.Len()` for the kinds the code calls it on (`Slice`, `Array`). -/
def Value.Len : Value → Nat
  | .list _ _ elems => elems.length
  | _ => 0

/-- `Value.Index(i)`: the element of a slice or array, a panic when `i` is out
of range. -/
def Value.Index : Value → Nat → Except Panic Value
  | .list _ _ elems, i =>
    match elems.get? i with
    | some e => .ok e
    | none => .error .indexOutOfRange
  | _, _ => .error .wrongKind

/-- The list of a `Fields`, each declaration with its value. -/
def Fields.toList : Fields → List (FieldDecl × Value)
  | .nil => []
  | .cons d v rest => (d, v) :: rest.toList

/-- `Value.NumField()`. -/
def Value.NumField : Value → Nat
  | .struct _ fs => fs.toList.length
  | _ => 0

/-- `Value.Field(i)`: the value of the `i`-th field the struct declares itself,
a panic when `i` is not below `NumField()`. -/
def Value.Field : Value → Nat → Except Panic Value
  | .struct _ fs, i =>
    match fs.toList.get? i with
    | some dv => .ok dv.2
    | none => .error .indexOutOfRange
  | _, _ => .error .wrongKind

/-- Go's `len` of a string: its length in bytes. -/
def len (s : String) : Int := (s.utf8ByteSize : Int)

/-! ## `reflect.VisibleFields` -/

/-- A `reflect.StructField` as `VisibleFields` returns it. -/
structure StructField where
  Name : String
  Exported : Bool
  validateTag : Option String
  Anonymous : Bool
  Index : List Nat
deriving DecidableEq, Repr

/-- `StructField.IsExported()`. -/
def StructField.IsExported (f : StructField) : Bool := f.Exported

/-- `StructField.Tag.Lookup("validate")`. -/
def StructField.Lookup (f : StructField) : Option String := f.validateTag

/-- The state of `reflect.visibleFieldsWalker`: the map `byName` (an
association list, the most recent entry first), the fields gathered so far and
the index path of the struct being walked. The `visiting` set of the original
only stops the walk on struct types that embed themselves, which have no value
in this model. -/
structure visibleFieldsWalker where
  byName : List (String × Nat)
  fields : List StructField
  index : List Nat
deriving DecidableEq, Repr

/-- Clears the name of the field at position `k`: `old.Name = ""`. -/
def clearName (fields : List StructField) (k : Nat) : List StructField :=
  fields.modify (fun f => StructField.mk "" f.Exported f.validateTag f.Anonymous f.Index) k

/-- The hiding rule of `walk` for a field named `name` met at index path
`index`: the fields after the rule, and whether the new field is added.
Fields of the same name at the same depth cancel one another, a shallower
field hides a deeper one. -/
def hide (w : visibleFieldsWalker) (name : String) (index : List Nat) :
    List StructField × Bool :=
  match w.byName.lookup name with
  | none => (w.fields, true)
  | some oldIndex =>
    match w.fields.get? oldIndex with
    | none => (w.fields, true)
    | some old =>
      if index.length = old.Index.length then (clearName w.fields oldIndex, false)
      else if index.length < old.Index.length then (clearName w.fields oldIndex, true)
      else (w.fields, false)

mutual
/-- The method `visibleFieldsWalker.walk` on the fields from position `i` on:
fields are visited in index preorder, an embedded struct (or pointer to
struct) is walked right after its own field. -/
def walk (w : visibleFieldsWalker) : Fields → Nat → visibleFieldsWalker
  | .nil, _ => w
  | .cons d v rest, i =>
    let index := w.index ++ [i]
    let r := hide w d.Name index
    let w1 : visibleFieldsWalker :=
      if r.2 then
        visibleFieldsWalker.mk ((d.Name, r.1.length) :: w.byName)
          (r.1 ++ [StructField.mk d.Name d.Exported d.validateTag d.Anonymous index]) index
      else visibleFieldsWalker.mk w.byName r.1 index
    let w2 := if d.Anonymous then walkEmbedded w1 v else w1
    walk (visibleFieldsWalker.mk w2.byName w2.fields w2.index.dropLast) rest (i + 1)
/-- The part of `walk` for an embedded field: a pointer type is replaced by
its element type, and a struct type is walked. -/
def walkEmbedded (w : visibleFieldsWalker) : Value → visibleFieldsWalker
  | .struct _ fs => walk w fs 0
  | .pointer _ (.struct _ fs) => walk w fs 0
  | _ => w
end

/-- The function `reflect.VisibleFields` on the type of a struct value: the
walk, then the removal of the fields whose name was cleared. It panics on a
value that is not a struct. -/
def VisibleFields : Value → Except Panic (List StructField)
  | .struct _ fs =>
    .ok ((walk (visibleFieldsWalker.mk [] [] []) fs 0).fields.filter (fun f => f.Name ≠ ""))
  | _ => .error .wrongKind

/-! ## The library functions `strings.Split`, `strings.Join`, `strconv.Atoi` -/

/-- Splits a list of characters at every occurrence of `sep`; the pieces
between the separators, in order. The result is never empty. -/
def splitChars (sep : Char) : List Char → List (List Char)
  | [] => [[]]
  | c :: cs =>
    if c = sep then [] :: splitChars sep cs
    else
      match splitChars sep cs with
      | [] => [[c]]
      | p :: ps => (c :: p) :: ps

/-- The function `strings.Split(s, sep)` for a separator of one character. -/
def strings.Split (s : String) (sep : Char) : List String :=
  (splitChars sep s.data).map String.mk

/-- The function `strings.Join(elems, sep)`. -/
def strings.Join (elems : List String) (sep : String) : String :=
  sep.intercalate elems

/-- The value of a decimal digit, `none` for any other character. -/
def digitValue (c : Char) : Option Nat :=
  if '0' ≤ c ∧ c ≤ '9' then some (c.toNat - '0'.toNat) else none

/-- Reads a run of decimal digits, most significant first, onto `acc`. -/
def parseDigits : List Char → Nat → Option Nat
  | [], acc => some acc
  | c :: cs, acc =>
    match digitValue c with
    | none => none
    | some d => parseDigits cs (acc * 10 + d)

/-- The sign a numeral starts with, if any (`true` for `-`), and the rest. -/
def splitSign : List Char → Bool × List Char
  | '-' :: r => (true, r)
  | '+' :: r => (false, r)
  | r => (false, r)

/-- The function `strconv.Atoi`: an optional sign, then one or more decimal
digits, denoting a number of the 64-bit range; `none` stands for a non-nil
`err` (syntax or range). -/
def strconv.Atoi (s : String) : Option Int :=
  let signed := splitSign s.data
  match signed.2 with
  | [] => none
  | d :: ds =>
    match parseDigits (d :: ds) 0 with
    | none => none
    | some n =>
      let v : Int := if signed.1 then -(n : Int) else (n : Int)
      if -(2 : Int) ^ 63 ≤ v ∧ v ≤ (2 : Int) ^ 63 - 1 then some v else none

/-- The decimal digit character of `d`. -/
def digitChar (d : Nat) : Char := Char.ofNat (48 + d)

/-- The decimal numeral of a natural number, most significant digit first. -/
def decimal (n : Nat) : List Char :=
  if n = 0 then ['0'] else ((Nat.digits 10 n).reverse).map digitChar

/-- The function `strconv.Itoa`: the decimal numeral of an integer. It is not
called by the package; it names the numeral of `N` in a clause such as
`min:N`. -/
def strconv.Itoa (N : Int) : String :=
  if N < 0 then String.mk ('-' :: decimal N.natAbs) else String.mk (decimal N.natAbs)

/-- Indexing `xs[i]` of a Go slice: a panic when `i` is out of range. -/
def sliceIndex {α : Type} (xs : List α) (i : Nat) : Except Panic α :=
  match xs.get? i with
  | some x => .ok x
  | none => .error .indexOutOfRange

/-! ## The package: errors -/

/-- The error values of the package: its three sentinel errors, and an error
made by `fmt.Errorf` with its message. -/
inductive GoError where
  | ErrNotStruct
  | ErrInvalidValidatorSyntax
  | ErrValidateForUnexportedFields
  | Errorf (msg : String)
deriving DecidableEq, Repr

/-- The method `Error()` of an error value. -/
def GoError.Error : GoError → String
  | .ErrNotStruct => "wrong argument given, should be a struct"
  | .ErrInvalidValidatorSyntax => "invalid validator syntax"
  | .ErrValidateForUnexportedFields => "validation for unexported field is not allowed"
  | .Errorf msg => msg

/-- The struct `ValidationError`. -/
structure ValidationError where
  Err : GoError
deriving DecidableEq, Repr

/-- The type `ValidationErrors`. -/
abbrev ValidationErrors := List ValidationError

/-- The method `toStrings`. -/
def ValidationErrors.toStrings (v : ValidationErrors) : List String :=
  v.map (fun s => s.Err.Error)

/-- The method `Error` of `ValidationErrors`. -/
def ValidationErrors.Error (v : ValidationErrors) : String :=
  strings.Join (ValidationErrors.toStrings v) "\n"

/-- What `Validate` returns, a value of the interface `error`: `nil`, one of
the sentinel errors, or a `ValidationErrors` list. -/
inductive ReturnedError where
  | nil
  | sentinel (e : GoError)
  | errors (v : ValidationErrors)
deriving DecidableEq, Repr

/-! ## The package: the checks -/

/-- The function `createReflectionSlice`. -/
def createReflectionSlice (vv : Value) : List Value :=
  match vv with
  | .list _ _ elems => elems
  | v => [v]

/-- The loop of `checkLen` over the values `v`. -/
def checkLenLoop (ln : Int) : List Value → Bool
  | [] => true
  | x :: rest => if len x.String ≠ ln then false else checkLenLoop ln rest

/-- The function `checkLen`. -/
def checkLen (vv : Value) (ln : Int) : Bool :=
  checkLenLoop ln (createReflectionSlice vv)

/-- The type `comparator`. -/
abbrev comparator := Int → Int → Bool

/-- The loop of `checkMinMax` over the values `v`. The cases of the switch on
`v[i].Kind()` are the constructors `int` (kind `Int`) and `str` (kind
`String`); every other kind falls through the switch. -/
def checkMinMaxLoop (m : Int) (c : comparator) : List Value → Bool
  | [] => true
  | x :: rest =>
    match x with
    | .int _ n => if !c m n then false else checkMinMaxLoop m c rest
    | .str _ s => if !c m (len s) then false else checkMinMaxLoop m c rest
    | _ => checkMinMaxLoop m c rest

/-- The function `checkMinMax`. -/
def checkMinMax (vv : Value) (m : Int) (c : comparator) : Bool :=
  checkMinMaxLoop m c (createReflectionSlice vv)

/-- The inner loop of `checkContains`: the value `x` against every `s` of
`c`, from the flag `ok`. The cases of the switch on `x.Kind()` are the
constructors `int` and `str`; `s.Int()` panics on an `s` that is no integer. -/
def checkContainsInner (x : Value) : List Value → Bool → Except Panic Bool
  | [], ok => .ok ok
  | s :: rest, ok =>
    match x with
    | .int _ a => do
      let b ← s.Int
      checkContainsInner x rest (if a = b then true else ok)
    | .str _ t => checkContainsInner x rest (if t = s.String then true else ok)
    | _ => checkContainsInner x rest ok

/-- The outer loop of `checkContains` over the values `v`. -/
def checkContainsLoop (c : List Value) : List Value → Except Panic Bool
  | [] => .ok true
  | x :: rest => do
    let ok ← checkContainsInner x c false
    if !ok then .ok false else checkContainsLoop c rest

/-- The function `checkContains`. -/
def checkContains (vv : Value) (c : List Value) : Except Panic Bool :=
  checkContainsLoop c (createReflectionSlice vv)

/-! ## The package: `Validate` -/

/-- The comparator of the `min` clause. -/
def minComparator : comparator := fun min v => decide (v ≥ min)

/-- The comparator of the `max` clause. -/
def maxComparator : comparator := fun max v => decide (v ≤ max)

/-- The text `%v` prints for a slice of strings. -/
def formatStrings (xs : List String) : String :=
  "[" ++ strings.Join xs " " ++ "]"

/-- The loop of the `in` clause over the literals `u`: `rType` is the type the
literals are read for (`none` is the nil `reflect.Type`, and `rType.Kind()`
on it panics), `c` the values gathered and `errs` the failures so far. -/
def literalsLoop (rType : Option GoType) :
    List String → List Value → ValidationErrors →
      Except Panic (List Value × ValidationErrors)
  | [], c, errs => .ok (c, errs)
  | u :: rest, c, errs =>
    match rType with
    | none => .error .nilDereference
    | some t =>
      match t.kind with
      | .Int =>
        match strconv.Atoi u with
        | none =>
          literalsLoop rType rest c (errs ++ [ValidationError.mk .ErrInvalidValidatorSyntax])
        | some n => literalsLoop rType rest (c ++ [Value.int "int" n]) errs
      | .String => literalsLoop rType rest (c ++ [Value.str "string" u]) errs
      | _ => literalsLoop rType rest c errs

/-- The type `rType` of the `in` clause for the field value `fv`. -/
def elementType (fv : Value) : Except Panic (Option GoType) :=
  match fv.Kind with
  | .Array | .Slice => do
    let e ← fv.Index 0
    .ok (some e.Type)
  | .Int | .String => .ok (some fv.Type)
  | _ => .ok none

/-- The body of the loop over the clauses `b` of a specification, for the
field `field` met at position `i` of the visible fields of `vv`: the failures
`errs` gathered so far, with those of this clause appended. -/
def clauseStep (vv : Value) (i : Nat) (field : StructField)
    (errs : ValidationErrors) (b : String) : Except Panic ValidationErrors := do
  let validator ← sliceIndex (strings.Split b ':') 0
  let toCheck ← sliceIndex (strings.Split b ':') 1
  let parsed : Option Int :=
    if validator = "len" ∨ validator = "min" ∨ validator = "max" then strconv.Atoi toCheck
    else some 0
  match parsed with
  | none => .ok (errs ++ [ValidationError.mk .ErrInvalidValidatorSyntax])
  | some val =>
    if validator = "len" then do
      let fv ← vv.Field i
      if !checkLen fv val then
        .ok (errs ++ [ValidationError.mk
          (.Errorf ("field " ++ field.Name ++ " has an invalid length"))])
      else .ok errs
    else if validator = "min" then do
      let fv ← vv.Field i
      if !checkMinMax fv val minComparator then
        .ok (errs ++ [ValidationError.mk
          (.Errorf ("field " ++ field.Name ++ " has value less than min"))])
      else .ok errs
    else if validator = "max" then do
      let fv ← vv.Field i
      if !checkMinMax fv val maxComparator then
        .ok (errs ++ [ValidationError.mk
          (.Errorf ("field " ++ field.Name ++ " has value bigger than max"))])
      else .ok errs
    else if validator = "in" then do
      let fv ← vv.Field i
      let rType ← elementType fv
      let r ← literalsLoop rType (strings.Split toCheck ',') [] errs
      let ok ← checkContains fv r.1
      if !ok then
        .ok (r.2 ++ [ValidationError.mk
          (.Errorf ("field " ++ field.Name ++ " does not occur in "
            ++ formatStrings (strings.Split toCheck ',')))])
      else .ok r.2
    else .ok errs

/-- The loop over the clauses of one specification. -/
def clausesLoop (vv : Value) (i : Nat) (field : StructField) :
    List String → ValidationErrors → Except Panic ValidationErrors
  | [], errs => .ok errs
  | b :: rest, errs => do
    let errs1 ← clauseStep vv i field errs b
    clausesLoop vv i field rest errs1

/-- The body of the loop over the visible fields. -/
def fieldStep (vv : Value) (i : Nat) (field : StructField)
    (errs : ValidationErrors) : Except Panic ValidationErrors :=
  match field.Lookup with
  | some s =>
    if !field.IsExported then
      .ok (errs ++ [ValidationError.mk .ErrValidateForUnexportedFields])
    else clausesLoop vv i field (strings.Split s ';') errs
  | none => .ok errs

/-- The loop `for i, field := range reflect.VisibleFields(vt)`, from
position `i` on. -/
def fieldsLoop (vv : Value) : Nat → List StructField → ValidationErrors →
    Except Panic ValidationErrors
  | _, [], errs => .ok errs
  | i, field :: rest, errs => do
    let errs1 ← fieldStep vv i field errs
    fieldsLoop vv (i + 1) rest errs1

/-- The function `Validate`. Its argument is a value of type `any`: `none`
is the nil interface, whose `reflect.TypeOf` is nil, so that `vt.Kind()`
panics. -/
def Validate (v : Option Value) : Except Panic ReturnedError :=
  match v with
  | none => .error .nilDereference
  | some vv =>
    if vv.Kind ≠ Kind.Struct then .ok (.sentinel .ErrNotStruct)
    else do
      let fields ← VisibleFields vv
      let errs ← fieldsLoop vv 0 fields []
      if errs.length ≠ 0 then .ok (.errors errs) else .ok .nil

/-- The record of the scenario of the specification. -/
def scenario : Value :=
  .struct "main.User"
    (.cons (FieldDecl.mk "Age" true (some "min:18") false) (.int "int" 17)
     (.cons (FieldDecl.mk "Code" true (some "len:4;in:AAAA,BBBB") false) (.str "string" "CCCC")
      .nil))

/-- The last lines of `Validate`: the list when it is not empty, else `nil`. -/
def returnedOf (errs : ValidationErrors) : ReturnedError :=
  if errs.length ≠ 0 then .errors errs else .nil

/-- A struct value of type `T` with the single field `d` holding `v`. -/
def oneField (T : String) (d : FieldDecl) (v : Value) : Value :=
  .struct T (.cons d v .nil)

/-- The characters of a numeral `strconv.Atoi` accepts. -/
def numeralChar (c : Char) : Prop := c = '-' ∨ c = '+' ∨ ('0' ≤ c ∧ c ≤ '9')

/-- The characters of `strings.Join (a :: rest) sep` after those of `a`. -/
def joinTail (sep : String) : List String → List Char
  | [] => []
  | a :: rest => sep.data ++ a.data ++ joinTail sep rest

/-- The failure of a literal that does not parse. -/
def syntaxFailure : ValidationError := ValidationError.mk .ErrInvalidValidatorSyntax

/-- The failure of the `in` clause with argument `toCheck` on the field
`name`. -/
def inFailure (name toCheck : String) : ValidationError :=
  ValidationError.mk (.Errorf ("field " ++ name ++ " does not occur in "
    ++ formatStrings (strings.Split toCheck ',')))

/-- The message of the failure of the clause `len`, `min` or `max` (named
`name`) on the field `F`, as the three `fmt.Errorf` calls write it. -/
def clauseMessage (name F : String) : String :=
  "field " ++ F ++
    (if name = "len" then " has an invalid length"
     else if name = "min" then " has value less than min"
     else " has value bigger than max")

/-- The check the clause named `name` (`len`, `min` or `max`) calls on the
field value `fv` with the argument `N`. -/
def numericCheck (name : String) (fv : Value) (N : Int) : Bool :=
  if name = "len" then checkLen fv N
  else if name = "min" then checkMinMax fv N minComparator
  else checkMinMax fv N maxComparator

/-! ## The aggregation, as the specification words it

The specification describes the result as the failures of every field, in
declaration order, and within a field of every clause, in clause order, each
clause judged on its own. The three functions below compute that, from the
failures `clauseStep` reports for one clause when it starts from no failure. -/

/-- The failures of the clauses `bs` of one specification: those of each
clause on its own, concatenated in clause order. -/
def specFailures (vv : Value) (i : Nat) (field : StructField) :
    List String → Except Panic ValidationErrors
  | [] => .ok []
  | b :: rest => do
    let e ← clauseStep vv i field [] b
    let es ← specFailures vv i field rest
    .ok (e ++ es)

/-- The failures of one field: none without a specification, the one
`ErrValidateForUnexportedFields` for an unexported field that has one, else
those of its clauses. -/
def fieldFailures (vv : Value) (i : Nat) (field : StructField) :
    Except Panic ValidationErrors :=
  match field.validateTag with
  | none => .ok []
  | some s =>
    if field.Exported then specFailures vv i field (strings.Split s ';')
    else .ok [ValidationError.mk .ErrValidateForUnexportedFields]

/-- The failures of the fields `fields`, met from position `i` on: those of
each field, concatenated in field order. -/
def recordFailures (vv : Value) : Nat → List StructField → Except Panic ValidationErrors
  | _, [] => .ok []
  | i, f :: rest => do
    let e ← fieldFailures vv i f
    let es ← recordFailures vv (i + 1) rest
    .ok (e ++ es)

/-! ## Records used as concrete inputs -/

/-- The struct whose field `F` is an empty slice of `int`s under `in:1,2,3`. -/
def emptySliceRecord : Value :=
  oneField "main.T" (FieldDecl.mk "F" true (some "in:1,2,3") false) (.list false "[]int" [])

/-- The struct whose field `F` is an array of no `int` under `in:1,2,3`. -/
def emptyArrayRecord : Value :=
  oneField "main.T" (FieldDecl.mk "F" true (some "in:1,2,3") false) (.list true "[0]int" [])

/-- A struct with an exported field, an unexported field whose specification
is a clause without `:`, and a further exported field. -/
def secretRecord : Value :=
  .struct "main.Account"
    (.cons (FieldDecl.mk "Name" true (some "len:5") false) (.str "string" "hello")
     (.cons (FieldDecl.mk "secret" false (some "min") false) (.int "int" 1)
      (.cons (FieldDecl.mk "Age" true (some "min:18") false) (.int "int" 17)
       .nil)))

/-- A struct of fields of several kinds and visibilities, none with a
specification. -/
def plainRecord : Value :=
  .struct "main.Plain"
    (.cons (FieldDecl.mk "Name" true none false) (.str "string" "")
     (.cons (FieldDecl.mk "hidden" false none false) (.other .Bool "bool" 1)
      (.cons (FieldDecl.mk "Inner" true none true)
          (.struct "main.Inner"
            (.cons (FieldDecl.mk "Ratio" true none false) (.other .Float64 "float64" 0) .nil))
       (.cons (FieldDecl.mk "Tags" true none false) (.list false "[]string" [])
        .nil))))

/-- A struct whose field `Code` carries a clause with a non-integer argument
between two clauses that fail. -/
def badArgumentRecord : Value :=
  oneField "main.T" (FieldDecl.mk "Code" true (some "len:4;min:abc;max:3") false)
    (.str "string" "hello")

/-- A struct whose field `Age` carries a misspelt clause before a clause that
fails. -/
def misspeltRecord : Value :=
  oneField "main.T" (FieldDecl.mk "Age" true (some "mim:18;min:18") false) (.int "int" 17)

/-- The struct whose field `F` carries the clause `min`, which has no `:`. -/
def noColonRecord : Value :=
  oneField "main.T" (FieldDecl.mk "F" true (some "min") false) (.int "int" 1)

/-- The struct whose field `F` carries `min:1;`: a second, empty clause. -/
def emptyClauseRecord : Value :=
  oneField "main.T" (FieldDecl.mk "F" true (some "min:1;") false) (.int "int" 1)

/-- The struct whose field `F` carries an argument that is no integer. -/
def nonIntegerRecord : Value :=
  oneField "main.T" (FieldDecl.mk "F" true (some "min:abc") false) (.int "int" 1)

/-- The struct whose `int` field `Num` holds 3 under `in:1,x,3`. -/
def mixedLiteralsRecord : Value :=
  oneField "main.T" (FieldDecl.mk "Num" true (some "in:1,x,3") false) (.int "int" 3)

/-- Whether an embedded field of this value promotes fields: a struct, or a
pointer to a struct. -/
def Value.promotes : Value → Bool
  | .struct _ _ => true
  | .pointer _ (.struct _ _) => true
  | _ => false

/-- A struct that embeds no struct, neither directly nor through a pointer
(it may embed values of other types). -/
def Fields.embedsNoStruct : Fields → Prop
  | .nil => True
  | .cons d v rest => (d.Anonymous = true → v.promotes = false) ∧ rest.embedsNoStruct

/-- The sized and the unsigned integer kinds. -/
def sizedIntegerKind : Kind → Bool
  | .Int8 | .Int16 | .Int32 | .Int64 => true
  | .Uint | .Uint8 | .Uint16 | .Uint32 | .Uint64 | .Uintptr => true
  | _ => false

/-- A field value none of whose atomic values (the value itself, or its
elements when it is a slice or array) is of kind `Int` or `String`. -/
def Value.unsupported (fv : Value) : Prop :=
  ∀ e ∈ createReflectionSlice fv, e.Kind ≠ Kind.Int ∧ e.Kind ≠ Kind.String

/-- The struct whose `bool` field `Flag` carries `len:5`. -/
def boolLenRecord : Value :=
  oneField "main.T" (FieldDecl.mk "Flag" true (some "len:5") false) (.other .Bool "bool" 1)

/-- The struct whose `int` field `Age` holds 42 under `len:2`. -/
def intLenRecord : Value :=
  oneField "main.T" (FieldDecl.mk "Age" true (some "len:2") false) (.int "int" 42)

/-- The struct whose field `Flags`, the slice `[true]`, carries `in:true`. -/
def boolListInRecord : Value :=
  oneField "main.T" (FieldDecl.mk "Flags" true (some "in:true") false)
    (.list false "[]bool" [.other .Bool "bool" 1])

/-- The struct whose `bool` field `Flag` carries `in:true`. -/
def boolInRecord : Value :=
  oneField "main.T" (FieldDecl.mk "Flag" true (some "in:true") false) (.other .Bool "bool" 1)

/-- The record of the example of embedding: `Outer` embeds `Inner`, whose
field `Name` holds `abc` under `len:3`, and declares `Age`, 20 under `min:18`. -/
def embeddedRecord : Value :=
  .struct "main.Outer"
    (.cons (FieldDecl.mk "Inner" true none true)
        (.struct "main.Inner"
          (.cons (FieldDecl.mk "Name" true (some "len:3") false) (.str "string" "abc") .nil))
     (.cons (FieldDecl.mk "Age" true (some "min:18") false) (.int "int" 20)
      .nil))

/-- A record that embeds `Inner` (one field `Name`, no specification) and
declares `A`, 20 under `min:18`, then `B`, 0 without specification. -/
def shiftedRecord : Value :=
  .struct "main.Outer"
    (.cons (FieldDecl.mk "Inner" true none true)
        (.struct "main.Inner"
          (.cons (FieldDecl.mk "Name" true none false) (.str "string" "abc") .nil))
     (.cons (FieldDecl.mk "A" true (some "min:18") false) (.int "int" 20)
      (.cons (FieldDecl.mk "B" true none false) (.int "int" 0)
       .nil)))

/-- The struct whose text field `Tag` holds `s` under the clause `in:a:b`. -/
def colonRecord (s : String) : Value :=
  oneField "main.Tagged" (FieldDecl.mk "Tag" true (some "in:a:b") false) (.str "string" s)

/-- The kinds of field value the `in` clause can read its literal type
from: `Int`, `String`, or a slice or array with at least one element. -/
def inKindOk (fv : Value) : Prop :=
  fv.Kind = Kind.Int ∨ fv.Kind = Kind.String ∨
    ((fv.Kind = Kind.Slice ∨ fv.Kind = Kind.Array) ∧ 0 < fv.Len)

/-- The typing Go gives a slice or array: its elements are of one kind. -/
def Value.wellTyped : Value → Prop
  | .list _ _ elems => ∀ e ∈ elems, ∀ e2 ∈ elems, e.Kind = e2.Kind
  | _ => True

/-- The fields of a struct that embeds nothing: `Age`, 17 under `min:18`;
`Tags`, the slice `[a, c]` under `in:a,b`; and the unexported `secret` under
the clause `min`, which has no `:`. -/
def safeFields : Fields :=
  .cons (FieldDecl.mk "Age" true (some "min:18") false) (.int "int" 17)
   (.cons (FieldDecl.mk "Tags" true (some "in:a,b") false)
      (.list false "[]string" [.str "string" "a", .str "string" "c"])
    (.cons (FieldDecl.mk "secret" false (some "min") false) (.other .Bool "bool" 0)
     .nil))

mutual
/-- No field promoted through the embedded value carries a specification. -/
def Value.untagged : Value → Prop
  | .struct _ fs => fs.untagged
  | .pointer _ (.struct _ fs) => fs.untagged
  | _ => True
/-- No field of the list, nor any field promoted through an embedded one,
carries a specification. -/
def Fields.untagged : Fields → Prop
  | .nil => True
  | .cons d v rest =>
    d.validateTag = none ∧ (d.Anonymous = true → v.untagged) ∧ rest.untagged
end

/-- The names of the fields a struct declares itself. -/
def Fields.names : Fields → List String
  | .nil => []
  | .cons d _ rest => d.Name :: rest.names

/-- A struct that embeds nothing: no field is anonymous. -/
def Fields.flat : Fields → Prop
  | .nil => True
  | .cons d _ rest => d.Anonymous = false ∧ rest.flat

/-- The fields a struct declares itself, as `reflect.StructField`s with the
index path `idx ++ [i]`, `i` counting from the position given. -/
def declaredFields (idx : List Nat) : Fields → Nat → List StructField
  | .nil, _ => []
  | .cons d _ rest, i =>
    StructField.mk d.Name d.Exported d.validateTag d.Anonymous (idx ++ [i])
      :: declaredFields idx rest (i + 1)

/-- The struct `Outer` that embeds `Inner` (one field `X`, an `int`, without
specification) and then declares the field `d`, holding `v`, and the field
`Pad`, holding `pad`, without specification. -/
def paddedRecord (d : FieldDecl) (v pad : Value) : Value :=
  .struct "main.Outer"
    (.cons (FieldDecl.mk "Inner" true none true)
        (.struct "main.Inner"
          (.cons (FieldDecl.mk "X" true none false) (.int "int" 0) .nil))
     (.cons d v
      (.cons (FieldDecl.mk "Pad" true none false) pad
       .nil)))

/-- The fields of the struct `BlankIn`: two blank fields, a nil slice of
`int`s and an `int`, then `A`, the `int` 1 under `in:1`. -/
def blankInFields : Fields :=
  .cons (FieldDecl.mk "_" false none false) (.list false "[]int" [])
   (.cons (FieldDecl.mk "_" false none false) (.int "int" 0)
    (.cons (FieldDecl.mk "A" true (some "in:1") false) (.int "int" 1)
     .nil))

/-- The fields of the struct `Person`, which embeds nothing: `Name`, the text
`Al` under `len:2;min:5;max:1`, and `Num`, the `int` 4 under
`in:1,x,3;in:1,2,3`. -/
def personFields : Fields :=
  .cons (FieldDecl.mk "Name" true (some "len:2;min:5;max:1") false) (.str "string" "Al")
   (.cons (FieldDecl.mk "Num" true (some "in:1,x,3;in:1,2,3") false) (.int "int" 4)
    .nil)

/-! ## The run of `Validate` around one clause -/

/-- The `reflect.StructField` of the declaration `d` at position `k` of the
struct that declares it. -/
def fieldAt (d : FieldDecl) (k : Nat) : StructField :=
  StructField.mk d.Name d.Exported d.validateTag d.Anonymous [k]

/-- What `Validate` returns on `vv`, whose visible fields are `vf`, when the
clause that stands between the clauses `pre` and `post` in the specification
of the field `f`, met at position `k`, contributes the failures `X`: the
failures of the fields before `f`, of the clauses `pre`, then `X`, then the
failures of the clauses `post` and of the fields after `f`, as
`recordFailures` and `specFailures` give them; `nil` when there is none. The
other clauses and fields are judged as in any run, a panic of theirs
included. -/
def runWithClause (vv : Value) (vf : List StructField) (k : Nat) (f : StructField)
    (pre post : List String) (X : ValidationErrors) : Except Panic ReturnedError :=
  (recordFailures vv 0 (vf.take k)).bind (fun A =>
    (specFailures vv k f pre).bind (fun a =>
      (specFailures vv k f post).bind (fun c =>
        (recordFailures vv (k + 1) (vf.drop (k + 1))).map (fun Z =>
          returnedOf (A ++ (a ++ X ++ c) ++ Z)))))

/-! ## Lemmas on the library functions -/

theorem splitChars_ne_nil (sep : Char) (cs : List Char) : splitChars sep cs ≠ [] := by
  cases cs with
  | nil => simp [splitChars]
  | cons c cs =>
    unfold splitChars
    split
    · simp
    · split <;> simp

theorem splitChars_of_not_mem (sep : Char) (cs : List Char) (h : sep ∉ cs) :
    splitChars sep cs = [cs] := by
  induction cs with
  | nil => rfl
  | cons c cs ih =>
    have hc : c ≠ sep := fun e => h (by simp [e])
    have hcs : sep ∉ cs := fun e => h (by simp [e])
    simp [splitChars, hc, ih hcs]

theorem splitChars_append_sep (sep : Char) (p rest : List Char) (h : sep ∉ p) :
    splitChars sep (p ++ sep :: rest) = p :: splitChars sep rest := by
  induction p with
  | nil => simp [splitChars]
  | cons c cs ih =>
    have hc : c ≠ sep := fun e => h (by simp [e])
    have hcs : sep ∉ cs := fun e => h (by simp [e])
    simp [splitChars, hc, ih hcs]

/-- A clause `name:arg` with no further `:` splits into its name and its
argument. -/
theorem split_clause (name arg : String) (h1 : ':' ∉ name.data) (h2 : ':' ∉ arg.data) :
    strings.Split (name ++ ":" ++ arg) ':' = [name, arg] := by
  have e : (name ++ ":" ++ arg).data = name.data ++ ':' :: arg.data := by
    simp [String.data_append]
  simp [strings.Split, e, splitChars_append_sep _ _ _ h1, splitChars_of_not_mem _ _ h2]

/-- A text without the separator is its own single piece. -/
theorem split_of_not_mem (s : String) (sep : Char) (h : sep ∉ s.data) :
    strings.Split s sep = [s] := by
  simp [strings.Split, splitChars_of_not_mem _ _ h]

theorem digitValue_isSome_iff (c : Char) :
    (digitValue c).isSome ↔ ('0' ≤ c ∧ c ≤ '9') := by
  unfold digitValue
  split <;> simp_all

theorem parseDigits_chars (cs : List Char) (acc n : Nat) (h : parseDigits cs acc = some n) :
    ∀ c ∈ cs, '0' ≤ c ∧ c ≤ '9' := by
  induction cs generalizing acc with
  | nil => simp
  | cons c cs ih =>
    intro x hx
    unfold parseDigits at h
    cases hd : digitValue c with
    | none => simp [hd] at h
    | some d =>
      simp [hd] at h
      rcases List.mem_cons.1 hx with rfl | hx
      · exact (digitValue_isSome_iff _).1 (by simp [hd])
      · exact ih _ h x hx

theorem splitSign_cases (cs : List Char) :
    cs = (splitSign cs).2 ∨ cs = '-' :: (splitSign cs).2 ∨ cs = '+' :: (splitSign cs).2 := by
  unfold splitSign
  split
  · exact Or.inr (Or.inl rfl)
  · exact Or.inr (Or.inr rfl)
  · exact Or.inl rfl

theorem splitSign_of_not_sign (c : Char) (cs : List Char) (h1 : c ≠ '-') (h2 : c ≠ '+') :
    splitSign (c :: cs) = (false, c :: cs) := by
  unfold splitSign
  split
  · rename_i heq
    simp only [List.cons.injEq] at heq
    exact absurd heq.1 h1
  · rename_i heq
    simp only [List.cons.injEq] at heq
    exact absurd heq.1 h2
  · rfl

theorem Atoi_chars (s : String) (N : Int) (h : strconv.Atoi s = some N) :
    ∀ c ∈ s.data, numeralChar c := by
  unfold strconv.Atoi at h
  have key : ∀ c ∈ (splitSign s.data).2, '0' ≤ c ∧ c ≤ '9' := by
    simp only [] at h
    split at h
    · simp at h
    · rename_i d ds heq
      rw [heq]
      cases hp : parseDigits (d :: ds) 0 with
      | none => simp [hp] at h
      | some n => exact parseDigits_chars _ _ _ hp
  intro c hc
  rcases splitSign_cases s.data with e | e | e
  · rw [e] at hc
    exact Or.inr (Or.inr (key c hc))
  · rw [e] at hc
    rcases List.mem_cons.1 hc with rfl | hc
    · exact Or.inl rfl
    · exact Or.inr (Or.inr (key c hc))
  · rw [e] at hc
    rcases List.mem_cons.1 hc with rfl | hc
    · exact Or.inr (Or.inl rfl)
    · exact Or.inr (Or.inr (key c hc))

theorem Atoi_not_mem (s : String) (N : Int) (h : strconv.Atoi s = some N)
    (c : Char) (hc : ¬ numeralChar c) : c ∉ s.data :=
  fun hm => hc (Atoi_chars s N h c hm)

theorem colon_not_numeralChar : ¬ numeralChar ':' := by
  unfold numeralChar; decide

theorem semicolon_not_numeralChar : ¬ numeralChar ';' := by
  unfold numeralChar; decide

theorem comma_not_numeralChar : ¬ numeralChar ',' := by
  unfold numeralChar; decide

theorem digitValue_digitChar (d : Nat) (h : d < 10) : digitValue (digitChar d) = some d := by
  interval_cases d <;> decide

theorem parseDigits_append (cs : List Char) (c : Char) (acc : Nat) :
    parseDigits (cs ++ [c]) acc =
      (parseDigits cs acc).bind (fun a => (digitValue c).map (fun d => a * 10 + d)) := by
  induction cs generalizing acc with
  | nil => cases h : digitValue c <;> simp [parseDigits, h]
  | cons x xs ih =>
    cases hx : digitValue x with
    | none => simp [parseDigits, hx]
    | some d => simp [parseDigits, hx, ih]

theorem parseDigits_digits (l : List Nat) (h : ∀ d ∈ l, d < 10) :
    parseDigits (l.reverse.map digitChar) 0 = some (Nat.ofDigits 10 l) := by
  induction l with
  | nil => simp [parseDigits]
  | cons d l ih =>
    have hd : d < 10 := h d (by simp)
    have hl : ∀ x ∈ l, x < 10 := fun x hx => h x (by simp [hx])
    simp only [List.reverse_cons, List.map_append, List.map_cons, List.map_nil]
    rw [parseDigits_append, ih hl, digitValue_digitChar d hd]
    simp [Nat.ofDigits_cons]
    ring

theorem parseDigits_decimal (n : Nat) : parseDigits (decimal n) 0 = some n := by
  unfold decimal
  split
  · subst_vars; decide
  · rw [parseDigits_digits _ (fun d hd => Nat.digits_lt_base (by norm_num) hd),
      Nat.ofDigits_digits]

theorem decimal_chars (n : Nat) : ∀ c ∈ decimal n, ∃ d, d < 10 ∧ c = digitChar d := by
  intro c hc
  unfold decimal at hc
  split at hc
  · simp only [List.mem_singleton] at hc
    exact ⟨0, by norm_num, by rw [hc]; rfl⟩
  · simp only [List.mem_map, List.mem_reverse] at hc
    obtain ⟨d, hd, rfl⟩ := hc
    exact ⟨d, Nat.digits_lt_base (by norm_num) hd, rfl⟩

theorem decimal_ne_nil (n : Nat) : decimal n ≠ [] := by
  unfold decimal
  split
  · simp
  · rename_i h
    simp [Nat.digits_ne_nil_iff_ne_zero, h]

theorem digitChar_not_sign (d : Nat) (h : d < 10) :
    digitChar d ≠ '-' ∧ digitChar d ≠ '+' := by
  interval_cases d <;> decide

theorem Atoi_unsigned (cs : List Char) (n : Nat) (hne : cs ≠ [])
    (hc : ∀ c ∈ cs, c ≠ '-' ∧ c ≠ '+') (hp : parseDigits cs 0 = some n)
    (hr : (n : Int) ≤ (2 : Int) ^ 63 - 1) :
    strconv.Atoi (String.mk cs) = some (n : Int) := by
  cases cs with
  | nil => exact absurd rfl hne
  | cons c rest =>
    have h1 : c ≠ '-' := (hc c (by simp)).1
    have h2 : c ≠ '+' := (hc c (by simp)).2
    have h0 : -(2 : Int) ^ 63 ≤ (n : Int) := by
      have : (0 : Int) ≤ (n : Int) := Int.ofNat_nonneg n
      omega
    simp only [strconv.Atoi, splitSign_of_not_sign c rest h1 h2, hp, Bool.false_eq_true,
      if_false]
    rw [if_pos ⟨h0, hr⟩]

theorem Atoi_negative (cs : List Char) (n : Nat) (hne : cs ≠ [])
    (hp : parseDigits cs 0 = some n) (hr : (n : Int) ≤ (2 : Int) ^ 63) :
    strconv.Atoi (String.mk ('-' :: cs)) = some (-(n : Int)) := by
  cases cs with
  | nil => exact absurd rfl hne
  | cons c rest =>
    have h0 : -(n : Int) ≤ (2 : Int) ^ 63 - 1 := by
      have : (0 : Int) ≤ (n : Int) := Int.ofNat_nonneg n
      omega
    have h1 : -(2 : Int) ^ 63 ≤ -(n : Int) := by omega
    have hs : splitSign ('-' :: c :: rest) = (true, c :: rest) := rfl
    simp only [strconv.Atoi, hs, hp, if_true]
    rw [if_pos ⟨h1, h0⟩]

/-- Every 64-bit integer has a numeral that `strconv.Atoi` reads back. -/
theorem Atoi_Itoa (N : Int) (h1 : -(2 : Int) ^ 63 ≤ N) (h2 : N ≤ (2 : Int) ^ 63 - 1) :
    strconv.Atoi (strconv.Itoa N) = some N := by
  unfold strconv.Itoa
  split
  · rename_i hneg
    have e : -((N.natAbs : Nat) : Int) = N := by omega
    have := Atoi_negative (decimal N.natAbs) N.natAbs (decimal_ne_nil _)
      (parseDigits_decimal _) (by omega)
    rw [this, e]
  · rename_i hpos
    have e : ((N.natAbs : Nat) : Int) = N := by omega
    have := Atoi_unsigned (decimal N.natAbs) N.natAbs (decimal_ne_nil _)
      (fun c hc => by
        obtain ⟨d, hd, rfl⟩ := decimal_chars _ c hc
        exact digitChar_not_sign d hd)
      (parseDigits_decimal _) (by omega)
    rw [this, e]

/-- A numeral that `strconv.Atoi` reads denotes a 64-bit integer. -/
theorem Atoi_range (s : String) (N : Int) (h : strconv.Atoi s = some N) :
    -(2 : Int) ^ 63 ≤ N ∧ N ≤ (2 : Int) ^ 63 - 1 := by
  unfold strconv.Atoi at h
  simp only [] at h
  split at h
  · exact absurd h (by simp)
  · split at h
    · exact absurd h (by simp)
    · by_cases hr : -(2 : Int) ^ 63 ≤ (if (splitSign s.data).1 = true then -((‹Nat› : Nat) : Int)
          else ((‹Nat› : Nat) : Int)) ∧
          (if (splitSign s.data).1 = true then -((‹Nat› : Nat) : Int)
          else ((‹Nat› : Nat) : Int)) ≤ (2 : Int) ^ 63 - 1
      · rw [if_pos hr] at h
        simp only [Option.some.injEq] at h
        rw [← h]
        exact hr
      · rw [if_neg hr] at h
        exact absurd h (by simp)

theorem intercalate_go_data (acc sep : String) (rest : List String) :
    (String.intercalate.go acc sep rest).data = acc.data ++ joinTail sep rest := by
  induction rest generalizing acc with
  | nil => simp [String.intercalate.go, joinTail]
  | cons a rest ih => simp [String.intercalate.go, joinTail, ih, String.data_append]

theorem Join_cons_data (a : String) (rest : List String) (sep : String) :
    (strings.Join (a :: rest) sep).data = a.data ++ joinTail sep rest := by
  simp [strings.Join, String.intercalate, intercalate_go_data]

theorem mem_joinTail (sep : String) (rest : List String) (c : Char)
    (h : c ∈ joinTail sep rest) : c ∈ sep.data ∨ ∃ l ∈ rest, c ∈ l.data := by
  induction rest with
  | nil => simp [joinTail] at h
  | cons a rest ih =>
    simp only [joinTail, List.mem_append] at h
    rcases h with (h | h) | h
    · exact Or.inl h
    · exact Or.inr ⟨a, by simp, h⟩
    · rcases ih h with h | ⟨l, hl, hc⟩
      · exact Or.inl h
      · exact Or.inr ⟨l, by simp [hl], hc⟩

/-- A character of a joined text comes from the separator or from a piece. -/
theorem mem_Join (lits : List String) (sep : String) (c : Char)
    (h : c ∈ (strings.Join lits sep).data) : c ∈ sep.data ∨ ∃ l ∈ lits, c ∈ l.data := by
  cases lits with
  | nil => simp [strings.Join, String.intercalate] at h
  | cons a rest =>
    rw [Join_cons_data, List.mem_append] at h
    rcases h with h | h
    · exact Or.inr ⟨a, by simp, h⟩
    · rcases mem_joinTail _ _ _ h with h | ⟨l, hl, hc⟩
      · exact Or.inl h
      · exact Or.inr ⟨l, by simp [hl], hc⟩

theorem splitChars_joinTail (sep : Char) (p : List Char) (rest : List String)
    (hp : sep ∉ p) (hrest : ∀ l ∈ rest, sep ∉ l.data) :
    splitChars sep (p ++ joinTail (String.mk [sep]) rest) = p :: rest.map String.data := by
  induction rest generalizing p with
  | nil => simp [joinTail, splitChars_of_not_mem _ _ hp]
  | cons a rest ih =>
    have ha : sep ∉ a.data := hrest a (by simp)
    have hr : ∀ l ∈ rest, sep ∉ l.data := fun l hl => hrest l (by simp [hl])
    have e : p ++ joinTail (String.mk [sep]) (a :: rest)
        = p ++ sep :: (a.data ++ joinTail (String.mk [sep]) rest) := by
      simp [joinTail]
    rw [e, splitChars_append_sep _ _ _ hp, ih a.data ha hr]
    simp

/-- Joining literals that hold no comma with commas and splitting at the
commas gives the literals back. -/
theorem split_Join_comma (lits : List String) (hne : lits ≠ [])
    (h : ∀ l ∈ lits, ',' ∉ l.data) :
    strings.Split (strings.Join lits ",") ',' = lits := by
  cases lits with
  | nil => exact absurd rfl hne
  | cons a rest =>
    have ha : ',' ∉ a.data := h a (by simp)
    have hr : ∀ l ∈ rest, ',' ∉ l.data := fun l hl => h l (by simp [hl])
    have e : ("," : String) = String.mk [','] := rfl
    simp only [strings.Split, Join_cons_data]
    rw [e, splitChars_joinTail ',' a.data rest ha hr]
    have hid : (String.mk ∘ String.data) = (id : String → String) := by
      funext x; rfl
    simp [hid]

/-! ## Lemmas on the clauses -/

theorem clauseStep_len (vv : Value) (i : Nat) (field : StructField) (errs : ValidationErrors)
    (arg : String) (N : Int) (fv : Value) (hv : vv.Field i = .ok fv)
    (harg : strconv.Atoi arg = some N) :
    clauseStep vv i field errs ("len:" ++ arg) =
      .ok (if checkLen fv N then errs
        else errs ++ [ValidationError.mk
          (.Errorf ("field " ++ field.Name ++ " has an invalid length"))]) := by
  have hs : strings.Split ("len:" ++ arg) ':' = ["len", arg] :=
    split_clause "len" arg (by decide) (Atoi_not_mem _ _ harg _ colon_not_numeralChar)
  unfold clauseStep
  rw [hs]
  simp [sliceIndex, harg, hv, bind, Except.bind]
  cases checkLen fv N <;> simp

theorem clauseStep_min (vv : Value) (i : Nat) (field : StructField) (errs : ValidationErrors)
    (arg : String) (N : Int) (fv : Value) (hv : vv.Field i = .ok fv)
    (harg : strconv.Atoi arg = some N) :
    clauseStep vv i field errs ("min:" ++ arg) =
      .ok (if checkMinMax fv N minComparator then errs
        else errs ++ [ValidationError.mk
          (.Errorf ("field " ++ field.Name ++ " has value less than min"))]) := by
  have hs : strings.Split ("min:" ++ arg) ':' = ["min", arg] :=
    split_clause "min" arg (by decide) (Atoi_not_mem _ _ harg _ colon_not_numeralChar)
  unfold clauseStep
  rw [hs]
  simp [sliceIndex, harg, hv, bind, Except.bind]
  cases checkMinMax fv N minComparator <;> simp

theorem clauseStep_max (vv : Value) (i : Nat) (field : StructField) (errs : ValidationErrors)
    (arg : String) (N : Int) (fv : Value) (hv : vv.Field i = .ok fv)
    (harg : strconv.Atoi arg = some N) :
    clauseStep vv i field errs ("max:" ++ arg) =
      .ok (if checkMinMax fv N maxComparator then errs
        else errs ++ [ValidationError.mk
          (.Errorf ("field " ++ field.Name ++ " has value bigger than max"))]) := by
  have hs : strings.Split ("max:" ++ arg) ':' = ["max", arg] :=
    split_clause "max" arg (by decide) (Atoi_not_mem _ _ harg _ colon_not_numeralChar)
  unfold clauseStep
  rw [hs]
  simp [sliceIndex, harg, hv, bind, Except.bind]
  cases checkMinMax fv N maxComparator <;> simp

/-- The `in` clause, once its text is split. -/
theorem clauseStep_in (vv : Value) (i : Nat) (field : StructField) (errs : ValidationErrors)
    (toCheck : String) (fv : Value) (hv : vv.Field i = .ok fv) (h : ':' ∉ toCheck.data) :
    clauseStep vv i field errs ("in:" ++ toCheck) =
      (elementType fv).bind (fun rType =>
        (literalsLoop rType (strings.Split toCheck ',') [] errs).bind (fun r =>
          (checkContains fv r.1).bind (fun ok =>
            .ok (if ok then r.2 else r.2 ++ [inFailure field.Name toCheck])))) := by
  have hs : strings.Split ("in:" ++ toCheck) ':' = ["in", toCheck] :=
    split_clause "in" toCheck (by decide) h
  unfold clauseStep
  rw [hs]
  simp only [sliceIndex, List.get?, bind, Except.bind, hv]
  have h1 : ¬ (("in" : String) = "len" ∨ ("in" : String) = "min" ∨ ("in" : String) = "max") := by
    decide
  have h2 : ¬ (("in" : String) = "len") := by decide
  have h3 : ¬ (("in" : String) = "min") := by decide
  have h4 : ¬ (("in" : String) = "max") := by decide
  simp only [h1, h2, h3, h4, if_false, if_true]
  cases elementType fv with
  | error e => rfl
  | ok rType =>
    simp only
    cases literalsLoop rType (strings.Split toCheck ',') [] errs with
    | error e => rfl
    | ok r =>
      simp only
      cases checkContains fv r.1 with
      | error e => rfl
      | ok ok => cases ok <;> simp [inFailure]

/-- The literals loop for an integer field: the literals that parse, in
order, and one syntax failure for each that does not. -/
theorem literalsLoop_int (name : String) (us : List String) (c : List Value)
    (errs : ValidationErrors) :
    literalsLoop (some (GoType.mk .Int name)) us c errs =
      .ok (c ++ (us.filterMap strconv.Atoi).map (Value.int "int"),
        errs ++ (us.filter (fun u => (strconv.Atoi u).isNone)).map (fun _ => syntaxFailure)) := by
  induction us generalizing c errs with
  | nil => simp [literalsLoop]
  | cons u us ih =>
    cases hu : strconv.Atoi u with
    | none => simp [literalsLoop, hu, ih, syntaxFailure]
    | some n => simp [literalsLoop, hu, ih]

/-- The literals loop for a text field: every literal, in order. -/
theorem literalsLoop_str (name : String) (us : List String) (c : List Value)
    (errs : ValidationErrors) :
    literalsLoop (some (GoType.mk .String name)) us c errs =
      .ok (c ++ us.map (Value.str "string"), errs) := by
  induction us generalizing c errs with
  | nil => simp [literalsLoop]
  | cons u us ih => simp [literalsLoop, ih]

theorem checkContainsInner_int (ty : String) (v : Int) (ns : List Int) (ok : Bool) :
    checkContainsInner (.int ty v) (ns.map (Value.int "int")) ok =
      .ok (ok || decide (v ∈ ns)) := by
  induction ns generalizing ok with
  | nil => simp [checkContainsInner]
  | cons n ns ih =>
    simp only [List.map, checkContainsInner, Value.Int, bind, Except.bind, ih]
    by_cases h : v = n <;> cases ok <;> simp [h]

theorem checkContainsInner_str (ty s : String) (us : List String) (ok : Bool) :
    checkContainsInner (.str ty s) (us.map (Value.str "string")) ok =
      .ok (ok || decide (s ∈ us)) := by
  induction us generalizing ok with
  | nil => simp [checkContainsInner]
  | cons u us ih =>
    simp only [List.map, checkContainsInner, Value.String, ih]
    by_cases h : s = u <;> cases ok <;> simp [h]

theorem not_mem_Join (lits : List String) (c : Char) (hc : c ≠ ',')
    (h : ∀ l ∈ lits, c ∉ l.data) : c ∉ (strings.Join lits ",").data := by
  intro hm
  rcases mem_Join _ _ _ hm with h1 | ⟨l, hl, h2⟩
  · have : c = ',' := by simpa using h1
    exact hc this
  · exact h l hl h2

/-- The `in` clause over the literals `lits`, none of which holds a comma or
a colon. -/
theorem clauseStep_in_lits (vv : Value) (i : Nat) (field : StructField)
    (errs : ValidationErrors) (lits : List String) (fv : Value)
    (hv : vv.Field i = .ok fv) (hne : lits ≠ [])
    (hcomma : ∀ l ∈ lits, ',' ∉ l.data) (hcolon : ∀ l ∈ lits, ':' ∉ l.data) :
    clauseStep vv i field errs ("in:" ++ strings.Join lits ",") =
      (elementType fv).bind (fun rType =>
        (literalsLoop rType lits [] errs).bind (fun r =>
          (checkContains fv r.1).bind (fun ok =>
            .ok (if ok then r.2
              else r.2 ++ [ValidationError.mk (.Errorf ("field " ++ field.Name
                ++ " does not occur in " ++ "[" ++ strings.Join lits " " ++ "]"))])))) := by
  rw [clauseStep_in vv i field errs _ fv hv (not_mem_Join lits ':' (by decide) hcolon)]
  simp only [inFailure, split_Join_comma lits hne hcomma, formatStrings, String.append_assoc]

theorem checkContains_int (ty : String) (v : Int) (ns : List Int) :
    checkContains (.int ty v) (ns.map (Value.int "int")) = .ok (decide (v ∈ ns)) := by
  simp only [checkContains, createReflectionSlice, checkContainsLoop, bind, Except.bind,
    checkContainsInner_int]
  by_cases h : v ∈ ns <;> simp [h]

theorem checkContains_str (ty s : String) (us : List String) :
    checkContains (.str ty s) (us.map (Value.str "string")) = .ok (decide (s ∈ us)) := by
  simp only [checkContains, createReflectionSlice, checkContainsLoop, bind, Except.bind,
    checkContainsInner_str]
  by_cases h : s ∈ us <;> simp [h]

theorem filter_isNone_of_all_isSome (lits : List String)
    (h : ∀ l ∈ lits, (strconv.Atoi l).isSome) :
    lits.filter (fun u => (strconv.Atoi u).isNone) = [] := by
  rw [List.filter_eq_nil_iff]
  intro l hl
  have := h l hl
  cases hx : strconv.Atoi l <;> simp_all

/-- The `in` clause on an `int` value, every literal a numeral. -/
theorem clauseStep_in_int (vv : Value) (i : Nat) (field : StructField)
    (errs : ValidationErrors) (lits : List String) (ty : String) (v : Int)
    (hv : vv.Field i = .ok (.int ty v)) (hne : lits ≠ [])
    (hp : ∀ l ∈ lits, (strconv.Atoi l).isSome) :
    clauseStep vv i field errs ("in:" ++ strings.Join lits ",") =
      .ok (if ∃ l ∈ lits, strconv.Atoi l = some v then errs
        else errs ++ [ValidationError.mk (.Errorf ("field " ++ field.Name
          ++ " does not occur in " ++ "[" ++ strings.Join lits " " ++ "]"))]) := by
  have hnot : ∀ (c : Char), ¬ numeralChar c → ∀ l ∈ lits, c ∉ l.data := by
    intro c hc l hl
    have := hp l hl
    cases hx : strconv.Atoi l with
    | none => simp [hx] at this
    | some n => exact Atoi_not_mem l n hx c hc
  rw [clauseStep_in_lits vv i field errs lits _ hv hne
    (hnot ',' comma_not_numeralChar) (hnot ':' colon_not_numeralChar)]
  have he : elementType (.int ty v) = .ok (some (GoType.mk .Int ty)) := rfl
  simp only [he, Except.bind, literalsLoop_int, filter_isNone_of_all_isSome lits hp,
    List.nil_append, List.map_nil, List.append_nil, checkContains_int]
  have hiff : v ∈ lits.filterMap strconv.Atoi ↔ ∃ l ∈ lits, strconv.Atoi l = some v := by
    simp [List.mem_filterMap]
  by_cases h : ∃ l ∈ lits, strconv.Atoi l = some v
  · simp only [hiff.2 h, decide_True, if_true, if_pos h]
  · have h2 : ¬ v ∈ lits.filterMap strconv.Atoi := fun x => h (hiff.1 x)
    simp only [h2, decide_False, if_neg h]
    simp

/-- The `in` clause on a string value, no literal holding a comma or colon. -/
theorem clauseStep_in_str (vv : Value) (i : Nat) (field : StructField)
    (errs : ValidationErrors) (lits : List String) (ty s : String)
    (hv : vv.Field i = .ok (.str ty s)) (hne : lits ≠ [])
    (hcomma : ∀ l ∈ lits, ',' ∉ l.data) (hcolon : ∀ l ∈ lits, ':' ∉ l.data) :
    clauseStep vv i field errs ("in:" ++ strings.Join lits ",") =
      .ok (if s ∈ lits then errs
        else errs ++ [ValidationError.mk (.Errorf ("field " ++ field.Name
          ++ " does not occur in " ++ "[" ++ strings.Join lits " " ++ "]"))]) := by
  rw [clauseStep_in_lits vv i field errs lits _ hv hne hcomma hcolon]
  have he : elementType (.str ty s) = .ok (some (GoType.mk .String ty)) := rfl
  simp only [he, Except.bind, literalsLoop_str, List.nil_append, checkContains_str]
  by_cases h : s ∈ lits
  · simp only [h, decide_True, if_true]
  · simp only [h, decide_False, if_false]
    simp

/-- The visible fields of a struct with one field that promotes nothing. -/
theorem VisibleFields_oneField (T : String) (d : FieldDecl) (v : Value)
    (hname : d.Name ≠ "") (hemb : ∀ w, walkEmbedded w v = w) :
    VisibleFields (oneField T d v) =
      .ok [StructField.mk d.Name d.Exported d.validateTag d.Anonymous [0]] := by
  simp [VisibleFields, oneField, walk, hide, hemb, List.lookup, hname]

/-- The run of `Validate` on a struct whose single field is exported and
carries the one clause `b`. -/
theorem Validate_oneField (T F : String) (anon : Bool) (v : Value) (b : String)
    (hname : F ≠ "") (hb : ';' ∉ b.data) (hemb : ∀ w, walkEmbedded w v = w) :
    Validate (some (oneField T (FieldDecl.mk F true (some b) anon) v)) =
      (clauseStep (oneField T (FieldDecl.mk F true (some b) anon) v) 0
        (StructField.mk F true (some b) anon [0]) [] b).map returnedOf := by
  have hk : (oneField T (FieldDecl.mk F true (some b) anon) v).Kind = Kind.Struct := rfl
  have hvf := VisibleFields_oneField T (FieldDecl.mk F true (some b) anon) v hname hemb
  simp only [Validate, hk, hvf]
  simp [fieldsLoop, fieldStep, StructField.Lookup, StructField.IsExported,
    split_of_not_mem _ _ hb, clausesLoop, bind, Except.bind, Except.map, returnedOf]
  generalize clauseStep _ _ _ _ _ = r
  cases r with
  | error e => simp
  | ok errs => by_cases h : errs = [] <;> simp [h]

theorem walkEmbedded_int (w : visibleFieldsWalker) (ty : String) (n : Int) :
    walkEmbedded w (.int ty n) = w := by
  simp [walkEmbedded]

theorem walkEmbedded_str (w : visibleFieldsWalker) (ty s : String) :
    walkEmbedded w (.str ty s) = w := by
  simp [walkEmbedded]

theorem walkEmbedded_list (w : visibleFieldsWalker) (a : Bool) (ty : String) (xs : List Value) :
    walkEmbedded w (.list a ty xs) = w := by
  simp [walkEmbedded]

theorem walkEmbedded_other (w : visibleFieldsWalker) (k : OtherKind) (ty : String) (n : Int) :
    walkEmbedded w (.other k ty n) = w := by
  simp [walkEmbedded]

theorem Field_oneField (T : String) (d : FieldDecl) (v : Value) :
    (oneField T d v).Field 0 = .ok v := rfl

/-- A numeric clause holds no `;`. -/
theorem numeric_clause_no_semicolon (name arg : String) (N : Int)
    (hname : ';' ∉ name.data) (harg : strconv.Atoi arg = some N) :
    ';' ∉ (name ++ arg).data := by
  simp [String.data_append, hname, Atoi_not_mem _ _ harg _ semicolon_not_numeralChar]

/-! ## The clauses on the value read -/

/-- For every value whose kind is not `Struct` (an integer, a string, a slice
or array, a pointer, also a pointer to a struct whose tags are malformed),
`Validate` returns exactly `ErrNotStruct`: no panic, no `ValidationErrors`
list, no other error. -/
theorem Validate_not_struct (v : Value) (h : v.Kind ≠ Kind.Struct) :
    Validate (some v) = .ok (.sentinel .ErrNotStruct) := by
  simp [Validate, h]

/-- Where `vv.Field(i)` returns the string `s`, the clause `len:N` (its
argument any numeral `strconv.Atoi` reads as `N`) adds no failure when the
length of `s` in bytes is `N`, and otherwise adds exactly the one failure
`field F has an invalid length`; so does `Validate` on the struct whose one
exported field `F` holds `s` and carries that clause. -/
theorem len_text_field (vv : Value) (i : Nat) (field : StructField)
    (errs : ValidationErrors) (T F ty s arg : String) (anon : Bool) (N : Int)
    (hv : vv.Field i = .ok (.str ty s)) (harg : strconv.Atoi arg = some N) (hF : F ≠ "") :
    clauseStep vv i field errs ("len:" ++ arg) =
      .ok (if len s = N then errs
        else errs ++ [ValidationError.mk
          (.Errorf ("field " ++ field.Name ++ " has an invalid length"))]) ∧
    Validate (some (oneField T (FieldDecl.mk F true (some ("len:" ++ arg)) anon) (.str ty s))) =
      .ok (if len s = N then .nil
        else .errors [ValidationError.mk (.Errorf ("field " ++ F ++ " has an invalid length"))]) := by
  have hc : checkLen (.str ty s) N = decide (len s = N) := by
    by_cases h : len s = N <;> simp [checkLen, createReflectionSlice, checkLenLoop, Value.String, h]
  constructor
  · rw [clauseStep_len vv i field errs arg N _ hv harg, hc]
    by_cases h : len s = N <;> simp [h]
  · rw [Validate_oneField T F anon _ _ hF
      (numeric_clause_no_semicolon "len:" arg N (by decide) harg) (walkEmbedded_str · ty s),
      clauseStep_len _ 0 _ [] arg N _ (Field_oneField _ _ _) harg, hc]
    by_cases h : len s = N <;> simp [h, Except.map, returnedOf]

/-- Where `vv.Field(i)` returns the `int` `v`, the clause `min:N` adds no
failure when `v >= N` and otherwise exactly the one failure
`field F has value less than min`; the clause `max:N` adds no failure when
`v <= N` and otherwise exactly the one failure
`field F has value bigger than max`; so does `Validate` on the struct whose
one exported field `F` holds `v` and carries the clause. -/
theorem min_max_int_field (vv : Value) (i : Nat) (field : StructField)
    (errs : ValidationErrors) (T F ty arg : String) (anon : Bool) (v N : Int)
    (hv : vv.Field i = .ok (.int ty v)) (harg : strconv.Atoi arg = some N) (hF : F ≠ "") :
    (clauseStep vv i field errs ("min:" ++ arg) =
        .ok (if v ≥ N then errs
          else errs ++ [ValidationError.mk
            (.Errorf ("field " ++ field.Name ++ " has value less than min"))]) ∧
      clauseStep vv i field errs ("max:" ++ arg) =
        .ok (if v ≤ N then errs
          else errs ++ [ValidationError.mk
            (.Errorf ("field " ++ field.Name ++ " has value bigger than max"))])) ∧
    (Validate (some (oneField T (FieldDecl.mk F true (some ("min:" ++ arg)) anon) (.int ty v))) =
        .ok (if v ≥ N then .nil
          else .errors [ValidationError.mk
            (.Errorf ("field " ++ F ++ " has value less than min"))]) ∧
      Validate (some (oneField T (FieldDecl.mk F true (some ("max:" ++ arg)) anon) (.int ty v))) =
        .ok (if v ≤ N then .nil
          else .errors [ValidationError.mk
            (.Errorf ("field " ++ F ++ " has value bigger than max"))])) := by
  have hmin : checkMinMax (.int ty v) N minComparator = decide (v ≥ N) := by
    by_cases h : v ≥ N <;>
      simp [checkMinMax, createReflectionSlice, checkMinMaxLoop, minComparator, h]
  have hmax : checkMinMax (.int ty v) N maxComparator = decide (v ≤ N) := by
    by_cases h : v ≤ N <;>
      simp [checkMinMax, createReflectionSlice, checkMinMaxLoop, maxComparator, h]
  refine ⟨⟨?_, ?_⟩, ?_, ?_⟩
  · rw [clauseStep_min vv i field errs arg N _ hv harg, hmin]
    by_cases h : v ≥ N <;> simp [h]
  · rw [clauseStep_max vv i field errs arg N _ hv harg, hmax]
    by_cases h : v ≤ N <;> simp [h]
  · rw [Validate_oneField T F anon _ _ hF
      (numeric_clause_no_semicolon "min:" arg N (by decide) harg) (walkEmbedded_int · ty v),
      clauseStep_min _ 0 _ [] arg N _ (Field_oneField _ _ _) harg, hmin]
    by_cases h : v ≥ N <;> simp [h, Except.map, returnedOf]
  · rw [Validate_oneField T F anon _ _ hF
      (numeric_clause_no_semicolon "max:" arg N (by decide) harg) (walkEmbedded_int · ty v),
      clauseStep_max _ 0 _ [] arg N _ (Field_oneField _ _ _) harg, hmax]
    by_cases h : v ≤ N <;> simp [h, Except.map, returnedOf]

/-- Where `vv.Field(i)` returns the string `s`, `min:N` and `max:N` compare
the length of `s` in bytes with `N`, never a number `s` may spell: `min:N`
adds no failure when `len(s) >= N` and otherwise exactly the one failure
`field F has value less than min`, `max:N` adds no failure when `len(s) <= N`
and otherwise exactly the one failure `field F has value bigger than max`; so
does `Validate` on the struct whose one exported field `F` holds `s`. -/
theorem min_max_text_field (vv : Value) (i : Nat) (field : StructField)
    (errs : ValidationErrors) (T F ty s arg : String) (anon : Bool) (N : Int)
    (hv : vv.Field i = .ok (.str ty s)) (harg : strconv.Atoi arg = some N) (hF : F ≠ "") :
    (clauseStep vv i field errs ("min:" ++ arg) =
        .ok (if len s ≥ N then errs
          else errs ++ [ValidationError.mk
            (.Errorf ("field " ++ field.Name ++ " has value less than min"))]) ∧
      clauseStep vv i field errs ("max:" ++ arg) =
        .ok (if len s ≤ N then errs
          else errs ++ [ValidationError.mk
            (.Errorf ("field " ++ field.Name ++ " has value bigger than max"))])) ∧
    (Validate (some (oneField T (FieldDecl.mk F true (some ("min:" ++ arg)) anon) (.str ty s))) =
        .ok (if len s ≥ N then .nil
          else .errors [ValidationError.mk
            (.Errorf ("field " ++ F ++ " has value less than min"))]) ∧
      Validate (some (oneField T (FieldDecl.mk F true (some ("max:" ++ arg)) anon) (.str ty s))) =
        .ok (if len s ≤ N then .nil
          else .errors [ValidationError.mk
            (.Errorf ("field " ++ F ++ " has value bigger than max"))])) := by
  have hmin : checkMinMax (.str ty s) N minComparator = decide (len s ≥ N) := by
    by_cases h : len s ≥ N <;>
      simp [checkMinMax, createReflectionSlice, checkMinMaxLoop, minComparator, h]
  have hmax : checkMinMax (.str ty s) N maxComparator = decide (len s ≤ N) := by
    by_cases h : len s ≤ N <;>
      simp [checkMinMax, createReflectionSlice, checkMinMaxLoop, maxComparator, h]
  refine ⟨⟨?_, ?_⟩, ?_, ?_⟩
  · rw [clauseStep_min vv i field errs arg N _ hv harg, hmin]
    by_cases h : len s ≥ N <;> simp [h]
  · rw [clauseStep_max vv i field errs arg N _ hv harg, hmax]
    by_cases h : len s ≤ N <;> simp [h]
  · rw [Validate_oneField T F anon _ _ hF
      (numeric_clause_no_semicolon "min:" arg N (by decide) harg) (walkEmbedded_str · ty s),
      clauseStep_min _ 0 _ [] arg N _ (Field_oneField _ _ _) harg, hmin]
    by_cases h : len s ≥ N <;> simp [h, Except.map, returnedOf]
  · rw [Validate_oneField T F anon _ _ hF
      (numeric_clause_no_semicolon "max:" arg N (by decide) harg) (walkEmbedded_str · ty s),
      clauseStep_max _ 0 _ [] arg N _ (Field_oneField _ _ _) harg, hmax]
    by_cases h : len s ≤ N <;> simp [h, Except.map, returnedOf]

theorem in_clause_no_semicolon (lits : List String) (h : ∀ l ∈ lits, ';' ∉ l.data) :
    ';' ∉ ("in:" ++ strings.Join lits ",").data := by
  have h2 := not_mem_Join lits ';' (by decide) h
  simp only [String.data_append, List.mem_append, not_or]
  exact ⟨by decide, h2⟩

/-- Where `vv.Field(i)` returns the `int` `v`, the clause
`in:l1,...,ln` whose literals are all numerals adds no failure when some
literal denotes `v`, and on a field whose value is the string `s`, the clause
whose literals hold no `:` (nor the separators `,` and `;`) adds no failure
when some literal equals `s`; otherwise it adds exactly the one failure
`field F does not occur in [l1 l2 ... ln]`. So does `Validate` on the struct
whose one exported field `F` holds the value and carries the clause. -/
theorem in_scalar_field (vv : Value) (i : Nat) (field : StructField)
    (errs : ValidationErrors) (T F : String) (anon : Bool) (lits : List String)
    (hne : lits ≠ []) (hF : F ≠ "") :
    (∀ (ty : String) (v : Int), vv.Field i = .ok (.int ty v) →
      (∀ l ∈ lits, (strconv.Atoi l).isSome) →
      clauseStep vv i field errs ("in:" ++ strings.Join lits ",") =
        .ok (if ∃ l ∈ lits, strconv.Atoi l = some v then errs
          else errs ++ [ValidationError.mk (.Errorf ("field " ++ field.Name
            ++ " does not occur in " ++ "[" ++ strings.Join lits " " ++ "]"))]) ∧
      Validate (some (oneField T
          (FieldDecl.mk F true (some ("in:" ++ strings.Join lits ",")) anon) (.int ty v))) =
        .ok (if ∃ l ∈ lits, strconv.Atoi l = some v then .nil
          else .errors [ValidationError.mk (.Errorf ("field " ++ F
            ++ " does not occur in " ++ "[" ++ strings.Join lits " " ++ "]"))])) ∧
    (∀ (ty s : String), vv.Field i = .ok (.str ty s) →
      (∀ l ∈ lits, ',' ∉ l.data ∧ ':' ∉ l.data ∧ ';' ∉ l.data) →
      clauseStep vv i field errs ("in:" ++ strings.Join lits ",") =
        .ok (if s ∈ lits then errs
          else errs ++ [ValidationError.mk (.Errorf ("field " ++ field.Name
            ++ " does not occur in " ++ "[" ++ strings.Join lits " " ++ "]"))]) ∧
      Validate (some (oneField T
          (FieldDecl.mk F true (some ("in:" ++ strings.Join lits ",")) anon) (.str ty s))) =
        .ok (if s ∈ lits then .nil
          else .errors [ValidationError.mk (.Errorf ("field " ++ F
            ++ " does not occur in " ++ "[" ++ strings.Join lits " " ++ "]"))])) := by
  constructor
  · intro ty v hv hp
    have hsemi : ∀ l ∈ lits, ';' ∉ l.data := by
      intro l hl
      have := hp l hl
      cases hx : strconv.Atoi l with
      | none => simp [hx] at this
      | some n => exact Atoi_not_mem l n hx _ semicolon_not_numeralChar
    refine ⟨clauseStep_in_int vv i field errs lits ty v hv hne hp, ?_⟩
    rw [Validate_oneField T F anon _ _ hF (in_clause_no_semicolon lits hsemi)
      (walkEmbedded_int · ty v),
      clauseStep_in_int _ 0 _ [] lits ty v (Field_oneField _ _ _) hne hp]
    by_cases h : ∃ l ∈ lits, strconv.Atoi l = some v
    · simp only [if_pos h]; rfl
    · simp only [if_neg h]; rfl
  · intro ty s hv hsep
    have hcomma : ∀ l ∈ lits, ',' ∉ l.data := fun l hl => (hsep l hl).1
    have hcolon : ∀ l ∈ lits, ':' ∉ l.data := fun l hl => (hsep l hl).2.1
    have hsemi : ∀ l ∈ lits, ';' ∉ l.data := fun l hl => (hsep l hl).2.2
    refine ⟨clauseStep_in_str vv i field errs lits ty s hv hne hcomma hcolon, ?_⟩
    rw [Validate_oneField T F anon _ _ hF (in_clause_no_semicolon lits hsemi)
      (walkEmbedded_str · ty s),
      clauseStep_in_str _ 0 _ [] lits ty s (Field_oneField _ _ _) hne hcomma hcolon]
    by_cases h : s ∈ lits
    · simp only [if_pos h]; rfl
    · simp only [if_neg h]; rfl

/-- Counterexample to C4 as stated: the text field `F` holds `a:b`, the one
literal of its clause `in:a:b`, and yet the clause adds a failure, which
lists `[a]`: the argument read is the text between the first and the second
`:`. And in `Outer`, which embeds `Inner{X}`, the clause `in:1,2,3` of `A`,
which holds 2, is judged against the next field, which holds 7, and fails. -/
theorem C4_in_scalar_field_counterexample :
    Validate (some (oneField "main.T" (FieldDecl.mk "F" true (some "in:a:b") false)
        (.str "string" "a:b"))) =
      .ok (.errors [ValidationError.mk (.Errorf "field F does not occur in [a]")]) ∧
    "a:b" ∈ ["a:b"] ∧ "in:a:b" = "in:" ++ strings.Join ["a:b"] "," ∧
    Validate (some (paddedRecord (FieldDecl.mk "A" true (some "in:1,2,3") false)
        (.int "int" 2) (.int "int" 7))) =
      .ok (.errors [ValidationError.mk (.Errorf "field A does not occur in [1 2 3]")]) ∧
    (∃ l ∈ ["1", "2", "3"], strconv.Atoi l = some 2) := by
  decide

theorem checkLenLoop_all (N : Int) (xs : List Value) :
    checkLenLoop N xs = true ↔ ∀ x ∈ xs, checkLenLoop N [x] = true := by
  induction xs with
  | nil => simp [checkLenLoop]
  | cons x xs ih =>
    by_cases h : len x.String = N <;> simp [checkLenLoop, h, ih]

theorem checkMinMaxLoop_all (m : Int) (c : comparator) (xs : List Value) :
    checkMinMaxLoop m c xs = true ↔ ∀ x ∈ xs, checkMinMaxLoop m c [x] = true := by
  induction xs with
  | nil => simp [checkMinMaxLoop]
  | cons x xs ih =>
    cases x with
    | int ty n => cases h : c m n <;> simp [checkMinMaxLoop, h, ih]
    | str ty s => cases h : c m (len s) <;> simp [checkMinMaxLoop, h, ih]
    | list a ty es => simp [checkMinMaxLoop, ih]
    | struct ty fs => simp [checkMinMaxLoop, ih]
    | pointer ty e => simp [checkMinMaxLoop, ih]
    | other k ty n => simp [checkMinMaxLoop, ih]

theorem ite_append_eq_self (b : Bool) (errs : ValidationErrors) (m : ValidationError) :
    ((Except.ok (if b then errs else errs ++ [m]) : Except Panic ValidationErrors) = .ok errs)
      ↔ b = true := by
  cases b <;> simp

/-- The three numeric clauses at once. -/
theorem clauseStep_numeric (vv : Value) (i : Nat) (field : StructField)
    (errs : ValidationErrors) (name arg : String) (N : Int) (fv : Value)
    (hname : name = "len" ∨ name = "min" ∨ name = "max")
    (hv : vv.Field i = .ok fv) (harg : strconv.Atoi arg = some N) :
    clauseStep vv i field errs (name ++ ":" ++ arg) =
      .ok (if numericCheck name fv N then errs
        else errs ++ [ValidationError.mk (.Errorf (clauseMessage name field.Name))]) := by
  rcases hname with rfl | rfl | rfl
  · have e : "len" ++ ":" ++ arg = "len:" ++ arg := rfl
    rw [e, clauseStep_len vv i field errs arg N fv hv harg]
    simp [numericCheck, clauseMessage]
  · have e : "min" ++ ":" ++ arg = "min:" ++ arg := rfl
    rw [e, clauseStep_min vv i field errs arg N fv hv harg]
    simp [numericCheck, clauseMessage]
  · have e : "max" ++ ":" ++ arg = "max:" ++ arg := rfl
    rw [e, clauseStep_max vv i field errs arg N fv hv harg]
    simp [numericCheck, clauseMessage]

theorem Validate_numeric (T F : String) (anon : Bool) (name arg : String) (N : Int)
    (fv : Value) (hname : name = "len" ∨ name = "min" ∨ name = "max")
    (harg : strconv.Atoi arg = some N) (hF : F ≠ "") (hemb : ∀ w, walkEmbedded w fv = w) :
    Validate (some (oneField T (FieldDecl.mk F true (some (name ++ ":" ++ arg)) anon) fv)) =
      .ok (if numericCheck name fv N then .nil
        else .errors [ValidationError.mk (.Errorf (clauseMessage name F))]) := by
  have hsemi : ';' ∉ (name ++ ":" ++ arg).data := by
    have h1 : ';' ∉ (name ++ ":").data := by
      rcases hname with rfl | rfl | rfl <;> decide
    exact numeric_clause_no_semicolon _ arg N h1 harg
  rw [Validate_oneField T F anon fv _ hF hsemi hemb,
    clauseStep_numeric _ 0 _ [] name arg N fv hname (Field_oneField _ _ _) harg]
  cases numericCheck name fv N <;> simp [Except.map, returnedOf]

theorem numericCheck_list (name : String) (a : Bool) (lty : String) (elems : List Value)
    (N : Int)
    (h : ∀ e ∈ elems, (∃ ty n, e = Value.int ty n) ∨ (∃ ty s, e = Value.str ty s)) :
    numericCheck name (.list a lty elems) N = true ↔
      ∀ e ∈ elems, numericCheck name e N = true := by
  have hs : ∀ e ∈ elems, createReflectionSlice e = [e] := by
    intro e he
    rcases h e he with ⟨ty, n, rfl⟩ | ⟨ty, s, rfl⟩ <;> rfl
  have hl : checkLen (.list a lty elems) N = checkLenLoop N elems := rfl
  have hm : ∀ c, checkMinMax (.list a lty elems) N c = checkMinMaxLoop N c elems :=
    fun _ => rfl
  have hle : ∀ e ∈ elems, checkLen e N = checkLenLoop N [e] := by
    intro e he
    unfold checkLen
    rw [hs e he]
  have hme : ∀ c, ∀ e ∈ elems, checkMinMax e N c = checkMinMaxLoop N c [e] := by
    intro c e he
    unfold checkMinMax
    rw [hs e he]
  unfold numericCheck
  by_cases h1 : name = "len"
  · simp only [h1, if_true, hl]
    rw [checkLenLoop_all]
    exact forall_congr' fun e => forall_congr' fun he => by rw [hle e he]
  · by_cases h2 : name = "min"
    · subst h2
      have h3 : ¬ (("min" : String) = "len") := by decide
      simp only [h3, if_true, if_false, hm]
      rw [checkMinMaxLoop_all]
      exact forall_congr' fun e => forall_congr' fun he => by rw [hme _ e he]
    · simp only [h1, h2, if_false, hm]
      rw [checkMinMaxLoop_all]
      exact forall_congr' fun e => forall_congr' fun he => by rw [hme _ e he]

/-- Where `vv.Field(i)` returns a slice or array of `int`s or of strings
(empty or not), each of the clauses `len:N`, `min:N`, `max:N` adds no failure when every
element, held by a scalar field of its own, passes the same clause, and
otherwise adds exactly one failure for the field and clause, however many
elements fail; so does `Validate` on the struct whose one exported field `F`
holds the list. -/
theorem list_field_numeric (vv : Value) (i : Nat) (field : StructField)
    (errs : ValidationErrors) (T F : String) (d : FieldDecl) (anon a : Bool) (lty : String)
    (elems : List Value) (name arg : String) (N : Int)
    (hname : name = "len" ∨ name = "min" ∨ name = "max")
    (hv : vv.Field i = .ok (.list a lty elems)) (harg : strconv.Atoi arg = some N)
    (hF : F ≠ "")
    (helems : ∀ e ∈ elems, (∃ ty n, e = Value.int ty n) ∨ (∃ ty s, e = Value.str ty s)) :
    clauseStep vv i field errs (name ++ ":" ++ arg) =
      .ok (if ∀ e ∈ elems,
            clauseStep (oneField T d e) 0 field errs (name ++ ":" ++ arg) = .ok errs
        then errs
        else errs ++ [ValidationError.mk (.Errorf (clauseMessage name field.Name))]) ∧
    Validate (some (oneField T (FieldDecl.mk F true (some (name ++ ":" ++ arg)) anon)
        (.list a lty elems))) =
      .ok (if ∀ e ∈ elems,
            Validate (some (oneField T
              (FieldDecl.mk F true (some (name ++ ":" ++ arg)) anon) e)) = .ok .nil
        then .nil
        else .errors [ValidationError.mk (.Errorf (clauseMessage name F))]) := by
  have hlist := numericCheck_list name a lty elems N helems
  have hwalk : ∀ e ∈ elems, ∀ w, walkEmbedded w e = w := by
    intro e he w
    rcases helems e he with ⟨ty, n, rfl⟩ | ⟨ty, s, rfl⟩
    · exact walkEmbedded_int w ty n
    · exact walkEmbedded_str w ty s
  constructor
  · rw [clauseStep_numeric vv i field errs name arg N _ hname hv harg]
    have hiff : (∀ e ∈ elems,
        clauseStep (oneField T d e) 0 field errs (name ++ ":" ++ arg) = .ok errs) ↔
        numericCheck name (.list a lty elems) N = true := by
      rw [hlist]
      refine forall_congr' fun e => forall_congr' fun _ => ?_
      rw [clauseStep_numeric _ 0 field errs name arg N e hname (Field_oneField _ _ _) harg]
      exact ite_append_eq_self _ _ _
    by_cases h : numericCheck name (.list a lty elems) N = true
    · rw [if_pos (hiff.2 h), if_pos h]
    · rw [if_neg (fun x => h (hiff.1 x)), if_neg h]
  · rw [Validate_numeric T F anon name arg N _ hname harg hF (walkEmbedded_list · a lty elems)]
    have hiff : (∀ e ∈ elems, Validate (some (oneField T
          (FieldDecl.mk F true (some (name ++ ":" ++ arg)) anon) e)) = .ok .nil) ↔
        numericCheck name (.list a lty elems) N = true := by
      rw [hlist]
      refine forall_congr' fun e => forall_congr' fun he => ?_
      rw [Validate_numeric T F anon name arg N e hname harg hF (hwalk e he)]
      cases numericCheck name e N <;> simp
    by_cases h : numericCheck name (.list a lty elems) N = true
    · rw [if_pos (hiff.2 h), if_pos h]
    · rw [if_neg (fun x => h (hiff.1 x)), if_neg h]

theorem checkContainsLoop_int (ns xs : List Int) (ety : String) :
    checkContainsLoop (ns.map (Value.int "int")) (xs.map (Value.int ety)) =
      .ok (decide (∀ x ∈ xs, x ∈ ns)) := by
  induction xs with
  | nil => simp [checkContainsLoop]
  | cons x xs ih =>
    simp only [List.map, checkContainsLoop, bind, Except.bind, checkContainsInner_int, ih]
    by_cases h : x ∈ ns <;> simp [h]

/-- The clause `in:1,2,3` on a list of `int`s that is not empty. -/
theorem clauseStep_in123_int_list (vv : Value) (i : Nat) (field : StructField)
    (errs : ValidationErrors) (a : Bool) (lty ety : String) (x : Int) (xs : List Int)
    (hv : vv.Field i = .ok (.list a lty ((x :: xs).map (Value.int ety)))) :
    clauseStep vv i field errs "in:1,2,3" =
      .ok (if ∀ y ∈ x :: xs, y ∈ [(1 : Int), 2, 3] then errs
        else errs ++ [ValidationError.mk
          (.Errorf ("field " ++ field.Name ++ " does not occur in [1 2 3]"))]) := by
  have e : ("in:1,2,3" : String) = "in:" ++ "1,2,3" := by decide
  rw [e, clauseStep_in vv i field errs "1,2,3" _ hv (by decide)]
  have he : elementType (.list a lty ((x :: xs).map (Value.int ety)))
      = .ok (some (GoType.mk .Int ety)) := by
    cases a <;> rfl
  have hsplit : strings.Split "1,2,3" ',' = ["1", "2", "3"] := by decide
  have hf : (["1", "2", "3"] : List String).filterMap strconv.Atoi = [1, 2, 3] := by decide
  have hn : (["1", "2", "3"] : List String).filter (fun u => (strconv.Atoi u).isNone) = [] := by
    decide
  have hc : checkContains (.list a lty ((x :: xs).map (Value.int ety)))
      (([1, 2, 3] : List Int).map (Value.int "int"))
      = .ok (decide (∀ y ∈ x :: xs, y ∈ [(1 : Int), 2, 3])) := by
    simp only [checkContains, createReflectionSlice]
    exact checkContainsLoop_int [1, 2, 3] (x :: xs) ety
  simp only [he, Except.bind, hsplit, literalsLoop_int, hf, hn, List.nil_append, List.map_nil,
    List.append_nil, hc, inFailure, formatStrings]
  have hj : "[" ++ strings.Join ["1", "2", "3"] " " ++ "]" = "[1 2 3]" := by decide
  rw [hj]
  by_cases h : ∀ y ∈ x :: xs, y ∈ [(1 : Int), 2, 3]
  · rw [if_pos h, decide_eq_true h]
    rfl
  · rw [if_neg h, decide_eq_false h]
    simp [String.append_assoc]

/-- C6, the run on the failing input and beside it: with `in:1,2,3` on an
empty slice (or array) of `int`s `Validate` does not complete, `Index(0)`
panics out of range, although `len:1` on the same empty slice completes; on
every slice or array of `int`s with at least one element `Validate` completes
and reports no failure when every element is among 1, 2, 3, and otherwise
exactly one membership failure. -/
theorem C6_in_empty_list_panics :
    Validate (some emptySliceRecord) = .error .indexOutOfRange ∧
    Validate (some emptyArrayRecord) = .error .indexOutOfRange ∧
    Validate (some (oneField "main.T" (FieldDecl.mk "F" true (some "len:1") false)
        (.list false "[]int" []))) = .ok .nil ∧
    ∀ (T lty ety : String) (anon a : Bool) (x : Int) (xs : List Int),
      Validate (some (oneField T (FieldDecl.mk "F" true (some "in:1,2,3") anon)
          (.list a lty ((x :: xs).map (Value.int ety))))) =
        .ok (if ∀ y ∈ x :: xs, y ∈ [(1 : Int), 2, 3] then .nil
          else .errors [ValidationError.mk (.Errorf "field F does not occur in [1 2 3]")]) := by
  refine ⟨by decide, by decide, by decide, ?_⟩
  intro T lty ety anon a x xs
  rw [Validate_oneField T "F" anon _ "in:1,2,3" (by decide) (by decide)
    (walkEmbedded_list · a lty _),
    clauseStep_in123_int_list _ 0 _ [] a lty ety x xs (Field_oneField _ _ _)]
  by_cases h : ∀ y ∈ x :: xs, y ∈ [(1 : Int), 2, 3]
  · simp only [if_pos h]; rfl
  · simp only [if_neg h]; rfl

/-! ## Lemmas on the aggregation -/

theorem literalsLoop_acc (rType : Option GoType) (us : List String) (c : List Value)
    (errs : ValidationErrors) :
    literalsLoop rType us c errs =
      (literalsLoop rType us [] []).map (fun r => (c ++ r.1, errs ++ r.2)) := by
  induction us generalizing c errs with
  | nil => simp [literalsLoop, Except.map]
  | cons u us ih =>
    cases rType with
    | none => simp [literalsLoop, Except.map]
    | some t =>
      have key : ∀ (c1 : List Value) (e1 : ValidationErrors),
          literalsLoop (some t) us (c ++ c1) (errs ++ e1) =
            (literalsLoop (some t) us c1 e1).map (fun r => (c ++ r.1, errs ++ r.2)) := by
        intro c1 e1
        rw [ih (c ++ c1) (errs ++ e1), ih c1 e1]
        cases literalsLoop (some t) us [] [] <;> simp [Except.map, List.append_assoc]
      unfold literalsLoop
      simp only []
      split
      · split
        · have := key [] [ValidationError.mk .ErrInvalidValidatorSyntax]
          simpa using this
        · rename_i n _
          have := key [Value.int "int" n] []
          simpa using this
      · have := key [Value.str "string" u] []
        simpa using this
      · have := key [] []
        simpa using this

/-- A clause appends its failures to those gathered so far and drops none. -/
theorem clauseStep_acc (vv : Value) (i : Nat) (field : StructField)
    (errs : ValidationErrors) (b : String) :
    clauseStep vv i field errs b = (clauseStep vv i field [] b).map (fun e => errs ++ e) := by
  unfold clauseStep
  cases sliceIndex (strings.Split b ':') 0 with
  | error e => rfl
  | ok validator =>
    cases sliceIndex (strings.Split b ':') 1 with
    | error e => rfl
    | ok toCheck =>
      simp only [bind, Except.bind]
      split
      · simp [Except.map]
      · split
        · cases vv.Field i with
          | error e => rfl
          | ok fv => simp only []; split <;> simp [Except.map]
        · split
          · cases vv.Field i with
            | error e => rfl
            | ok fv => simp only []; split <;> simp [Except.map]
          · split
            · cases vv.Field i with
              | error e => rfl
              | ok fv => simp only []; split <;> simp [Except.map]
            · split
              · cases vv.Field i with
                | error e => rfl
                | ok fv =>
                  simp only []
                  cases elementType fv with
                  | error e => rfl
                  | ok rType =>
                    simp only []
                    rw [literalsLoop_acc rType _ [] errs]
                    cases literalsLoop rType (strings.Split toCheck ',') [] [] with
                    | error e => rfl
                    | ok r =>
                      simp only [Except.map, List.nil_append]
                      cases checkContains fv r.1 with
                      | error e => rfl
                      | ok ok => cases ok <;> simp [List.append_assoc]
              · simp [Except.map]

theorem clausesLoop_eq (vv : Value) (i : Nat) (field : StructField) (bs : List String)
    (errs : ValidationErrors) :
    clausesLoop vv i field bs errs =
      (specFailures vv i field bs).map (fun e => errs ++ e) := by
  induction bs generalizing errs with
  | nil => simp [clausesLoop, specFailures, Except.map]
  | cons b bs ih =>
    simp only [clausesLoop, specFailures, bind, Except.bind]
    rw [clauseStep_acc vv i field errs b]
    cases clauseStep vv i field [] b with
    | error e => rfl
    | ok e1 =>
      simp only [Except.map]
      rw [ih (errs ++ e1)]
      cases specFailures vv i field bs with
      | error e => rfl
      | ok es => simp [Except.map, List.append_assoc]

theorem fieldStep_eq (vv : Value) (i : Nat) (field : StructField) (errs : ValidationErrors) :
    fieldStep vv i field errs = (fieldFailures vv i field).map (fun e => errs ++ e) := by
  unfold fieldStep fieldFailures StructField.Lookup StructField.IsExported
  cases field.validateTag with
  | none => simp [Except.map]
  | some s =>
    cases field.Exported with
    | false => simp [Except.map]
    | true => simpa using clausesLoop_eq vv i field (strings.Split s ';') errs

theorem fieldsLoop_eq (vv : Value) (i : Nat) (fields : List StructField)
    (errs : ValidationErrors) :
    fieldsLoop vv i fields errs = (recordFailures vv i fields).map (fun e => errs ++ e) := by
  induction fields generalizing i errs with
  | nil => simp [fieldsLoop, recordFailures, Except.map]
  | cons f fs ih =>
    simp only [fieldsLoop, recordFailures, bind, Except.bind]
    rw [fieldStep_eq vv i f errs]
    cases fieldFailures vv i f with
    | error e => rfl
    | ok e1 =>
      simp only [Except.map]
      rw [ih (i + 1) (errs ++ e1)]
      cases recordFailures vv (i + 1) fs with
      | error e => rfl
      | ok es => simp [Except.map, List.append_assoc]

/-- The run of `Validate` on a value whose visible fields are `vf`. -/
theorem Validate_eq (vv : Value) (vf : List StructField) (hvis : VisibleFields vv = .ok vf) :
    Validate (some vv) = (recordFailures vv 0 vf).map returnedOf := by
  have hk : vv.Kind = Kind.Struct := by
    cases vv <;> simp [VisibleFields] at hvis
    rfl
  simp only [Validate, hk, hvis, bind, Except.bind, ne_eq, not_true_eq_false, if_false]
  rw [fieldsLoop_eq vv 0 vf []]
  cases recordFailures vv 0 vf with
  | error e => rfl
  | ok es => by_cases h : es = [] <;> simp [Except.map, returnedOf, h]

theorem recordFailures_append (vv : Value) (i : Nat) (pre post : List StructField) :
    recordFailures vv i (pre ++ post) =
      (recordFailures vv i pre).bind (fun a =>
        (recordFailures vv (i + pre.length) post).map (fun b => a ++ b)) := by
  induction pre generalizing i with
  | nil =>
    simp only [List.nil_append, recordFailures, Except.bind, List.length_nil, Nat.add_zero]
    cases recordFailures vv i post <;> simp [Except.map]
  | cons f fs ih =>
    simp only [List.cons_append, recordFailures, bind, Except.bind, List.length_cons]
    cases fieldFailures vv i f with
    | error e => rfl
    | ok e1 =>
      simp only [List.append_eq]
      rw [ih (i + 1)]
      have hi : i + 1 + fs.length = i + (fs.length + 1) := by omega
      rw [hi]
      cases recordFailures vv (i + 1) fs with
      | error e => rfl
      | ok a =>
        simp only [Except.bind]
        cases recordFailures vv (i + (fs.length + 1)) post with
        | error e => rfl
        | ok b => simp [Except.map, List.append_assoc]

theorem recordFailures_untagged (vv : Value) (i : Nat) (vf : List StructField)
    (h : ∀ f ∈ vf, f.validateTag = none) : recordFailures vv i vf = .ok [] := by
  induction vf generalizing i with
  | nil => rfl
  | cons f fs ih =>
    have hf : f.validateTag = none := h f (by simp)
    have hfs : ∀ g ∈ fs, g.validateTag = none := fun g hg => h g (by simp [hg])
    simp [recordFailures, fieldFailures, hf, ih (i + 1) hfs, bind, Except.bind]

theorem mem_modify {α : Type} (g : α → α) (l : List α) (k : Nat) (x : α)
    (h : x ∈ l.modify g k) : x ∈ l ∨ ∃ y ∈ l, x = g y := by
  induction l generalizing k with
  | nil => simp at h
  | cons a l ih =>
    cases k with
    | zero =>
      simp only [List.modify_zero_cons, List.mem_cons] at h
      rcases h with rfl | h
      · exact Or.inr ⟨a, by simp, rfl⟩
      · exact Or.inl (by simp [h])
    | succ k =>
      simp only [List.modify_succ_cons, List.mem_cons] at h
      rcases h with rfl | h
      · exact Or.inl (by simp)
      · rcases ih k h with h | ⟨y, hy, rfl⟩
        · exact Or.inl (by simp [h])
        · exact Or.inr ⟨y, by simp [hy], rfl⟩

theorem hide_untagged (w : visibleFieldsWalker) (name : String) (index : List Nat)
    (hw : ∀ f ∈ w.fields, f.validateTag = none) :
    ∀ f ∈ (hide w name index).1, f.validateTag = none := by
  have hc : ∀ k, ∀ f ∈ clearName w.fields k, f.validateTag = none := by
    intro k f hf
    rcases mem_modify _ _ _ _ hf with h | ⟨y, hy, rfl⟩
    · exact hw f h
    · exact hw y hy
  unfold hide
  split
  · exact hw
  · split
    · exact hw
    · split
      · exact hc _
      · split
        · exact hc _
        · exact hw

theorem visit_untagged (w : visibleFieldsWalker) (d : FieldDecl) (i : Nat)
    (hw : ∀ f ∈ w.fields, f.validateTag = none) (hd : d.validateTag = none) :
    ∀ f ∈ (if (hide w d.Name (w.index ++ [i])).2 = true then
        visibleFieldsWalker.mk ((d.Name, (hide w d.Name (w.index ++ [i])).1.length) :: w.byName)
          ((hide w d.Name (w.index ++ [i])).1 ++
            [StructField.mk d.Name d.Exported d.validateTag d.Anonymous (w.index ++ [i])])
          (w.index ++ [i])
        else visibleFieldsWalker.mk w.byName (hide w d.Name (w.index ++ [i])).1
          (w.index ++ [i])).fields, f.validateTag = none := by
  have h1 := hide_untagged w d.Name (w.index ++ [i]) hw
  split
  · intro f hf
    simp only [List.mem_append, List.mem_singleton] at hf
    rcases hf with hf | rfl
    · exact h1 f hf
    · exact hd
  · exact h1

mutual
theorem walk_untagged (w : visibleFieldsWalker) (fs : Fields) (i : Nat)
    (hw : ∀ f ∈ w.fields, f.validateTag = none) (hfs : fs.untagged) :
    ∀ f ∈ (walk w fs i).fields, f.validateTag = none := by
  cases fs with
  | nil => simpa [walk] using hw
  | cons d v rest =>
    simp only [Fields.untagged] at hfs
    obtain ⟨hd, hv, hrest⟩ := hfs
    simp only [walk]
    apply walk_untagged _ rest (i + 1) _ hrest
    simp only []
    split
    · rename_i ha
      exact walkEmbedded_untagged _ v (visit_untagged w d i hw hd) (hv ha)
    · exact visit_untagged w d i hw hd
theorem walkEmbedded_untagged (w : visibleFieldsWalker) (v : Value)
    (hw : ∀ f ∈ w.fields, f.validateTag = none) (hv : v.untagged) :
    ∀ f ∈ (walkEmbedded w v).fields, f.validateTag = none := by
  cases v with
  | struct ty fs =>
    simp only [walkEmbedded]
    exact walk_untagged w fs 0 hw (by simpa [Value.untagged] using hv)
  | pointer ty e =>
    cases e with
    | struct ty2 fs =>
      simp only [walkEmbedded]
      exact walk_untagged w fs 0 hw (by simpa [Value.untagged] using hv)
    | int _ _ => simpa [walkEmbedded] using hw
    | str _ _ => simpa [walkEmbedded] using hw
    | list _ _ _ => simpa [walkEmbedded] using hw
    | pointer _ _ => simpa [walkEmbedded] using hw
    | other _ _ _ => simpa [walkEmbedded] using hw
  | int _ _ => simpa [walkEmbedded] using hw
  | str _ _ => simpa [walkEmbedded] using hw
  | list _ _ _ => simpa [walkEmbedded] using hw
  | other _ _ _ => simpa [walkEmbedded] using hw
end

/-- When no declaration of a struct, its promoted fields included, carries a
specification, no visible field does. -/
theorem VisibleFields_untagged (ty : String) (fs : Fields) (vf : List StructField)
    (hvis : VisibleFields (.struct ty fs) = .ok vf) (h : fs.untagged) :
    ∀ f ∈ vf, f.validateTag = none := by
  simp only [VisibleFields, Except.ok.injEq] at hvis
  subst hvis
  intro f hf
  have hf2 := (List.mem_filter.1 hf).1
  exact walk_untagged _ fs 0 (by simp) h f hf2

theorem walk_flat (fs : Fields) (w : visibleFieldsWalker) (i : Nat)
    (hflat : fs.flat) (hnodup : fs.names.Nodup)
    (hnew : ∀ name ∈ fs.names, w.byName.lookup name = none) :
    (walk w fs i).fields = w.fields ++ declaredFields w.index fs i := by
  cases fs with
  | nil => simp [walk, declaredFields]
  | cons d v rest =>
    simp only [Fields.flat] at hflat
    simp only [Fields.names, List.nodup_cons] at hnodup
    have hd : w.byName.lookup d.Name = none := hnew d.Name (by simp [Fields.names])
    have hh : hide w d.Name (w.index ++ [i]) = (w.fields, true) := by
      simp [hide, hd]
    simp only [walk, hh, hflat.1, if_true, Bool.false_eq_true, if_false]
    rw [walk_flat rest _ (i + 1) hflat.2 hnodup.2]
    · simp [declaredFields, List.dropLast_concat, hflat.1]
    · intro name hname
      have hne : name ≠ d.Name := fun e => hnodup.1 (e ▸ hname)
      have hb : (name == d.Name) = false := by simpa using hne
      have := hnew name (by simp [Fields.names, hname])
      simp [List.lookup, hb, this]

theorem declaredFields_names (idx : List Nat) (fs : Fields) (i : Nat) :
    ∀ f ∈ declaredFields idx fs i, f.Name ∈ fs.names := by
  cases fs with
  | nil => simp [declaredFields]
  | cons d v rest =>
    intro f hf
    simp only [declaredFields, List.mem_cons] at hf
    rcases hf with rfl | hf
    · simp [Fields.names]
    · simp [Fields.names, declaredFields_names idx rest (i + 1) f hf]

/-- The visible fields of a struct that embeds nothing and whose field names
are distinct and not empty: the declared fields, in order, the field at
position `k` with the index path `[k]`. -/
theorem VisibleFields_flat (ty : String) (fs : Fields) (hflat : fs.flat)
    (hnodup : fs.names.Nodup) (hnames : "" ∉ fs.names) :
    VisibleFields (.struct ty fs) = .ok (declaredFields [] fs 0) := by
  have hw := walk_flat fs (visibleFieldsWalker.mk [] [] []) 0 hflat hnodup
    (fun _ _ => rfl)
  simp only [List.nil_append] at hw
  simp only [VisibleFields, hw]
  congr 1
  rw [List.filter_eq_self]
  intro f hf
  have := declaredFields_names [] fs 0 f hf
  have hne : f.Name ≠ "" := fun e => hnames (e ▸ this)
  simpa using hne

/-- The declared field at position `k`, whose value `Field(k)` returns, is
the `k`-th of `declaredFields`, with the index path `idx ++ [i + k]`. -/
theorem declaredFields_get (idx : List Nat) (fs : Fields) (i k : Nat) (d : FieldDecl)
    (v : Value) (h : fs.toList.get? k = some (d, v)) :
    (declaredFields idx fs i).get? k =
      some (StructField.mk d.Name d.Exported d.validateTag d.Anonymous (idx ++ [i + k])) := by
  cases fs with
  | nil => simp [Fields.toList] at h
  | cons d0 v0 rest =>
    cases k with
    | zero =>
      simp only [Fields.toList, List.get?_cons_zero, Option.some.injEq, Prod.mk.injEq] at h
      obtain ⟨rfl, rfl⟩ := h
      simp [declaredFields]
    | succ k =>
      simp only [Fields.toList, List.get?_cons_succ] at h
      have := declaredFields_get idx rest (i + 1) k d v h
      simp only [declaredFields, List.get?_cons_succ, this]
      have e : i + 1 + k = i + (k + 1) := by omega
      rw [e]

/-- The run of `Validate` on a struct that embeds nothing: the loop meets the
field declared at position `k` at position `k`, so that every specification
is judged against the value of its own field. -/
theorem Validate_flat (ty : String) (fs : Fields) (hflat : fs.flat)
    (hnodup : fs.names.Nodup) (hnames : "" ∉ fs.names) :
    Validate (some (.struct ty fs)) =
      (recordFailures (.struct ty fs) 0 (declaredFields [] fs 0)).map returnedOf :=
  Validate_eq _ _ (VisibleFields_flat ty fs hflat hnodup hnames)

/-- C8: when a visible field `f` of the record is unexported and carries a
specification, the field loop adds for it exactly the one failure
`ErrValidateForUnexportedFields`, whatever the specification text, the record
and the position (no clause is parsed, no value is read); and `Validate`
returns the failures of the fields before `f`, then that one failure, then the
failures of the fields after `f`, judged as in any other run. -/
theorem C8_unexported_field (vv : Value) (pre post : List StructField) (f : StructField)
    (s : String) (hvis : VisibleFields vv = .ok (pre ++ f :: post))
    (hexp : f.Exported = false) (htag : f.validateTag = some s) :
    (∀ (ww : Value) (i : Nat) (errs : ValidationErrors),
      fieldStep ww i f errs =
        .ok (errs ++ [ValidationError.mk .ErrValidateForUnexportedFields])) ∧
    Validate (some vv) =
      (recordFailures vv 0 pre).bind (fun a =>
        (recordFailures vv (pre.length + 1) post).map (fun b =>
          ReturnedError.errors
            (a ++ [ValidationError.mk .ErrValidateForUnexportedFields] ++ b))) := by
  constructor
  · intro ww i errs
    simp [fieldStep, StructField.Lookup, StructField.IsExported, htag, hexp]
  · rw [Validate_eq vv _ hvis, recordFailures_append]
    cases recordFailures vv 0 pre with
    | error e => rfl
    | ok a =>
      simp only [Except.bind, recordFailures, fieldFailures, htag, hexp, bind, Nat.zero_add]
      cases recordFailures vv (pre.length + 1) post with
      | error e => rfl
      | ok b => simp [Except.map, returnedOf]

/-- Witness of C8: the unexported field `secret` carries the clause `min`,
which has no `:`; the result is its one failure between those of its
neighbours. -/
theorem C8_unexported_field_witness :
    VisibleFields secretRecord =
      .ok ([StructField.mk "Name" true (some "len:5") false [0]] ++
        StructField.mk "secret" false (some "min") false [1] ::
          [StructField.mk "Age" true (some "min:18") false [2]]) ∧
    (StructField.mk "secret" false (some "min") false [1]).Exported = false ∧
    (StructField.mk "secret" false (some "min") false [1]).validateTag = some "min" ∧
    ((∀ (ww : Value) (i : Nat) (errs : ValidationErrors),
      fieldStep ww i (StructField.mk "secret" false (some "min") false [1]) errs =
        .ok (errs ++ [ValidationError.mk .ErrValidateForUnexportedFields])) ∧
    Validate (some secretRecord) =
      (recordFailures secretRecord 0
          [StructField.mk "Name" true (some "len:5") false [0]]).bind (fun a =>
        (recordFailures secretRecord
            ([StructField.mk "Name" true (some "len:5") false [0]].length + 1)
            [StructField.mk "Age" true (some "min:18") false [2]]).map (fun b =>
          ReturnedError.errors
            (a ++ [ValidationError.mk .ErrValidateForUnexportedFields] ++ b)))) ∧
    Validate (some secretRecord) =
      .ok (.errors [ValidationError.mk .ErrValidateForUnexportedFields,
        ValidationError.mk (.Errorf "field Age has value less than min")]) :=
  ⟨by decide, rfl, rfl,
    C8_unexported_field secretRecord _ _ _ "min" (by decide) rfl rfl, by decide⟩

/-- C9: a record none of whose visible fields carries a specification
validates successfully: `Validate` returns `nil`, whatever the kinds,
visibilities and values of the fields. -/
theorem C9_no_specification (vv : Value) (vf : List StructField)
    (hvis : VisibleFields vv = .ok vf) (h : ∀ f ∈ vf, f.validateTag = none) :
    Validate (some vv) = .ok .nil := by
  rw [Validate_eq vv vf hvis, recordFailures_untagged vv 0 vf h]
  rfl

/-- Witness of C9: a record with a text field, an unexported bool, an embedded
struct and an empty slice. -/
theorem C9_no_specification_witness :
    VisibleFields plainRecord =
      .ok [StructField.mk "Name" true none false [0],
        StructField.mk "hidden" false none false [1],
        StructField.mk "Inner" true none true [2],
        StructField.mk "Ratio" true none false [2, 0],
        StructField.mk "Tags" true none false [3]] ∧
    (∀ f ∈ [StructField.mk "Name" true none false [0],
        StructField.mk "hidden" false none false [1],
        StructField.mk "Inner" true none true [2],
        StructField.mk "Ratio" true none false [2, 0],
        StructField.mk "Tags" true none false [3]], f.validateTag = none) ∧
    Validate (some plainRecord) = .ok .nil :=
  ⟨by decide, by decide,
    C9_no_specification plainRecord
      [StructField.mk "Name" true none false [0],
        StructField.mk "hidden" false none false [1],
        StructField.mk "Inner" true none true [2],
        StructField.mk "Ratio" true none false [2, 0],
        StructField.mk "Tags" true none false [3]] (by decide) (by decide)⟩

/-- C10: on every record `Validate` returns exactly the failures of its
visible fields in declaration order, and within a field of its clauses in
clause order, each clause judged on its own: nothing gathered is dropped and
a failure does not stop the run. The result is `nil` when that concatenation
is empty and the list otherwise; a clause that panics aborts the run, so that
nothing is returned. -/
theorem C10_failures_concatenated (vv : Value) (vf : List StructField)
    (hvis : VisibleFields vv = .ok vf) :
    Validate (some vv) =
      (recordFailures vv 0 vf).map
        (fun errs => if errs = [] then ReturnedError.nil else ReturnedError.errors errs) := by
  rw [Validate_eq vv vf hvis]
  cases recordFailures vv 0 vf with
  | error e => rfl
  | ok errs => by_cases h : errs = [] <;> simp [Except.map, returnedOf, h]

/-- Witness of C10, the scenario of the specification: `Age` 17 under
`min:18` and `Code` `CCCC` under `len:4;in:AAAA,BBBB` give the two failures,
in that order. -/
theorem C10_failures_concatenated_witness :
    VisibleFields scenario =
      .ok [StructField.mk "Age" true (some "min:18") false [0],
        StructField.mk "Code" true (some "len:4;in:AAAA,BBBB") false [1]] ∧
    Validate (some scenario) =
      (recordFailures scenario 0
        [StructField.mk "Age" true (some "min:18") false [0],
          StructField.mk "Code" true (some "len:4;in:AAAA,BBBB") false [1]]).map
        (fun errs => if errs = [] then ReturnedError.nil else ReturnedError.errors errs) ∧
    recordFailures scenario 0
        [StructField.mk "Age" true (some "min:18") false [0],
          StructField.mk "Code" true (some "len:4;in:AAAA,BBBB") false [1]] =
      .ok [ValidationError.mk (.Errorf "field Age has value less than min"),
        ValidationError.mk (.Errorf "field Code does not occur in [AAAA BBBB]")] ∧
    Validate (some scenario) =
      .ok (.errors [ValidationError.mk (.Errorf "field Age has value less than min"),
        ValidationError.mk (.Errorf "field Code does not occur in [AAAA BBBB]")]) :=
  ⟨by decide, C10_failures_concatenated scenario _ (by decide), by decide, by decide⟩

/-! ## Lemmas on the clauses of a specification -/

theorem clausesLoop_append (vv : Value) (i : Nat) (field : StructField)
    (pre post : List String) (errs : ValidationErrors) :
    clausesLoop vv i field (pre ++ post) errs =
      (clausesLoop vv i field pre errs).bind (fun e => clausesLoop vv i field post e) := by
  induction pre generalizing errs with
  | nil => simp [clausesLoop, Except.bind]
  | cons b bs ih =>
    simp only [List.cons_append, clausesLoop, bind, Except.bind]
    cases clauseStep vv i field errs b with
    | error e => rfl
    | ok e1 =>
      simp only [List.append_eq]
      rw [ih e1]
      rfl

/-- A clause whose first piece is none of the four names adds nothing. -/
theorem clauseStep_unknown (vv : Value) (i : Nat) (field : StructField)
    (errs : ValidationErrors) (b name arg : String) (rest : List String)
    (hsplit : strings.Split b ':' = name :: arg :: rest)
    (h1 : name ≠ "len") (h2 : name ≠ "min") (h3 : name ≠ "max") (h4 : name ≠ "in") :
    clauseStep vv i field errs b = .ok errs := by
  unfold clauseStep
  rw [hsplit]
  simp [sliceIndex, bind, Except.bind, h1, h2, h3, h4]

/-- A numeric clause whose argument is no numeral adds one syntax failure. -/
theorem clauseStep_not_numeral (vv : Value) (i : Nat) (field : StructField)
    (errs : ValidationErrors) (b name arg : String) (rest : List String)
    (hsplit : strings.Split b ':' = name :: arg :: rest)
    (hname : name = "len" ∨ name = "min" ∨ name = "max")
    (harg : strconv.Atoi arg = none) :
    clauseStep vv i field errs b = .ok (errs ++ [syntaxFailure]) := by
  unfold clauseStep
  rw [hsplit]
  simp [sliceIndex, bind, Except.bind, hname, harg, syntaxFailure]

/-- The field loop body on an exported field with the specification `s`. -/
theorem fieldStep_exported (vv : Value) (i : Nat) (field : StructField)
    (errs : ValidationErrors) (s : String) (hexp : field.Exported = true)
    (htag : field.validateTag = some s) :
    fieldStep vv i field errs = clausesLoop vv i field (strings.Split s ';') errs := by
  simp [fieldStep, StructField.Lookup, StructField.IsExported, htag, hexp]

theorem specFailures_append (vv : Value) (i : Nat) (field : StructField)
    (pre post : List String) :
    specFailures vv i field (pre ++ post) =
      (specFailures vv i field pre).bind (fun a =>
        (specFailures vv i field post).map (fun c => a ++ c)) := by
  induction pre with
  | nil =>
    simp only [List.nil_append, specFailures, Except.bind]
    cases specFailures vv i field post <;> simp [Except.map]
  | cons b bs ih =>
    simp only [List.cons_append, specFailures, bind, Except.bind]
    cases clauseStep vv i field [] b with
    | error e => rfl
    | ok e1 =>
      simp only [List.append_eq]
      rw [ih]
      cases specFailures vv i field bs with
      | error e => rfl
      | ok a =>
        simp only [Except.bind]
        cases specFailures vv i field post with
        | error e => rfl
        | ok c => simp [Except.map, List.append_assoc]

/-- C11, as amended: a clause named `len`, `min` or `max` whose argument, the
text between its first `:` and its second (or its end), is one that
`strconv.Atoi` rejects (as in `min:abc`) adds exactly the one failure
`ErrInvalidValidatorSyntax` and nothing else; on an exported field whose
specification holds it between the clauses `pre` and `post`, the field loop
adds the failures of `pre`, that one failure, then the failures of `post`,
each clause judged on its own. -/
theorem C11_non_integer_argument (vv : Value) (i : Nat) (field : StructField)
    (errs : ValidationErrors) (s b name arg : String) (rest pre post : List String)
    (hsplit : strings.Split b ':' = name :: arg :: rest)
    (hname : name = "len" ∨ name = "min" ∨ name = "max")
    (harg : strconv.Atoi arg = none)
    (hexp : field.Exported = true) (htag : field.validateTag = some s)
    (hs : strings.Split s ';' = pre ++ b :: post) :
    clauseStep vv i field errs b =
      .ok (errs ++ [ValidationError.mk .ErrInvalidValidatorSyntax]) ∧
    fieldStep vv i field errs =
      (specFailures vv i field pre).bind (fun a =>
        (specFailures vv i field post).map (fun c =>
          errs ++ (a ++ [ValidationError.mk .ErrInvalidValidatorSyntax] ++ c))) := by
  have hb := clauseStep_not_numeral vv i field [] b name arg rest hsplit hname harg
  refine ⟨clauseStep_not_numeral vv i field errs b name arg rest hsplit hname harg, ?_⟩
  rw [fieldStep_exported vv i field errs s hexp htag, hs, clausesLoop_eq, specFailures_append]
  cases specFailures vv i field pre with
  | error e => rfl
  | ok a =>
    simp only [Except.bind, specFailures, hb, bind]
    cases specFailures vv i field post with
    | error e => rfl
    | ok c => simp [Except.map, syntaxFailure]

/-- Witness of C11: `min:abc` between `len:4` and `max:3` on the text
`hello`; the three clauses give one failure each, in clause order. -/
theorem C11_non_integer_argument_witness :
    strings.Split "min:abc" ':' = "min" :: "abc" :: [] ∧
    ("min" = "len" ∨ "min" = "min" ∨ "min" = "max") ∧
    strconv.Atoi "abc" = none ∧
    (StructField.mk "Code" true (some "len:4;min:abc;max:3") false [0]).Exported = true ∧
    (StructField.mk "Code" true (some "len:4;min:abc;max:3") false [0]).validateTag =
      some "len:4;min:abc;max:3" ∧
    strings.Split "len:4;min:abc;max:3" ';' = ["len:4"] ++ "min:abc" :: ["max:3"] ∧
    (clauseStep badArgumentRecord 0
        (StructField.mk "Code" true (some "len:4;min:abc;max:3") false [0]) [] "min:abc" =
      .ok ([] ++ [ValidationError.mk .ErrInvalidValidatorSyntax]) ∧
    fieldStep badArgumentRecord 0
        (StructField.mk "Code" true (some "len:4;min:abc;max:3") false [0]) [] =
      (specFailures badArgumentRecord 0
          (StructField.mk "Code" true (some "len:4;min:abc;max:3") false [0])
          ["len:4"]).bind (fun a =>
        (specFailures badArgumentRecord 0
            (StructField.mk "Code" true (some "len:4;min:abc;max:3") false [0])
            ["max:3"]).map (fun c =>
          [] ++ (a ++ [ValidationError.mk .ErrInvalidValidatorSyntax] ++ c)))) ∧
    Validate (some badArgumentRecord) =
      .ok (.errors [ValidationError.mk (.Errorf "field Code has an invalid length"),
        ValidationError.mk .ErrInvalidValidatorSyntax,
        ValidationError.mk (.Errorf "field Code has value bigger than max")]) :=
  ⟨by decide, by decide, by decide, rfl, rfl, by decide,
    C11_non_integer_argument badArgumentRecord 0
      (StructField.mk "Code" true (some "len:4;min:abc;max:3") false [0]) []
      "len:4;min:abc;max:3" "min:abc" "min" "abc" [] ["len:4"] ["max:3"]
      (by decide) (by decide) (by decide) rfl rfl (by decide),
    by decide⟩

/-- C20: a clause of the form `name:argument` whose name is none of `len`,
`min`, `max`, `in` (a misspelt name, a name with spaces around it) adds no
failure of any kind; a specification of an exported field that holds it
between the clauses `pre` and `post` is judged exactly as the clauses `pre`
followed by `post` are. -/
theorem C20_unknown_clause_ignored (vv : Value) (i : Nat) (field : StructField)
    (errs : ValidationErrors) (s b name arg : String) (rest pre post : List String)
    (hsplit : strings.Split b ':' = name :: arg :: rest)
    (hname : name ≠ "len" ∧ name ≠ "min" ∧ name ≠ "max" ∧ name ≠ "in")
    (hexp : field.Exported = true) (htag : field.validateTag = some s)
    (hs : strings.Split s ';' = pre ++ b :: post) :
    clauseStep vv i field errs b = .ok errs ∧
    clausesLoop vv i field (pre ++ b :: post) errs =
      clausesLoop vv i field (pre ++ post) errs ∧
    fieldStep vv i field errs = clausesLoop vv i field (pre ++ post) errs := by
  have hb : ∀ e, clauseStep vv i field e b = .ok e := fun e =>
    clauseStep_unknown vv i field e b name arg rest hsplit hname.1 hname.2.1 hname.2.2.1
      hname.2.2.2
  have hloop : clausesLoop vv i field (pre ++ b :: post) errs =
      clausesLoop vv i field (pre ++ post) errs := by
    rw [clausesLoop_append, clausesLoop_append]
    cases clausesLoop vv i field pre errs with
    | error e => rfl
    | ok e1 => simp only [Except.bind, clausesLoop, hb, bind]
  refine ⟨hb errs, hloop, ?_⟩
  rw [fieldStep_exported vv i field errs s hexp htag, hs, hloop]

/-- Witness of C20: the misspelt `mim:18` before `min:18` on the value 17;
only `min:18` reports. -/
theorem C20_unknown_clause_ignored_witness :
    strings.Split "mim:18" ':' = "mim" :: "18" :: [] ∧
    ("mim" ≠ "len" ∧ "mim" ≠ "min" ∧ "mim" ≠ "max" ∧ "mim" ≠ "in") ∧
    (StructField.mk "Age" true (some "mim:18;min:18") false [0]).Exported = true ∧
    (StructField.mk "Age" true (some "mim:18;min:18") false [0]).validateTag =
      some "mim:18;min:18" ∧
    strings.Split "mim:18;min:18" ';' = [] ++ "mim:18" :: ["min:18"] ∧
    (clauseStep misspeltRecord 0
        (StructField.mk "Age" true (some "mim:18;min:18") false [0]) [] "mim:18" = .ok [] ∧
    clausesLoop misspeltRecord 0
        (StructField.mk "Age" true (some "mim:18;min:18") false [0])
        ([] ++ "mim:18" :: ["min:18"]) [] =
      clausesLoop misspeltRecord 0
        (StructField.mk "Age" true (some "mim:18;min:18") false [0])
        ([] ++ ["min:18"]) [] ∧
    fieldStep misspeltRecord 0
        (StructField.mk "Age" true (some "mim:18;min:18") false [0]) [] =
      clausesLoop misspeltRecord 0
        (StructField.mk "Age" true (some "mim:18;min:18") false [0])
        ([] ++ ["min:18"]) []) ∧
    Validate (some misspeltRecord) =
      .ok (.errors [ValidationError.mk (.Errorf "field Age has value less than min")]) :=
  ⟨by decide, by decide, rfl, rfl, by decide,
    C20_unknown_clause_ignored misspeltRecord 0
      (StructField.mk "Age" true (some "mim:18;min:18") false [0]) []
      "mim:18;min:18" "mim:18" "mim" "18" [] [] ["min:18"]
      (by decide) (by decide) rfl rfl (by decide),
    by decide⟩

/-- C17: `Error()` of a `ValidationErrors` list is the messages of its
failures in list order with one newline between neighbours and none before
the first or after the last: the empty string for the empty list, the message
itself for a list of one, and for a longer list the first message, a newline,
then `Error()` of the rest. -/
theorem C17_Error_joins_messages (e e2 : ValidationError) (rest : ValidationErrors) :
    ValidationErrors.Error [] = "" ∧
    ValidationErrors.Error [e] = e.Err.Error ∧
    ValidationErrors.Error (e :: e2 :: rest) =
      e.Err.Error ++ "\n" ++ ValidationErrors.Error (e2 :: rest) ∧
    ValidationErrors.Error
        [ValidationError.mk (.Errorf "field Age has value less than min"),
          ValidationError.mk .ErrInvalidValidatorSyntax,
          ValidationError.mk (.Errorf "field Code does not occur in [AAAA BBBB]")] =
      "field Age has value less than min\ninvalid validator syntax\n"
        ++ "field Code does not occur in [AAAA BBBB]" := by
  refine ⟨rfl, rfl, ?_, by decide⟩
  apply String.ext
  simp only [ValidationErrors.Error, ValidationErrors.toStrings, List.map, Join_cons_data,
    joinTail, String.data_append, List.append_assoc]

/-- C12, the run on the failing inputs: on the clause `min` (no `:`), and on
the empty clause that ends `min:1;`, `Validate` does not complete:
`strings.Split(b, ":")[1]` panics, index out of range. So does the loop body
on every clause without `:`, whatever the field. The sibling case, the
argument that is no integer in `min:abc`, does report
`ErrInvalidValidatorSyntax`. -/
theorem C12_clause_without_colon_panics :
    Validate (some noColonRecord) = .error .indexOutOfRange ∧
    Validate (some emptyClauseRecord) = .error .indexOutOfRange ∧
    (∀ (vv : Value) (i : Nat) (field : StructField) (errs : ValidationErrors) (b : String),
      ':' ∉ b.data → clauseStep vv i field errs b = .error .indexOutOfRange) ∧
    Validate (some nonIntegerRecord) =
      .ok (.errors [ValidationError.mk .ErrInvalidValidatorSyntax]) := by
  refine ⟨by decide, by decide, ?_, by decide⟩
  intro vv i field errs b hb
  unfold clauseStep
  rw [split_of_not_mem b ':' hb]
  rfl

/-- The `in` clause, for any clause whose first two pieces are `in` and
`toCheck`. -/
theorem clauseStep_in_split (vv : Value) (i : Nat) (field : StructField)
    (errs : ValidationErrors) (b toCheck : String) (rest : List String) (fv : Value)
    (hsplit : strings.Split b ':' = "in" :: toCheck :: rest) (hv : vv.Field i = .ok fv) :
    clauseStep vv i field errs b =
      (elementType fv).bind (fun rType =>
        (literalsLoop rType (strings.Split toCheck ',') [] errs).bind (fun r =>
          (checkContains fv r.1).bind (fun ok =>
            .ok (if ok then r.2 else r.2 ++ [inFailure field.Name toCheck])))) := by
  unfold clauseStep
  rw [hsplit]
  simp only [sliceIndex, List.get?, bind, Except.bind, hv]
  have h1 : ¬ (("in" : String) = "len" ∨ ("in" : String) = "min" ∨ ("in" : String) = "max") := by
    decide
  have h2 : ¬ (("in" : String) = "len") := by decide
  have h3 : ¬ (("in" : String) = "min") := by decide
  have h4 : ¬ (("in" : String) = "max") := by decide
  simp only [h1, h2, h3, h4, if_false, if_true]
  cases elementType fv with
  | error e => rfl
  | ok rType =>
    simp only
    cases literalsLoop rType (strings.Split toCheck ',') [] errs with
    | error e => rfl
    | ok r =>
      simp only
      cases checkContains fv r.1 with
      | error e => rfl
      | ok ok => cases ok <;> simp [inFailure]

/-- Where `vv.Field(i)` returns the `int` `v`, an `in` clause adds one
`ErrInvalidValidatorSyntax` for each literal that `strconv.Atoi` rejects, in
literal order, and then the membership failure exactly when `v` is none of
the literals that parse: the rejected literals are left out of the set and
the others still count. -/
theorem in_unparsable_literals (vv : Value) (i : Nat) (field : StructField)
    (errs : ValidationErrors) (b toCheck ty : String) (rest : List String) (v : Int)
    (hsplit : strings.Split b ':' = "in" :: toCheck :: rest)
    (hv : vv.Field i = .ok (.int ty v)) :
    clauseStep vv i field errs b =
      .ok (errs ++
        ((strings.Split toCheck ',').filter (fun u => (strconv.Atoi u).isNone)).map
          (fun _ => ValidationError.mk .ErrInvalidValidatorSyntax) ++
        (if v ∈ (strings.Split toCheck ',').filterMap strconv.Atoi then []
          else [ValidationError.mk (.Errorf ("field " ++ field.Name ++ " does not occur in "
            ++ formatStrings (strings.Split toCheck ',')))])) := by
  rw [clauseStep_in_split vv i field errs b toCheck rest _ hsplit hv]
  have he : elementType (.int ty v) = .ok (some (GoType.mk .Int ty)) := rfl
  simp only [he, Except.bind, literalsLoop_int, List.nil_append, checkContains_int]
  by_cases h : v ∈ (strings.Split toCheck ',').filterMap strconv.Atoi
  · simp [h, syntaxFailure]
  · simp [h, syntaxFailure, inFailure]

/-! ## Structs that embed no struct -/

theorem walkEmbedded_of_not_promotes (w : visibleFieldsWalker) (v : Value)
    (h : v.promotes = false) : walkEmbedded w v = w := by
  cases v with
  | struct ty fs => simp [Value.promotes] at h
  | pointer ty e =>
    cases e with
    | struct ty2 fs => simp [Value.promotes] at h
    | int _ _ => simp [walkEmbedded]
    | str _ _ => simp [walkEmbedded]
    | list _ _ _ => simp [walkEmbedded]
    | pointer _ _ => simp [walkEmbedded]
    | other _ _ _ => simp [walkEmbedded]
  | int _ _ => simp [walkEmbedded]
  | str _ _ => simp [walkEmbedded]
  | list _ _ _ => simp [walkEmbedded]
  | other _ _ _ => simp [walkEmbedded]

theorem walk_embedsNoStruct (fs : Fields) (w : visibleFieldsWalker) (i : Nat)
    (hplain : fs.embedsNoStruct) (hnodup : fs.names.Nodup)
    (hnew : ∀ name ∈ fs.names, w.byName.lookup name = none) :
    (walk w fs i).fields = w.fields ++ declaredFields w.index fs i := by
  cases fs with
  | nil => simp [walk, declaredFields]
  | cons d v rest =>
    simp only [Fields.embedsNoStruct] at hplain
    simp only [Fields.names, List.nodup_cons] at hnodup
    have hd : w.byName.lookup d.Name = none := hnew d.Name (by simp [Fields.names])
    have hh : hide w d.Name (w.index ++ [i]) = (w.fields, true) := by
      simp [hide, hd]
    have hw2 : (if d.Anonymous = true then
          walkEmbedded (visibleFieldsWalker.mk ((d.Name, w.fields.length) :: w.byName)
            (w.fields ++ [StructField.mk d.Name d.Exported d.validateTag d.Anonymous
              (w.index ++ [i])]) (w.index ++ [i])) v
        else visibleFieldsWalker.mk ((d.Name, w.fields.length) :: w.byName)
            (w.fields ++ [StructField.mk d.Name d.Exported d.validateTag d.Anonymous
              (w.index ++ [i])]) (w.index ++ [i])) =
        visibleFieldsWalker.mk ((d.Name, w.fields.length) :: w.byName)
            (w.fields ++ [StructField.mk d.Name d.Exported d.validateTag d.Anonymous
              (w.index ++ [i])]) (w.index ++ [i]) := by
      split
      · rename_i ha
        exact walkEmbedded_of_not_promotes _ v (hplain.1 ha)
      · rfl
    simp only [walk, hh, if_true, hw2]
    rw [walk_embedsNoStruct rest _ (i + 1) hplain.2 hnodup.2]
    · simp [declaredFields, List.dropLast_concat]
    · intro name hname
      have hne : name ≠ d.Name := fun e => hnodup.1 (e ▸ hname)
      have hb : (name == d.Name) = false := by simpa using hne
      have := hnew name (by simp [Fields.names, hname])
      simp [List.lookup, hb, this]

/-- The visible fields of a struct that embeds no struct and whose field
names are distinct and not empty: the declared fields, in order. -/
theorem VisibleFields_embedsNoStruct (ty : String) (fs : Fields)
    (hplain : fs.embedsNoStruct) (hnodup : fs.names.Nodup) (hnames : "" ∉ fs.names) :
    VisibleFields (.struct ty fs) = .ok (declaredFields [] fs 0) := by
  have hw := walk_embedsNoStruct fs (visibleFieldsWalker.mk [] [] []) 0 hplain hnodup
    (fun _ _ => rfl)
  simp only [List.nil_append] at hw
  simp only [VisibleFields, hw]
  congr 1
  rw [List.filter_eq_self]
  intro f hf
  have := declaredFields_names [] fs 0 f hf
  have hne : f.Name ≠ "" := fun e => hnames (e ▸ this)
  simpa using hne

/-- The run of `Validate` on a struct whose single field is named (not
embedded), exported and carries the one clause `b`, whatever its value. -/
theorem Validate_oneField_named (T F : String) (v : Value) (b : String)
    (hname : F ≠ "") (hb : ';' ∉ b.data) :
    Validate (some (oneField T (FieldDecl.mk F true (some b) false) v)) =
      (clauseStep (oneField T (FieldDecl.mk F true (some b) false) v) 0
        (StructField.mk F true (some b) false [0]) [] b).map returnedOf := by
  have hk : (oneField T (FieldDecl.mk F true (some b) false) v).Kind = Kind.Struct := rfl
  have hvf : VisibleFields (oneField T (FieldDecl.mk F true (some b) false) v) =
      .ok [StructField.mk F true (some b) false [0]] := by
    have := VisibleFields_embedsNoStruct T (.cons (FieldDecl.mk F true (some b) false) v .nil)
      (by simp [Fields.embedsNoStruct]) (by simp [Fields.names])
      (by simpa [Fields.names] using Ne.symm hname)
    simpa [declaredFields, oneField] using this
  simp only [Validate, hk, hvf]
  simp [fieldsLoop, fieldStep, StructField.Lookup, StructField.IsExported,
    split_of_not_mem _ _ hb, clausesLoop, bind, Except.bind, Except.map, returnedOf]
  generalize clauseStep _ _ _ _ _ = r
  cases r with
  | error e => simp
  | ok errs => by_cases h : errs = [] <;> simp [h]

/-! ## Values of unsupported kinds -/

theorem checkMinMaxLoop_unsupported (m : Int) (c : comparator) (xs : List Value)
    (h : ∀ e ∈ xs, e.Kind ≠ Kind.Int ∧ e.Kind ≠ Kind.String) :
    checkMinMaxLoop m c xs = true := by
  induction xs with
  | nil => rfl
  | cons x xs ih =>
    have hx := h x (by simp)
    have hxs : ∀ e ∈ xs, e.Kind ≠ Kind.Int ∧ e.Kind ≠ Kind.String :=
      fun e he => h e (by simp [he])
    cases x with
    | int ty n => exact absurd rfl hx.1
    | str ty s => exact absurd rfl hx.2
    | list a ty es => simp [checkMinMaxLoop, ih hxs]
    | struct ty fs => simp [checkMinMaxLoop, ih hxs]
    | pointer ty e => simp [checkMinMaxLoop, ih hxs]
    | other k ty n => simp [checkMinMaxLoop, ih hxs]

theorem checkMinMax_unsupported (fv : Value) (m : Int) (c : comparator)
    (h : fv.unsupported) : checkMinMax fv m c = true :=
  checkMinMaxLoop_unsupported m c _ h

theorem unsupported_of_sized (fv : Value)
    (h : ∀ e ∈ createReflectionSlice fv, sizedIntegerKind e.Kind = true) : fv.unsupported := by
  intro e he
  have := h e he
  constructor <;> intro hk <;> rw [hk] at this <;> simp [sizedIntegerKind] at this

/-- The clauses `min` and `max` on a value of unsupported kind. -/
theorem min_max_unsupported (vv : Value) (i : Nat) (field : StructField)
    (errs : ValidationErrors) (T F arg : String) (N : Int) (fv : Value)
    (hv : vv.Field i = .ok fv) (harg : strconv.Atoi arg = some N) (hF : F ≠ "")
    (h : fv.unsupported) :
    clauseStep vv i field errs ("min:" ++ arg) = .ok errs ∧
    clauseStep vv i field errs ("max:" ++ arg) = .ok errs ∧
    Validate (some (oneField T (FieldDecl.mk F true (some ("min:" ++ arg)) false) fv)) =
      .ok .nil ∧
    Validate (some (oneField T (FieldDecl.mk F true (some ("max:" ++ arg)) false) fv)) =
      .ok .nil := by
  have hmin := checkMinMax_unsupported fv N minComparator h
  have hmax := checkMinMax_unsupported fv N maxComparator h
  refine ⟨?_, ?_, ?_, ?_⟩
  · rw [clauseStep_min vv i field errs arg N fv hv harg, hmin]; rfl
  · rw [clauseStep_max vv i field errs arg N fv hv harg, hmax]; rfl
  · rw [Validate_oneField_named T F fv _ hF
      (numeric_clause_no_semicolon "min:" arg N (by decide) harg),
      clauseStep_min _ 0 _ [] arg N fv (Field_oneField _ _ _) harg, hmin]
    rfl
  · rw [Validate_oneField_named T F fv _ hF
      (numeric_clause_no_semicolon "max:" arg N (by decide) harg),
      clauseStep_max _ 0 _ [] arg N fv (Field_oneField _ _ _) harg, hmax]
    rfl

/-- Where `vv.Field(i)` returns a value of a sized or unsigned integer kind
(`int8`, ..., `int64`, `uint`, ..., `uintptr`), or a slice or array of such
values, the clauses `min:N` and `max:N` add no failure whatever the value and
`N`: the numbers are compared for kind `Int` only. `Validate` on the struct
whose one exported field holds the value returns `nil`. -/
theorem sized_integers_not_compared (vv : Value) (i : Nat) (field : StructField)
    (errs : ValidationErrors) (T F arg : String) (N : Int) (fv : Value)
    (hv : vv.Field i = .ok fv) (harg : strconv.Atoi arg = some N) (hF : F ≠ "")
    (hsized : ∀ e ∈ createReflectionSlice fv, sizedIntegerKind e.Kind = true) :
    clauseStep vv i field errs ("min:" ++ arg) = .ok errs ∧
    clauseStep vv i field errs ("max:" ++ arg) = .ok errs ∧
    Validate (some (oneField T (FieldDecl.mk F true (some ("min:" ++ arg)) false) fv)) =
      .ok .nil ∧
    Validate (some (oneField T (FieldDecl.mk F true (some ("max:" ++ arg)) false) fv)) =
      .ok .nil :=
  min_max_unsupported vv i field errs T F arg N fv hv harg hF (unsupported_of_sized fv hsized)

theorem String_of_not_string (e : Value) (h : e.Kind ≠ Kind.String) :
    e.String = "<" ++ e.typeString ++ " Value>" := by
  cases e with
  | str ty s => exact absurd rfl h
  | int _ _ => rfl
  | list _ _ _ => rfl
  | struct _ _ => rfl
  | pointer _ _ => rfl
  | other _ _ _ => rfl

theorem checkLenLoop_not_string (N : Int) (xs : List Value)
    (h : ∀ e ∈ xs, e.Kind ≠ Kind.String) :
    checkLenLoop N xs = decide (∀ e ∈ xs, len ("<" ++ e.typeString ++ " Value>") = N) := by
  induction xs with
  | nil => simp [checkLenLoop]
  | cons x xs ih =>
    have hx := String_of_not_string x (h x (by simp))
    have hxs : ∀ e ∈ xs, e.Kind ≠ Kind.String := fun e he => h e (by simp [he])
    simp only [checkLenLoop, hx, ih hxs]
    by_cases h1 : len ("<" ++ x.typeString ++ " Value>") = N <;> simp [h1]

theorem literalsLoop_other (t : GoType) (us : List String) (c : List Value)
    (errs : ValidationErrors) (h1 : t.kind ≠ Kind.Int) (h2 : t.kind ≠ Kind.String) :
    literalsLoop (some t) us c errs = .ok (c, errs) := by
  induction us with
  | nil => rfl
  | cons u us ih =>
    unfold literalsLoop
    simp only []
    exact ih

/-- The `in` clause on a list whose first element is of unsupported kind. -/
theorem clauseStep_in_unsupported_list (vv : Value) (i : Nat) (field : StructField)
    (errs : ValidationErrors) (b toCheck : String) (rest : List String) (a : Bool)
    (lty : String) (e : Value) (es : List Value)
    (hsplit : strings.Split b ':' = "in" :: toCheck :: rest)
    (hv : vv.Field i = .ok (.list a lty (e :: es)))
    (h1 : e.Kind ≠ Kind.Int) (h2 : e.Kind ≠ Kind.String) :
    clauseStep vv i field errs b = .ok (errs ++ [inFailure field.Name toCheck]) := by
  rw [clauseStep_in_split vv i field errs b toCheck rest _ hsplit hv]
  have he : elementType (.list a lty (e :: es)) = .ok (some e.Type) := by
    cases a <;> rfl
  have hc : checkContains (.list a lty (e :: es)) [] = .ok false := by
    simp only [checkContains, createReflectionSlice, checkContainsLoop, checkContainsInner,
      bind, Except.bind]
    rfl
  simp only [he, Except.bind, literalsLoop_other e.Type _ [] errs h1 h2, hc]
  rfl

/-- Where `vv.Field(i)` returns a value of a kind other than `Int` and
`String` (a bool, a float, a struct, or a list of such values) the clauses
`min:N` and `max:N` skip the value and add no failure, and `Validate` on the
struct whose one field holds it returns `nil`. The clause `len:N` skips
nothing: on values that are no strings (an `int` field included) it compares
`N` with the length of the text `reflect` prints for each, `<T Value>`, and
adds the length failure unless all are equal to `N`. The clause `in` on a list
that starts with a value of such a kind adds the membership failure. -/
theorem unsupported_kinds_clauses (vv : Value) (i : Nat) (field : StructField)
    (errs : ValidationErrors) (T F arg : String) (N : Int)
    (harg : strconv.Atoi arg = some N) (hF : F ≠ "") :
    (∀ fv : Value, vv.Field i = .ok fv → fv.unsupported →
      clauseStep vv i field errs ("min:" ++ arg) = .ok errs ∧
      clauseStep vv i field errs ("max:" ++ arg) = .ok errs ∧
      Validate (some (oneField T (FieldDecl.mk F true (some ("min:" ++ arg)) false) fv)) =
        .ok .nil ∧
      Validate (some (oneField T (FieldDecl.mk F true (some ("max:" ++ arg)) false) fv)) =
        .ok .nil) ∧
    (∀ fv : Value, vv.Field i = .ok fv →
      (∀ e ∈ createReflectionSlice fv, e.Kind ≠ Kind.String) →
      clauseStep vv i field errs ("len:" ++ arg) =
        .ok (if ∀ e ∈ createReflectionSlice fv, len ("<" ++ e.typeString ++ " Value>") = N
          then errs
          else errs ++ [ValidationError.mk
            (.Errorf ("field " ++ field.Name ++ " has an invalid length"))])) ∧
    (∀ (a : Bool) (lty : String) (e : Value) (es : List Value) (b toCheck : String)
      (rest : List String), vv.Field i = .ok (.list a lty (e :: es)) →
      (∀ x ∈ e :: es, x.Kind ≠ Kind.Int ∧ x.Kind ≠ Kind.String) →
      strings.Split b ':' = "in" :: toCheck :: rest →
      clauseStep vv i field errs b =
        .ok (errs ++ [ValidationError.mk (.Errorf ("field " ++ field.Name
          ++ " does not occur in " ++ formatStrings (strings.Split toCheck ',')))])) := by
  refine ⟨?_, ?_, ?_⟩
  · intro fv hv hun
    exact min_max_unsupported vv i field errs T F arg N fv hv harg hF hun
  · intro fv hv hns
    rw [clauseStep_len vv i field errs arg N fv hv harg]
    simp only [checkLen, checkLenLoop_not_string N _ hns]
    by_cases h : ∀ e ∈ createReflectionSlice fv, len ("<" ++ e.typeString ++ " Value>") = N
    · rw [if_pos h, decide_eq_true h]; rfl
    · rw [if_neg h, decide_eq_false h]; rfl
  · intro a lty e es b toCheck rest hv hun hsplit
    exact clauseStep_in_unsupported_list vv i field errs b toCheck rest a lty e es hsplit hv
      (hun e (by simp)).1 (hun e (by simp)).2

theorem Field_get (ty : String) (fs : Fields) (k : Nat) (d : FieldDecl) (v : Value)
    (h : fs.toList.get? k = some (d, v)) : (Value.struct ty fs).Field k = .ok v := by
  have e : (Value.struct ty fs).Field k =
      (match fs.toList.get? k with
        | some dv => Except.ok dv.2
        | none => Except.error Panic.indexOutOfRange) := rfl
  rw [e, h]

/-- C15, the run on the failing input and beside it: on the record of the
example (`Outer` embeds `Inner{Name}` and declares `Age`) the visible fields
are `Inner`, `Name`, `Age`, met at positions 0, 1, 2, but the value is read
with `vv.Field(i)`, the `i`-th field `Outer` declares itself: `len:3` of
`Name` is judged against `Age`, and reading position 2 for `Age` panics, index
out of range. On a record with one more field no panic occurs and `min:18` of
`A`, which holds 20, is judged against `B`, which holds 0, and fails. On a
struct that embeds no struct the field declared at position `k` is the
visible field at position `k` and `Field(k)` its own value. -/
theorem C15_embedded_fields_misread :
    VisibleFields embeddedRecord =
      .ok [StructField.mk "Inner" true none true [0],
        StructField.mk "Name" true (some "len:3") false [0, 0],
        StructField.mk "Age" true (some "min:18") false [1]] ∧
    fieldStep embeddedRecord 1 (StructField.mk "Name" true (some "len:3") false [0, 0]) [] =
      .ok [ValidationError.mk (.Errorf "field Name has an invalid length")] ∧
    Validate (some embeddedRecord) = .error .indexOutOfRange ∧
    Validate (some shiftedRecord) =
      .ok (.errors [ValidationError.mk (.Errorf "field A has value less than min")]) ∧
    (∀ (ty : String) (fs : Fields), fs.embedsNoStruct → fs.names.Nodup → "" ∉ fs.names →
      VisibleFields (.struct ty fs) = .ok (declaredFields [] fs 0) ∧
      ∀ (k : Nat) (d : FieldDecl) (v : Value), fs.toList.get? k = some (d, v) →
        (declaredFields [] fs 0).get? k =
          some (StructField.mk d.Name d.Exported d.validateTag d.Anonymous [k]) ∧
        (Value.struct ty fs).Field k = .ok v) := by
  refine ⟨by decide, by decide, by decide, by decide, ?_⟩
  intro ty fs hplain hnodup hnames
  refine ⟨VisibleFields_embedsNoStruct ty fs hplain hnodup hnames, ?_⟩
  intro k d v h
  refine ⟨?_, Field_get ty fs k d v h⟩
  have := declaredFields_get [] fs 0 k d v h
  simpa using this

/-- A clause with a second `:` splits into its name, the text up to the
second `:`, and the pieces of what follows. -/
theorem split_clause_tail (name arg tail : String) (h1 : ':' ∉ name.data)
    (h2 : ':' ∉ arg.data) :
    strings.Split (name ++ ":" ++ arg ++ ":" ++ tail) ':' =
      name :: arg :: strings.Split tail ':' := by
  have e : (name ++ ":" ++ arg ++ ":" ++ tail).data =
      name.data ++ ':' :: (arg.data ++ ':' :: tail.data) := by
    simp [String.data_append]
  simp [strings.Split, e, splitChars_append_sep _ _ _ h1, splitChars_append_sep _ _ _ h2]

/-- The loop body reads pieces 0 and 1 of the split clause and nothing else. -/
theorem clauseStep_congr (vv : Value) (i : Nat) (field : StructField)
    (errs : ValidationErrors) (b c : String)
    (h0 : sliceIndex (strings.Split b ':') 0 = sliceIndex (strings.Split c ':') 0)
    (h1 : sliceIndex (strings.Split b ':') 1 = sliceIndex (strings.Split c ':') 1) :
    clauseStep vv i field errs b = clauseStep vv i field errs c := by
  unfold clauseStep
  rw [h0, h1]

/-- C16, as amended: in a clause the constraint name is the text before the
first `:` and the argument is the text between the first `:` and the second
one, or the end of the clause when there is no second; what follows a second
`:` is not read, so that the clause is judged exactly as the clause cut at
its second `:`. -/
theorem C16_argument_between_colons (vv : Value) (i : Nat) (field : StructField)
    (errs : ValidationErrors) (name arg tail : String)
    (hname : ':' ∉ name.data) (harg : ':' ∉ arg.data) :
    sliceIndex (strings.Split (name ++ ":" ++ arg) ':') 0 = .ok name ∧
    sliceIndex (strings.Split (name ++ ":" ++ arg) ':') 1 = .ok arg ∧
    sliceIndex (strings.Split (name ++ ":" ++ arg ++ ":" ++ tail) ':') 0 = .ok name ∧
    sliceIndex (strings.Split (name ++ ":" ++ arg ++ ":" ++ tail) ':') 1 = .ok arg ∧
    clauseStep vv i field errs (name ++ ":" ++ arg ++ ":" ++ tail) =
      clauseStep vv i field errs (name ++ ":" ++ arg) := by
  have e1 := split_clause name arg hname harg
  have e2 := split_clause_tail name arg tail hname harg
  have a0 : sliceIndex (strings.Split (name ++ ":" ++ arg) ':') 0 = .ok name := by
    rw [e1]; rfl
  have a1 : sliceIndex (strings.Split (name ++ ":" ++ arg) ':') 1 = .ok arg := by
    rw [e1]; rfl
  have b0 : sliceIndex (strings.Split (name ++ ":" ++ arg ++ ":" ++ tail) ':') 0 = .ok name := by
    rw [e2]; rfl
  have b1 : sliceIndex (strings.Split (name ++ ":" ++ arg ++ ":" ++ tail) ':') 1 = .ok arg := by
    rw [e2]; rfl
  exact ⟨a0, a1, b0, b1, clauseStep_congr vv i field errs _ _ (b0.trans a0.symm)
    (b1.trans a1.symm)⟩

/-- Witness of C16: the clause `in:a:b` is judged as `in:a`. -/
theorem C16_argument_between_colons_witness :
    ':' ∉ "in".data ∧ ':' ∉ "a".data ∧
    (sliceIndex (strings.Split ("in" ++ ":" ++ "a") ':') 0 = .ok "in" ∧
    sliceIndex (strings.Split ("in" ++ ":" ++ "a") ':') 1 = .ok "a" ∧
    sliceIndex (strings.Split ("in" ++ ":" ++ "a" ++ ":" ++ "b") ':') 0 = .ok "in" ∧
    sliceIndex (strings.Split ("in" ++ ":" ++ "a" ++ ":" ++ "b") ':') 1 = .ok "a" ∧
    clauseStep (colonRecord "a") 0 (StructField.mk "Tag" true (some "in:a:b") false [0]) []
        ("in" ++ ":" ++ "a" ++ ":" ++ "b") =
      clauseStep (colonRecord "a") 0 (StructField.mk "Tag" true (some "in:a:b") false [0]) []
        ("in" ++ ":" ++ "a")) ∧
    Validate (some (colonRecord "a")) = .ok .nil :=
  ⟨by decide, by decide,
    C16_argument_between_colons (colonRecord "a") 0
      (StructField.mk "Tag" true (some "in:a:b") false [0]) [] "in" "a" "b"
      (by decide) (by decide),
    by decide⟩

/-- Counterexample to C16 as stated: under the clause `in:a:b` the text field
valued `a:b` does not pass, the failure for the value `c` lists `[a]` and not
`[a:b]`, and the value `a` passes. -/
theorem C16_argument_between_colons_counterexample :
    Validate (some (colonRecord "a:b")) =
      .ok (.errors [ValidationError.mk (.Errorf "field Tag does not occur in [a]")]) ∧
    Validate (some (colonRecord "c")) =
      .ok (.errors [ValidationError.mk (.Errorf "field Tag does not occur in [a]")]) ∧
    Validate (some (colonRecord "a")) = .ok .nil := by
  decide

/-! ## Runs that do not panic -/

theorem splitChars_two (sep : Char) (cs : List Char) (h : sep ∈ cs) :
    ∃ p q rest, splitChars sep cs = p :: q :: rest := by
  induction cs with
  | nil => simp at h
  | cons c cs ih =>
    by_cases hc : c = sep
    · cases hs : splitChars sep cs with
      | nil => exact absurd hs (splitChars_ne_nil sep cs)
      | cons q rest => exact ⟨[], q, rest, by simp [splitChars, hc, hs]⟩
    · have hcs : sep ∈ cs := by
        rcases List.mem_cons.1 h with e | e
        · exact absurd e.symm hc
        · exact e
      obtain ⟨p, q, rest, hs⟩ := ih hcs
      exact ⟨c :: p, q, rest, by simp [splitChars, hc, hs]⟩

/-- A clause that holds a `:` splits into at least two pieces. -/
theorem Split_two (b : String) (h : ':' ∈ b.data) :
    ∃ name arg rest, strings.Split b ':' = name :: arg :: rest := by
  obtain ⟨p, q, rest, hs⟩ := splitChars_two ':' b.data h
  exact ⟨String.mk p, String.mk q, rest.map String.mk, by simp [strings.Split, hs]⟩

/-- A numeric clause whose argument is a numeral, for any clause whose first
two pieces are the name and the argument. -/
theorem clauseStep_numeric_split (vv : Value) (i : Nat) (field : StructField)
    (errs : ValidationErrors) (b name arg : String) (rest : List String) (N : Int)
    (fv : Value) (hsplit : strings.Split b ':' = name :: arg :: rest)
    (hname : name = "len" ∨ name = "min" ∨ name = "max")
    (hv : vv.Field i = .ok fv) (harg : strconv.Atoi arg = some N) :
    clauseStep vv i field errs b =
      .ok (if numericCheck name fv N then errs
        else errs ++ [ValidationError.mk (.Errorf (clauseMessage name field.Name))]) := by
  have hcolon : ':' ∉ arg.data := Atoi_not_mem _ _ harg _ colon_not_numeralChar
  have hn : ':' ∉ name.data := by
    rcases hname with rfl | rfl | rfl <;> decide
  have e1 := split_clause name arg hn hcolon
  rw [clauseStep_congr vv i field errs b (name ++ ":" ++ arg) (by rw [hsplit, e1]; rfl)
    (by rw [hsplit, e1]; rfl)]
  exact clauseStep_numeric vv i field errs name arg N fv hname hv harg

theorem checkContainsInner_ok (x : Value) (c : List Value) (ok : Bool)
    (h : (∀ s ∈ c, ∃ n, s = Value.int "int" n) ∨ x.Kind ≠ Kind.Int) :
    ∃ r, checkContainsInner x c ok = .ok r := by
  induction c generalizing ok with
  | nil => exact ⟨ok, rfl⟩
  | cons s rest ih =>
    have hrest : (∀ t ∈ rest, ∃ n, t = Value.int "int" n) ∨ x.Kind ≠ Kind.Int := by
      rcases h with h | h
      · exact Or.inl (fun t ht => h t (by simp [ht]))
      · exact Or.inr h
    cases x with
    | int ty a =>
      rcases h with h | h
      · obtain ⟨n, rfl⟩ := h s (by simp)
        simp only [checkContainsInner, Value.Int, bind, Except.bind]
        exact ih _ hrest
      · exact absurd rfl h
    | str ty t => simp only [checkContainsInner]; exact ih _ hrest
    | list a ty es => simp only [checkContainsInner]; exact ih _ hrest
    | struct ty fs => simp only [checkContainsInner]; exact ih _ hrest
    | pointer ty e => simp only [checkContainsInner]; exact ih _ hrest
    | other k ty n => simp only [checkContainsInner]; exact ih _ hrest

theorem checkContainsLoop_ok (c xs : List Value)
    (h : (∀ s ∈ c, ∃ n, s = Value.int "int" n) ∨ ∀ x ∈ xs, x.Kind ≠ Kind.Int) :
    ∃ r, checkContainsLoop c xs = .ok r := by
  induction xs with
  | nil => exact ⟨true, rfl⟩
  | cons x xs ih =>
    have hx : (∀ s ∈ c, ∃ n, s = Value.int "int" n) ∨ x.Kind ≠ Kind.Int := by
      rcases h with h | h
      · exact Or.inl h
      · exact Or.inr (h x (by simp))
    have hxs : (∀ s ∈ c, ∃ n, s = Value.int "int" n) ∨ ∀ y ∈ xs, y.Kind ≠ Kind.Int := by
      rcases h with h | h
      · exact Or.inl h
      · exact Or.inr (fun y hy => h y (by simp [hy]))
    obtain ⟨r, hr⟩ := checkContainsInner_ok x c false hx
    simp only [checkContainsLoop, bind, Except.bind, hr]
    cases r with
    | false => exact ⟨false, rfl⟩
    | true => simpa using ih hxs

theorem in_chain_ok (fv : Value) (us : List String) (errs : ValidationErrors)
    (m : ValidationError) (rType : Option GoType) (r : List Value × ValidationErrors)
    (h1 : elementType fv = .ok rType) (h2 : literalsLoop rType us [] errs = .ok r)
    (h3 : ∃ ok, checkContains fv r.1 = .ok ok) :
    ∃ e, (elementType fv).bind (fun rType =>
        (literalsLoop rType us [] errs).bind (fun r =>
          (checkContains fv r.1).bind (fun ok =>
            .ok (if ok then r.2 else r.2 ++ [m])))) = .ok e := by
  obtain ⟨ok, h3⟩ := h3
  simp only [h1, h2, h3, Except.bind]
  exact ⟨_, rfl⟩

/-- The `in` clause does not panic on a value of kind `Int` or `String`, nor
on a list with at least one element whose elements are of one kind. -/
theorem clauseStep_in_ok (vv : Value) (i : Nat) (field : StructField)
    (errs : ValidationErrors) (b toCheck : String) (rest : List String) (fv : Value)
    (hsplit : strings.Split b ':' = "in" :: toCheck :: rest) (hv : vv.Field i = .ok fv)
    (hk : inKindOk fv) (hwt : fv.wellTyped) :
    ∃ e, clauseStep vv i field errs b = .ok e := by
  rw [clauseStep_in_split vv i field errs b toCheck rest fv hsplit hv]
  cases fv with
  | int ty n =>
    refine in_chain_ok _ _ _ _ (some (GoType.mk .Int ty)) _ rfl (literalsLoop_int _ _ _ _) ?_
    exact checkContainsLoop_ok _ _ (Or.inl (by
      intro s hs
      simp only [List.nil_append, List.mem_map] at hs
      obtain ⟨n, _, rfl⟩ := hs
      exact ⟨n, rfl⟩))
  | str ty t =>
    refine in_chain_ok _ _ _ _ (some (GoType.mk .String ty)) _ rfl (literalsLoop_str _ _ _ _) ?_
    exact checkContainsLoop_ok _ _ (Or.inr (by
      intro x hx
      simp only [createReflectionSlice, List.mem_singleton] at hx
      rw [hx]
      simp [Value.Kind]))
  | list a lty elems =>
    cases elems with
    | nil =>
      rcases hk with h | h | ⟨_, h⟩
      · cases a <;> simp [Value.Kind] at h
      · cases a <;> simp [Value.Kind] at h
      · simp [Value.Len] at h
    | cons e es =>
      have he : elementType (.list a lty (e :: es)) = .ok (some e.Type) := by
        cases a <;> rfl
      have hty : e.Type = GoType.mk e.Kind e.typeString := rfl
      by_cases h1 : e.Kind = Kind.Int
      · refine in_chain_ok _ _ _ _ (some e.Type) _ he
          (by rw [hty, h1]; exact literalsLoop_int _ _ _ _) ?_
        exact checkContainsLoop_ok _ _ (Or.inl (by
          intro s hs
          simp only [List.nil_append, List.mem_map] at hs
          obtain ⟨n, _, rfl⟩ := hs
          exact ⟨n, rfl⟩))
      · by_cases h2 : e.Kind = Kind.String
        · refine in_chain_ok _ _ _ _ (some e.Type) _ he
            (by rw [hty, h2]; exact literalsLoop_str _ _ _ _) ?_
          exact checkContainsLoop_ok _ _ (Or.inr (by
            intro x hx
            have : x.Kind = e.Kind := hwt x hx e (by simp [createReflectionSlice])
            rw [this]
            exact h1))
        · refine in_chain_ok _ _ _ _ (some e.Type) _ he
            (literalsLoop_other e.Type _ [] errs h1 h2) ?_
          exact checkContainsLoop_ok _ _ (Or.inl (by simp))
  | struct ty fs =>
    rcases hk with h | h | ⟨h | h, _⟩ <;> simp [Value.Kind] at h
  | pointer ty e =>
    rcases hk with h | h | ⟨h | h, _⟩ <;> simp [Value.Kind] at h
  | other k ty n =>
    rcases hk with h | h | ⟨h | h, _⟩ <;> cases k <;> simp [Value.Kind, OtherKind.toKind] at h

/-- A clause that holds a `:` does not panic when the position read holds a
value and, for an `in` clause, the value is one the clause can read. -/
theorem clauseStep_ok (vv : Value) (i : Nat) (field : StructField)
    (errs : ValidationErrors) (b : String) (fv : Value) (hv : vv.Field i = .ok fv)
    (hcolon : ':' ∈ b.data)
    (hin : (strings.Split b ':').head? = some "in" → inKindOk fv) (hwt : fv.wellTyped) :
    ∃ e, clauseStep vv i field errs b = .ok e := by
  obtain ⟨name, arg, rest, hsplit⟩ := Split_two b hcolon
  by_cases h4 : name = "in"
  · subst h4
    exact clauseStep_in_ok vv i field errs b arg rest fv hsplit hv
      (hin (by rw [hsplit]; rfl)) hwt
  · by_cases hnum : name = "len" ∨ name = "min" ∨ name = "max"
    · cases harg : strconv.Atoi arg with
      | none => exact ⟨_, clauseStep_not_numeral vv i field errs b name arg rest hsplit hnum harg⟩
      | some N =>
        exact ⟨_, clauseStep_numeric_split vv i field errs b name arg rest N fv hsplit hnum
          hv harg⟩
    · have h1 : name ≠ "len" := fun e => hnum (Or.inl e)
      have h2 : name ≠ "min" := fun e => hnum (Or.inr (Or.inl e))
      have h3 : name ≠ "max" := fun e => hnum (Or.inr (Or.inr e))
      exact ⟨_, clauseStep_unknown vv i field errs b name arg rest hsplit h1 h2 h3 h4⟩

theorem clausesLoop_ok (vv : Value) (i : Nat) (field : StructField) (bs : List String)
    (h : ∀ b ∈ bs, ∀ errs, ∃ e, clauseStep vv i field errs b = .ok e)
    (errs : ValidationErrors) : ∃ e, clausesLoop vv i field bs errs = .ok e := by
  induction bs generalizing errs with
  | nil => exact ⟨errs, rfl⟩
  | cons b bs ih =>
    obtain ⟨e1, h1⟩ := h b (by simp) errs
    simp only [clausesLoop, bind, Except.bind, h1]
    exact ih (fun c hc => h c (by simp [hc])) e1

theorem fieldsLoop_ok (vv : Value) (fields : List StructField) (i : Nat)
    (h : ∀ k f, fields.get? k = some f → ∀ errs, ∃ e, fieldStep vv (i + k) f errs = .ok e)
    (errs : ValidationErrors) : ∃ e, fieldsLoop vv i fields errs = .ok e := by
  induction fields generalizing i errs with
  | nil => exact ⟨errs, rfl⟩
  | cons f fs ih =>
    obtain ⟨e1, h1⟩ := h 0 f rfl errs
    simp only [Nat.add_zero] at h1
    simp only [fieldsLoop, bind, Except.bind, h1]
    refine ih (i + 1) ?_ e1
    intro k g hg errs2
    have := h (k + 1) g (by simpa using hg) errs2
    have e : i + (k + 1) = i + 1 + k := by omega
    rw [e] at this
    exact this

theorem declaredFields_get_inv (idx : List Nat) (fs : Fields) (i k : Nat) (f : StructField)
    (h : (declaredFields idx fs i).get? k = some f) :
    ∃ d v, fs.toList.get? k = some (d, v) ∧
      f = StructField.mk d.Name d.Exported d.validateTag d.Anonymous (idx ++ [i + k]) := by
  cases fs with
  | nil => simp [declaredFields] at h
  | cons d0 v0 rest =>
    cases k with
    | zero =>
      simp only [declaredFields, List.get?_cons_zero, Option.some.injEq] at h
      exact ⟨d0, v0, by simp [Fields.toList], by simp [← h]⟩
    | succ k =>
      simp only [declaredFields, List.get?_cons_succ] at h
      obtain ⟨d, v, hget, hf⟩ := declaredFields_get_inv idx rest (i + 1) k f h
      refine ⟨d, v, by simpa [Fields.toList] using hget, ?_⟩
      have e : i + 1 + k = i + (k + 1) := by omega
      rw [hf, e]

/-- C18, as amended: `Validate` does not abort on a struct value that embeds
no struct and no two of whose fields bear the same name (so that it has at
most one blank field), every clause of whose tagged exported fields holds a
`:` and each of whose `in` clauses sits on a field of kind `Int` or `String`
or on a slice or array with at least one element: it returns `nil` or a
failure list that is not empty. The typing of Go gives the two other
hypotheses: no field name is empty, and the elements of a slice or array are
of one kind. -/
theorem C18_no_abort (ty : String) (fs : Fields)
    (hplain : fs.embedsNoStruct) (hnodup : fs.names.Nodup) (hnames : "" ∉ fs.names)
    (htyped : ∀ dv ∈ fs.toList, dv.2.wellTyped)
    (hclauses : ∀ dv ∈ fs.toList, dv.1.Exported = true →
      ∀ s, dv.1.validateTag = some s → ∀ b ∈ strings.Split s ';',
        ':' ∈ b.data ∧ ((strings.Split b ':').head? = some "in" → inKindOk dv.2)) :
    ∃ r, Validate (some (.struct ty fs)) = .ok r ∧
      (r = .nil ∨ ∃ errs, errs ≠ [] ∧ r = .errors errs) := by
  have hvis := VisibleFields_embedsNoStruct ty fs hplain hnodup hnames
  have hk : (Value.struct ty fs).Kind = Kind.Struct := rfl
  have hloop : ∃ e, fieldsLoop (.struct ty fs) 0 (declaredFields [] fs 0) [] = .ok e := by
    apply fieldsLoop_ok
    intro k f hf errs
    obtain ⟨d, v, hget, rfl⟩ := declaredFields_get_inv [] fs 0 k f hf
    have hmem : (d, v) ∈ fs.toList := List.get?_mem hget
    have hv : (Value.struct ty fs).Field (0 + k) = .ok v := by
      rw [Nat.zero_add]; exact Field_get ty fs k d v hget
    cases htag : d.validateTag with
    | none => exact ⟨errs, by simp [fieldStep, StructField.Lookup]⟩
    | some s =>
      cases hexp : d.Exported with
      | false =>
        exact ⟨errs ++ [ValidationError.mk .ErrValidateForUnexportedFields],
          by simp [fieldStep, StructField.Lookup, StructField.IsExported]⟩
      | true =>
        rw [fieldStep_exported _ _ _ errs s rfl rfl]
        apply clausesLoop_ok
        intro b hb errs2
        have hc := hclauses (d, v) hmem hexp s htag b hb
        exact clauseStep_ok _ _ _ errs2 b v hv hc.1 hc.2 (htyped (d, v) hmem)
  obtain ⟨e, he⟩ := hloop
  refine ⟨returnedOf e, ?_, ?_⟩
  · simp only [Validate, hk, hvis, bind, Except.bind, ne_eq, not_true_eq_false, if_false, he]
    by_cases h : e = [] <;> simp [returnedOf, h]
  · by_cases h : e = []
    · exact Or.inl (by simp [returnedOf, h])
    · exact Or.inr ⟨e, h, by simp [returnedOf, h]⟩

/-- Witness of C18: the struct of `safeFields`; its run returns three
failures. -/
theorem C18_no_abort_witness :
    safeFields.embedsNoStruct ∧ safeFields.names.Nodup ∧ "" ∉ safeFields.names ∧
    (∀ dv ∈ safeFields.toList, dv.2.wellTyped) ∧
    (∀ dv ∈ safeFields.toList, dv.1.Exported = true →
      ∀ s, dv.1.validateTag = some s → ∀ b ∈ strings.Split s ';',
        ':' ∈ b.data ∧ ((strings.Split b ':').head? = some "in" → inKindOk dv.2)) ∧
    (∃ r, Validate (some (.struct "main.Safe" safeFields)) = .ok r ∧
      (r = .nil ∨ ∃ errs, errs ≠ [] ∧ r = .errors errs)) ∧
    Validate (some (.struct "main.Safe" safeFields)) =
      .ok (.errors [ValidationError.mk (.Errorf "field Age has value less than min"),
        ValidationError.mk (.Errorf "field Tags does not occur in [a b]"),
        ValidationError.mk .ErrValidateForUnexportedFields]) := by
  have h1 : safeFields.embedsNoStruct := by simp [safeFields, Fields.embedsNoStruct]
  have h2 : safeFields.names.Nodup := by decide
  have h3 : "" ∉ safeFields.names := by decide
  have h4 : ∀ dv ∈ safeFields.toList, dv.2.wellTyped := by
    intro dv hdv
    simp only [safeFields, Fields.toList, List.mem_cons, List.mem_singleton,
      List.not_mem_nil, or_false] at hdv
    rcases hdv with rfl | rfl | rfl
    · trivial
    · intro e he e2 he2
      simp only [List.mem_cons, List.mem_singleton, List.not_mem_nil, or_false] at he he2
      rcases he with rfl | rfl <;> rcases he2 with rfl | rfl <;> rfl
    · trivial
  have h5 : ∀ dv ∈ safeFields.toList, dv.1.Exported = true →
      ∀ s, dv.1.validateTag = some s → ∀ b ∈ strings.Split s ';',
        ':' ∈ b.data ∧ ((strings.Split b ':').head? = some "in" → inKindOk dv.2) := by
    intro dv hdv hexp s htag b hb
    simp only [safeFields, Fields.toList, List.mem_cons, List.mem_singleton,
      List.not_mem_nil, or_false] at hdv
    rcases hdv with rfl | rfl | rfl
    · simp only [Option.some.injEq] at htag
      subst htag
      have hs : strings.Split "min:18" ';' = ["min:18"] := by decide
      rw [hs, List.mem_singleton] at hb
      subst hb
      exact ⟨by decide, fun h => absurd h (by decide)⟩
    · simp only [Option.some.injEq] at htag
      subst htag
      have hs : strings.Split "in:a,b" ';' = ["in:a,b"] := by decide
      rw [hs, List.mem_singleton] at hb
      subst hb
      exact ⟨by decide, fun _ => Or.inr (Or.inr ⟨Or.inl rfl, by decide⟩)⟩
    · exact absurd hexp (by decide)
  exact ⟨h1, h2, h3, h4, h5, C18_no_abort "main.Safe" safeFields h1 h2 h3 h4 h5, by decide⟩

/-! ## Records whose fields are read at their own positions -/

theorem take_get_drop {α : Type} (l : List α) (k : Nat) (x : α) (h : l.get? k = some x) :
    l = l.take k ++ x :: l.drop (k + 1) ∧ (l.take k).length = k := by
  induction l generalizing k with
  | nil => simp at h
  | cons a l ih =>
    cases k with
    | zero =>
      simp only [List.get?_cons_zero, Option.some.injEq] at h
      subst h
      simp
    | succ k =>
      simp only [List.get?_cons_succ] at h
      obtain ⟨h1, h2⟩ := ih k h
      refine ⟨?_, by simp [h2]⟩
      simp only [List.take_succ_cons, List.drop_succ_cons, List.cons_append]
      rw [← h1]

/-- The run of `Validate` around one clause: when the loop meets the exported
field `f` at position `k`, and the clause `b` of its specification adds the
failures `X` there, `Validate` returns what `runWithClause` describes. -/
theorem Validate_runWithClause (vv : Value) (vf : List StructField) (k : Nat)
    (f : StructField) (s b : String) (pre post : List String) (X : ValidationErrors)
    (hvis : VisibleFields vv = .ok vf) (hk : vf.get? k = some f)
    (hexp : f.Exported = true) (htag : f.validateTag = some s)
    (hs : strings.Split s ';' = pre ++ b :: post)
    (hb : clauseStep vv k f [] b = .ok X) :
    Validate (some vv) = runWithClause vv vf k f pre post X := by
  obtain ⟨hsplit, hlen⟩ := take_get_drop vf k f hk
  have hrec : recordFailures vv 0 vf =
      recordFailures vv 0 (vf.take k ++ f :: vf.drop (k + 1)) := by rw [← hsplit]
  rw [Validate_eq vv vf hvis, hrec, recordFailures_append, hlen, Nat.zero_add]
  unfold runWithClause
  cases recordFailures vv 0 (vf.take k) with
  | error e => rfl
  | ok A =>
    simp only [Except.bind, recordFailures, fieldFailures, htag, hexp, if_true, hs,
      specFailures_append, bind]
    cases specFailures vv k f pre with
    | error e => rfl
    | ok a =>
      simp only [Except.bind, specFailures, hb, bind]
      cases specFailures vv k f post with
      | error e => rfl
      | ok c =>
        simp only [Except.bind, Except.map]
        cases recordFailures vv (k + 1) (vf.drop (k + 1)) with
        | error e => rfl
        | ok Z => simp [Except.map, List.append_assoc]

/-- The run of `Validate` on a struct that embeds no struct and whose field
names are distinct: the loop meets the field declared at position `k` at
position `k` and reads its own value there. -/
theorem Validate_aligned (ty : String) (fs : Fields) (k : Nat) (d : FieldDecl) (v : Value)
    (tag b : String) (pre post : List String) (X : ValidationErrors)
    (hplain : fs.embedsNoStruct) (hnodup : fs.names.Nodup) (hnames : "" ∉ fs.names)
    (hget : fs.toList.get? k = some (d, v)) (hexp : d.Exported = true)
    (htag : d.validateTag = some tag) (hs : strings.Split tag ';' = pre ++ b :: post)
    (hb : ∀ errs, clauseStep (.struct ty fs) k (fieldAt d k) errs b = .ok (errs ++ X)) :
    (∀ errs, clauseStep (.struct ty fs) k (fieldAt d k) errs b = .ok (errs ++ X)) ∧
    Validate (some (.struct ty fs)) =
      runWithClause (.struct ty fs) (declaredFields [] fs 0) k (fieldAt d k) pre post X := by
  refine ⟨hb, ?_⟩
  have hk : (declaredFields [] fs 0).get? k = some (fieldAt d k) := by
    have := declaredFields_get [] fs 0 k d v hget
    simpa [fieldAt] using this
  exact Validate_runWithClause _ _ k (fieldAt d k) tag b pre post X
    (VisibleFields_embedsNoStruct ty fs hplain hnodup hnames) hk hexp htag hs
    (by simpa using hb [])

/-! ## The claims on the clauses, on records read at their own positions -/

/-- C1, the run on the failing input and beside it: on the untyped nil,
`Validate(nil)`, the type `reflect.TypeOf` returns is nil and `vt.Kind()`
panics, so that `Validate` does not return `ErrNotStruct`; on every value
that has a kind other than `Struct` (an integer, a string, a slice or array,
a pointer, also a nil pointer or a pointer to a struct whose tags are
malformed) `Validate` returns exactly `ErrNotStruct`. -/
theorem C1_nil_input_panics :
    Validate none = .error .nilDereference ∧
    (∀ v : Value, v.Kind ≠ Kind.Struct → Validate (some v) = .ok (.sentinel .ErrNotStruct)) ∧
    Validate (some (Value.pointer "*main.T"
        (oneField "main.T" (FieldDecl.mk "F" true (some "min") false) (.int "int" 1)))) =
      .ok (.sentinel .ErrNotStruct) ∧
    Validate (some (Value.list false "[]int" [])) = .ok (.sentinel .ErrNotStruct) :=
  ⟨rfl, Validate_not_struct, by decide, by decide⟩

/-- C2, the run on the failing input and beside it: `Outer` embeds `Inner{X}`
and declares `Name`, the text `abc` under `len:3`, then `Pad`, an `int`. The
loop meets `Name` at position 2 of the visible fields and reads `Field(2)`,
which is `Pad`: `Validate` reports `field Name has an invalid length` although
the length of `abc` is 3. On every struct that embeds no struct and whose
field names are distinct, the clause `len:N` on a text field `F` holding `s`
adds no failure when the length of `s` in bytes is `N` and otherwise exactly
the one failure `field F has an invalid length`, and `Validate` returns it
between the failures of the other clauses and fields. -/
theorem C2_len_judged_against_another_field :
    VisibleFields (paddedRecord (FieldDecl.mk "Name" true (some "len:3") false)
        (.str "string" "abc") (.int "int" 0)) =
      .ok [StructField.mk "Inner" true none true [0],
        StructField.mk "X" true none false [0, 0],
        StructField.mk "Name" true (some "len:3") false [1],
        StructField.mk "Pad" true none false [2]] ∧
    (paddedRecord (FieldDecl.mk "Name" true (some "len:3") false)
        (.str "string" "abc") (.int "int" 0)).Field 2 = .ok (.int "int" 0) ∧
    Validate (some (paddedRecord (FieldDecl.mk "Name" true (some "len:3") false)
        (.str "string" "abc") (.int "int" 0))) =
      .ok (.errors [ValidationError.mk (.Errorf "field Name has an invalid length")]) ∧
    len "abc" = 3 ∧
    (∀ (ty : String) (fs : Fields) (k : Nat) (d : FieldDecl) (tyS s tag arg : String)
      (pre post : List String) (N : Int),
      fs.embedsNoStruct → fs.names.Nodup → "" ∉ fs.names →
      fs.toList.get? k = some (d, .str tyS s) → d.Exported = true →
      d.validateTag = some tag →
      strings.Split tag ';' = pre ++ ("len:" ++ arg) :: post → strconv.Atoi arg = some N →
      (∀ errs, clauseStep (.struct ty fs) k (fieldAt d k) errs ("len:" ++ arg) =
        .ok (errs ++ if len s = N then []
          else [ValidationError.mk (.Errorf ("field " ++ d.Name ++ " has an invalid length"))])) ∧
      Validate (some (.struct ty fs)) =
        runWithClause (.struct ty fs) (declaredFields [] fs 0) k (fieldAt d k) pre post
          (if len s = N then []
            else [ValidationError.mk
              (.Errorf ("field " ++ d.Name ++ " has an invalid length"))])) := by
  refine ⟨by decide, rfl, by decide, by decide, ?_⟩
  intro ty fs k d tyS s tag arg pre post N hplain hnodup hnames hget hexp htag hs harg
  refine Validate_aligned ty fs k d (.str tyS s) tag _ pre post _ hplain hnodup hnames hget
    hexp htag hs ?_
  intro errs
  rw [(len_text_field (.struct ty fs) k (fieldAt d k) errs "T" "F" tyS s arg false N
    (Field_get ty fs k d _ hget) harg (by decide)).1]
  by_cases h : len s = N <;> simp [h, fieldAt]

/-- C3, the run on the failing input and beside it: `Outer` embeds `Inner{X}`
and declares `Age`, the `int` 20 under `min:18`, then `Pad`, the `int` 0. The
loop meets `Age` at position 2 of the visible fields and reads `Field(2)`,
which is `Pad`: `Validate` reports `field Age has value less than min`
although 20 >= 18; with `max:18` on `Age` valued 17 and `Pad` valued 30 it
reports `field Age has value bigger than max`. On every struct that embeds no
struct and whose field names are distinct, on an `int` field `F` holding `v`
the clause `min:N` adds no failure when `v >= N` and otherwise exactly the
one failure `field F has value less than min`, the clause `max:N` adds no
failure when `v <= N` and otherwise exactly the one failure
`field F has value bigger than max`, and `Validate` returns it between the
failures of the other clauses and fields. -/
theorem C3_min_max_judged_against_another_field :
    (paddedRecord (FieldDecl.mk "Age" true (some "min:18") false)
        (.int "int" 20) (.int "int" 0)).Field 2 = .ok (.int "int" 0) ∧
    Validate (some (paddedRecord (FieldDecl.mk "Age" true (some "min:18") false)
        (.int "int" 20) (.int "int" 0))) =
      .ok (.errors [ValidationError.mk (.Errorf "field Age has value less than min")]) ∧
    Validate (some (paddedRecord (FieldDecl.mk "Age" true (some "max:18") false)
        (.int "int" 17) (.int "int" 30))) =
      .ok (.errors [ValidationError.mk (.Errorf "field Age has value bigger than max")]) ∧
    (∀ (ty : String) (fs : Fields) (k : Nat) (d : FieldDecl) (tyI : String) (v : Int)
      (tag arg : String) (pre post : List String) (N : Int),
      fs.embedsNoStruct → fs.names.Nodup → "" ∉ fs.names →
      fs.toList.get? k = some (d, .int tyI v) → d.Exported = true →
      d.validateTag = some tag → strconv.Atoi arg = some N →
      (strings.Split tag ';' = pre ++ ("min:" ++ arg) :: post →
        (∀ errs, clauseStep (.struct ty fs) k (fieldAt d k) errs ("min:" ++ arg) =
          .ok (errs ++ if v ≥ N then []
            else [ValidationError.mk
              (.Errorf ("field " ++ d.Name ++ " has value less than min"))])) ∧
        Validate (some (.struct ty fs)) =
          runWithClause (.struct ty fs) (declaredFields [] fs 0) k (fieldAt d k) pre post
            (if v ≥ N then []
              else [ValidationError.mk
                (.Errorf ("field " ++ d.Name ++ " has value less than min"))])) ∧
      (strings.Split tag ';' = pre ++ ("max:" ++ arg) :: post →
        (∀ errs, clauseStep (.struct ty fs) k (fieldAt d k) errs ("max:" ++ arg) =
          .ok (errs ++ if v ≤ N then []
            else [ValidationError.mk
              (.Errorf ("field " ++ d.Name ++ " has value bigger than max"))])) ∧
        Validate (some (.struct ty fs)) =
          runWithClause (.struct ty fs) (declaredFields [] fs 0) k (fieldAt d k) pre post
            (if v ≤ N then []
              else [ValidationError.mk
                (.Errorf ("field " ++ d.Name ++ " has value bigger than max"))]))) := by
  refine ⟨rfl, by decide, by decide, ?_⟩
  intro ty fs k d tyI v tag arg pre post N hplain hnodup hnames hget hexp htag harg
  have h := fun errs => (min_max_int_field (.struct ty fs) k (fieldAt d k) errs "T" "F" tyI arg
    false v N (Field_get ty fs k d _ hget) harg (by decide)).1
  constructor
  · intro hs
    refine Validate_aligned ty fs k d (.int tyI v) tag _ pre post _ hplain hnodup hnames hget
      hexp htag hs ?_
    intro errs
    rw [(h errs).1]
    by_cases h1 : v ≥ N <;> simp [h1, fieldAt]
  · intro hs
    refine Validate_aligned ty fs k d (.int tyI v) tag _ pre post _ hplain hnodup hnames hget
      hexp htag hs ?_
    intro errs
    rw [(h errs).2]
    by_cases h1 : v ≤ N <;> simp [h1, fieldAt]

/-- C7, the run on the failing input and beside it: `Outer` embeds `Inner{X}`
and declares `Code`, the text `ab` under `max:3`, then `Pad`, the text
`toolong`. The loop meets `Code` at position 2 of the visible fields and reads
`Field(2)`, which is `Pad`: `Validate` reports
`field Code has value bigger than max` although the length of `ab` is 2. On
every struct that embeds no struct and whose field names are distinct, on a
text field `F` holding `s` the clauses `min:N` and `max:N` compare the length
of `s` in bytes with `N`, never a number `s` may spell: `min:N` adds no
failure when `len(s) >= N`, `max:N` none when `len(s) <= N`, otherwise exactly
the one failure of the clause, and `Validate` returns it between the failures
of the other clauses and fields; with `min:3` the text `100` passes and the
text `9` fails. -/
theorem C7_text_min_max_judged_against_another_field :
    (paddedRecord (FieldDecl.mk "Code" true (some "max:3") false)
        (.str "string" "ab") (.str "string" "toolong")).Field 2 =
      .ok (.str "string" "toolong") ∧
    Validate (some (paddedRecord (FieldDecl.mk "Code" true (some "max:3") false)
        (.str "string" "ab") (.str "string" "toolong"))) =
      .ok (.errors [ValidationError.mk (.Errorf "field Code has value bigger than max")]) ∧
    len "ab" = 2 ∧
    Validate (some (oneField "main.T" (FieldDecl.mk "Code" true (some "min:3") false)
        (.str "string" "100"))) = .ok .nil ∧
    Validate (some (oneField "main.T" (FieldDecl.mk "Code" true (some "min:3") false)
        (.str "string" "9"))) =
      .ok (.errors [ValidationError.mk (.Errorf "field Code has value less than min")]) ∧
    (∀ (ty : String) (fs : Fields) (k : Nat) (d : FieldDecl) (tyS s tag arg : String)
      (pre post : List String) (N : Int),
      fs.embedsNoStruct → fs.names.Nodup → "" ∉ fs.names →
      fs.toList.get? k = some (d, .str tyS s) → d.Exported = true →
      d.validateTag = some tag → strconv.Atoi arg = some N →
      (strings.Split tag ';' = pre ++ ("min:" ++ arg) :: post →
        (∀ errs, clauseStep (.struct ty fs) k (fieldAt d k) errs ("min:" ++ arg) =
          .ok (errs ++ if len s ≥ N then []
            else [ValidationError.mk
              (.Errorf ("field " ++ d.Name ++ " has value less than min"))])) ∧
        Validate (some (.struct ty fs)) =
          runWithClause (.struct ty fs) (declaredFields [] fs 0) k (fieldAt d k) pre post
            (if len s ≥ N then []
              else [ValidationError.mk
                (.Errorf ("field " ++ d.Name ++ " has value less than min"))])) ∧
      (strings.Split tag ';' = pre ++ ("max:" ++ arg) :: post →
        (∀ errs, clauseStep (.struct ty fs) k (fieldAt d k) errs ("max:" ++ arg) =
          .ok (errs ++ if len s ≤ N then []
            else [ValidationError.mk
              (.Errorf ("field " ++ d.Name ++ " has value bigger than max"))])) ∧
        Validate (some (.struct ty fs)) =
          runWithClause (.struct ty fs) (declaredFields [] fs 0) k (fieldAt d k) pre post
            (if len s ≤ N then []
              else [ValidationError.mk
                (.Errorf ("field " ++ d.Name ++ " has value bigger than max"))]))) := by
  refine ⟨rfl, by decide, by decide, by decide, by decide, ?_⟩
  intro ty fs k d tyS s tag arg pre post N hplain hnodup hnames hget hexp htag harg
  have h := fun errs => (min_max_text_field (.struct ty fs) k (fieldAt d k) errs "T" "F" tyS s
    arg false N (Field_get ty fs k d _ hget) harg (by decide)).1
  constructor
  · intro hs
    refine Validate_aligned ty fs k d (.str tyS s) tag _ pre post _ hplain hnodup hnames hget
      hexp htag hs ?_
    intro errs
    rw [(h errs).1]
    by_cases h1 : len s ≥ N <;> simp [h1, fieldAt]
  · intro hs
    refine Validate_aligned ty fs k d (.str tyS s) tag _ pre post _ hplain hnodup hnames hget
      hexp htag hs ?_
    intro errs
    rw [(h errs).2]
    by_cases h1 : len s ≤ N <;> simp [h1, fieldAt]

/-- C5, the run on the failing input and beside it: `Outer` embeds `Inner{X}`
and declares `Ages`, the slice `[20, 30]` under `min:18`, then `Pad`, the
`int` 0. The loop meets `Ages` at position 2 of the visible fields and reads
`Field(2)`, which is `Pad`: `Validate` reports
`field Ages has value less than min` although each element passes `min:18` as
the value of a scalar field. On every struct that embeds no struct and whose
field names are distinct, on a field `F` that is a slice or array of `int`s
or of strings (empty or not) each of the clauses `len:N`, `min:N`, `max:N`
adds no failure when every element, held by the one field of a struct under
the same clause, validates, and otherwise exactly one failure for the field
and clause, however many elements fail; `Validate` returns it between the
failures of the other clauses and fields. -/
theorem C5_list_judged_against_another_field :
    (paddedRecord (FieldDecl.mk "Ages" true (some "min:18") false)
        (.list false "[]int" [.int "int" 20, .int "int" 30]) (.int "int" 0)).Field 2 =
      .ok (.int "int" 0) ∧
    Validate (some (paddedRecord (FieldDecl.mk "Ages" true (some "min:18") false)
        (.list false "[]int" [.int "int" 20, .int "int" 30]) (.int "int" 0))) =
      .ok (.errors [ValidationError.mk (.Errorf "field Ages has value less than min")]) ∧
    (∀ e ∈ [Value.int "int" 20, Value.int "int" 30],
      Validate (some (oneField "main.T" (FieldDecl.mk "Age" true (some "min:18") false) e)) =
        .ok .nil) ∧
    Validate (some (oneField "main.T" (FieldDecl.mk "Ages" true (some "min:18") false)
        (.list false "[]int" [.int "int" 17, .int "int" 15, .int "int" 20]))) =
      .ok (.errors [ValidationError.mk (.Errorf "field Ages has value less than min")]) ∧
    (∀ (ty T F : String) (fs : Fields) (k : Nat) (d : FieldDecl) (a : Bool) (lty : String)
      (elems : List Value) (tag name arg : String) (pre post : List String) (N : Int),
      fs.embedsNoStruct → fs.names.Nodup → "" ∉ fs.names →
      fs.toList.get? k = some (d, .list a lty elems) → d.Exported = true →
      d.validateTag = some tag → (name = "len" ∨ name = "min" ∨ name = "max") →
      strings.Split tag ';' = pre ++ (name ++ ":" ++ arg) :: post →
      strconv.Atoi arg = some N → F ≠ "" →
      (∀ e ∈ elems, (∃ ty n, e = Value.int ty n) ∨ (∃ ty s, e = Value.str ty s)) →
      (∀ errs, clauseStep (.struct ty fs) k (fieldAt d k) errs (name ++ ":" ++ arg) =
        .ok (errs ++ if ∀ e ∈ elems, Validate (some (oneField T
              (FieldDecl.mk F true (some (name ++ ":" ++ arg)) false) e)) = .ok .nil
          then []
          else [ValidationError.mk (.Errorf (clauseMessage name d.Name))])) ∧
      Validate (some (.struct ty fs)) =
        runWithClause (.struct ty fs) (declaredFields [] fs 0) k (fieldAt d k) pre post
          (if ∀ e ∈ elems, Validate (some (oneField T
              (FieldDecl.mk F true (some (name ++ ":" ++ arg)) false) e)) = .ok .nil
            then []
            else [ValidationError.mk (.Errorf (clauseMessage name d.Name))])) := by
  refine ⟨rfl, by decide, by decide, by decide, ?_⟩
  intro ty T F fs k d a lty elems tag name arg pre post N hplain hnodup hnames hget hexp htag
    hname hs harg hF helems
  have hlist := numericCheck_list name a lty elems N helems
  have hwalk : ∀ e ∈ elems, ∀ w, walkEmbedded w e = w := by
    intro e he w
    rcases helems e he with ⟨ty, n, rfl⟩ | ⟨ty, s, rfl⟩
    · exact walkEmbedded_int w ty n
    · exact walkEmbedded_str w ty s
  have hiff : (∀ e ∈ elems, Validate (some (oneField T
        (FieldDecl.mk F true (some (name ++ ":" ++ arg)) false) e)) = .ok .nil) ↔
      numericCheck name (.list a lty elems) N = true := by
    rw [hlist]
    refine forall_congr' fun e => forall_congr' fun he => ?_
    rw [Validate_numeric T F false name arg N e hname harg hF (hwalk e he)]
    cases numericCheck name e N <;> simp
  refine Validate_aligned ty fs k d (.list a lty elems) tag _ pre post _ hplain hnodup hnames
    hget hexp htag hs ?_
  intro errs
  rw [clauseStep_numeric (.struct ty fs) k (fieldAt d k) errs name arg N _ hname
    (Field_get ty fs k d _ hget) harg]
  by_cases h : numericCheck name (.list a lty elems) N = true
  · rw [if_pos (hiff.2 h), if_pos h, List.append_nil]
  · rw [if_neg (fun x => h (hiff.1 x)), if_neg h]
    rfl

/-- C19, the run on the failing input and beside it: `Outer` embeds
`Inner{X}` and declares `Age`, the `int64` 17 under `min:18`, then `Pad`, the
`int` 0. The loop meets `Age` at position 2 of the visible fields and reads
`Field(2)`, which is `Pad`, an `int`: `Validate` reports
`field Age has value less than min`. On every struct that embeds no struct and
whose field names are distinct, on a field whose value is of a sized or
unsigned integer kind (`int8`, ..., `int64`, `uint`, ..., `uintptr`), or a
slice or array of such values, the clauses `min:N` and `max:N` add no failure
whatever the value and `N`, and `Validate` returns the failures of the other
clauses and fields; the struct whose one field `Age`, the `int64` 17, carries
`min:18` validates. -/
theorem C19_sized_integer_judged_against_another_field :
    (paddedRecord (FieldDecl.mk "Age" true (some "min:18") false)
        (.other .Int64 "int64" 17) (.int "int" 0)).Field 2 = .ok (.int "int" 0) ∧
    Validate (some (paddedRecord (FieldDecl.mk "Age" true (some "min:18") false)
        (.other .Int64 "int64" 17) (.int "int" 0))) =
      .ok (.errors [ValidationError.mk (.Errorf "field Age has value less than min")]) ∧
    Validate (some (oneField "main.T" (FieldDecl.mk "Age" true (some "min:18") false)
        (.other .Int64 "int64" 17))) = .ok .nil ∧
    (∀ (ty : String) (fs : Fields) (k : Nat) (d : FieldDecl) (fv : Value)
      (tag arg : String) (pre post : List String) (N : Int),
      fs.embedsNoStruct → fs.names.Nodup → "" ∉ fs.names →
      fs.toList.get? k = some (d, fv) → d.Exported = true →
      d.validateTag = some tag → strconv.Atoi arg = some N →
      (∀ e ∈ createReflectionSlice fv, sizedIntegerKind e.Kind = true) →
      (strings.Split tag ';' = pre ++ ("min:" ++ arg) :: post →
        (∀ errs, clauseStep (.struct ty fs) k (fieldAt d k) errs ("min:" ++ arg) = .ok errs) ∧
        Validate (some (.struct ty fs)) =
          runWithClause (.struct ty fs) (declaredFields [] fs 0) k (fieldAt d k) pre post []) ∧
      (strings.Split tag ';' = pre ++ ("max:" ++ arg) :: post →
        (∀ errs, clauseStep (.struct ty fs) k (fieldAt d k) errs ("max:" ++ arg) = .ok errs) ∧
        Validate (some (.struct ty fs)) =
          runWithClause (.struct ty fs) (declaredFields [] fs 0) k (fieldAt d k) pre post
            [])) := by
  refine ⟨rfl, by decide, by decide, ?_⟩
  intro ty fs k d fv tag arg pre post N hplain hnodup hnames hget hexp htag harg hsized
  have h := fun errs => sized_integers_not_compared (.struct ty fs) k (fieldAt d k) errs "T" "F"
    arg N fv (Field_get ty fs k d _ hget) harg (by decide) hsized
  constructor
  · intro hs
    have := Validate_aligned ty fs k d fv tag _ pre post [] hplain hnodup hnames hget
      hexp htag hs (fun errs => by rw [(h errs).1, List.append_nil])
    exact ⟨fun errs => (h errs).1, this.2⟩
  · intro hs
    have := Validate_aligned ty fs k d fv tag _ pre post [] hplain hnodup hnames hget
      hexp htag hs (fun errs => by rw [(h errs).2.1, List.append_nil])
    exact ⟨fun errs => (h errs).2.1, this.2⟩

/-- C14, the run on the failing inputs and beside it: `len:5` on a `bool`
field and `len:2` on the `int` field valued 42 each report the length
failure, because `checkLen` has no switch on the kind and measures the text
`String()` prints for a value that is no string, `<T Value>`; `in:true` on
the slice `[true]` reports the membership failure; `in:true` on a `bool`
field makes `Validate` panic on the nil `rType`; and in `Outer`, which embeds
`Inner{X}`, `max:5` on the `bool` field `Flag` is judged against the next
field, the `int` 7, and fails. Wherever the value read is no string, `len:N`
compares `N` with the length of `<T Value>`. On every struct that embeds no
struct and whose field names are distinct, `min:N` and `max:N` on a field of a
kind other than `Int` and `String` (or a list of such values) skip the value
and add no failure. -/
theorem C14_unsupported_kinds_not_skipped :
    Validate (some boolLenRecord) =
      .ok (.errors [ValidationError.mk (.Errorf "field Flag has an invalid length")]) ∧
    Validate (some intLenRecord) =
      .ok (.errors [ValidationError.mk (.Errorf "field Age has an invalid length")]) ∧
    Validate (some boolListInRecord) =
      .ok (.errors [ValidationError.mk (.Errorf "field Flags does not occur in [true]")]) ∧
    Validate (some boolInRecord) = .error .nilDereference ∧
    Validate (some (paddedRecord (FieldDecl.mk "Flag" true (some "max:5") false)
        (.other .Bool "bool" 1) (.int "int" 7))) =
      .ok (.errors [ValidationError.mk (.Errorf "field Flag has value bigger than max")]) ∧
    (Value.other .Bool "bool" 1).String = "<bool Value>" ∧ len "<bool Value>" = 12 ∧
    (Value.int "int" 42).String = "<int Value>" ∧ len "<int Value>" = 11 ∧
    (∀ (vv : Value) (i : Nat) (field : StructField) (errs : ValidationErrors) (arg : String)
      (N : Int) (fv : Value), vv.Field i = .ok fv → strconv.Atoi arg = some N →
      (∀ e ∈ createReflectionSlice fv, e.Kind ≠ Kind.String) →
      clauseStep vv i field errs ("len:" ++ arg) =
        .ok (if ∀ e ∈ createReflectionSlice fv, len ("<" ++ e.typeString ++ " Value>") = N
          then errs
          else errs ++ [ValidationError.mk
            (.Errorf ("field " ++ field.Name ++ " has an invalid length"))])) ∧
    (∀ (ty : String) (fs : Fields) (k : Nat) (d : FieldDecl) (fv : Value)
      (tag arg : String) (pre post : List String) (N : Int),
      fs.embedsNoStruct → fs.names.Nodup → "" ∉ fs.names →
      fs.toList.get? k = some (d, fv) → d.Exported = true →
      d.validateTag = some tag → strconv.Atoi arg = some N → fv.unsupported →
      (strings.Split tag ';' = pre ++ ("min:" ++ arg) :: post →
        (∀ errs, clauseStep (.struct ty fs) k (fieldAt d k) errs ("min:" ++ arg) = .ok errs) ∧
        Validate (some (.struct ty fs)) =
          runWithClause (.struct ty fs) (declaredFields [] fs 0) k (fieldAt d k) pre post []) ∧
      (strings.Split tag ';' = pre ++ ("max:" ++ arg) :: post →
        (∀ errs, clauseStep (.struct ty fs) k (fieldAt d k) errs ("max:" ++ arg) = .ok errs) ∧
        Validate (some (.struct ty fs)) =
          runWithClause (.struct ty fs) (declaredFields [] fs 0) k (fieldAt d k) pre post
            [])) := by
  refine ⟨by decide, by decide, by decide, by decide, by decide, rfl, by decide, rfl,
    by decide, ?_, ?_⟩
  · intro vv i field errs arg N fv hv harg hns
    exact (unsupported_kinds_clauses vv i field errs "T" "F" arg N harg (by decide)).2.1 fv hv hns
  · intro ty fs k d fv tag arg pre post N hplain hnodup hnames hget hexp htag harg hun
    have h := fun errs => min_max_unsupported (.struct ty fs) k (fieldAt d k) errs "T" "F"
      arg N fv (Field_get ty fs k d _ hget) harg (by decide) hun
    constructor
    · intro hs
      have := Validate_aligned ty fs k d fv tag _ pre post [] hplain hnodup hnames hget
        hexp htag hs (fun errs => by rw [(h errs).1, List.append_nil])
      exact ⟨fun errs => (h errs).1, this.2⟩
    · intro hs
      have := Validate_aligned ty fs k d fv tag _ pre post [] hplain hnodup hnames hget
        hexp htag hs (fun errs => by rw [(h errs).2.1, List.append_nil])
      exact ⟨fun errs => (h errs).2.1, this.2⟩

/-- C4, as amended: on every struct that embeds no struct and whose field
names are distinct, so that the loop reads each field at its own position, on
an exported field `F` whose value is the `int` `v` the clause `in:l1,...,ln`
whose literals are all numerals adds no failure when some literal denotes
`v`, and on an exported field whose value is the string `s` the clause whose
literals hold no `:` (nor the separator `,`) adds no failure when some
literal equals `s`; otherwise it adds exactly the one failure
`field F does not occur in [l1 l2 ... ln]`. `Validate` returns that between
the failures of the other clauses and fields. -/
theorem C4_in_scalar_field (ty : String) (fs : Fields) (k : Nat) (d : FieldDecl) (fv : Value)
    (tag : String) (pre post lits : List String)
    (hplain : fs.embedsNoStruct) (hnodup : fs.names.Nodup) (hnames : "" ∉ fs.names)
    (hget : fs.toList.get? k = some (d, fv)) (hexp : d.Exported = true)
    (htag : d.validateTag = some tag)
    (hs : strings.Split tag ';' = pre ++ ("in:" ++ strings.Join lits ",") :: post)
    (hne : lits ≠ []) :
    (∀ (tyI : String) (v : Int), fv = .int tyI v → (∀ l ∈ lits, (strconv.Atoi l).isSome) →
      (∀ errs, clauseStep (.struct ty fs) k (fieldAt d k) errs
          ("in:" ++ strings.Join lits ",") =
        .ok (errs ++ if ∃ l ∈ lits, strconv.Atoi l = some v then []
          else [ValidationError.mk (.Errorf ("field " ++ d.Name
            ++ " does not occur in " ++ "[" ++ strings.Join lits " " ++ "]"))])) ∧
      Validate (some (.struct ty fs)) =
        runWithClause (.struct ty fs) (declaredFields [] fs 0) k (fieldAt d k) pre post
          (if ∃ l ∈ lits, strconv.Atoi l = some v then []
            else [ValidationError.mk (.Errorf ("field " ++ d.Name
              ++ " does not occur in " ++ "[" ++ strings.Join lits " " ++ "]"))])) ∧
    (∀ (tyS s : String), fv = .str tyS s → (∀ l ∈ lits, ',' ∉ l.data ∧ ':' ∉ l.data) →
      (∀ errs, clauseStep (.struct ty fs) k (fieldAt d k) errs
          ("in:" ++ strings.Join lits ",") =
        .ok (errs ++ if s ∈ lits then []
          else [ValidationError.mk (.Errorf ("field " ++ d.Name
            ++ " does not occur in " ++ "[" ++ strings.Join lits " " ++ "]"))])) ∧
      Validate (some (.struct ty fs)) =
        runWithClause (.struct ty fs) (declaredFields [] fs 0) k (fieldAt d k) pre post
          (if s ∈ lits then []
            else [ValidationError.mk (.Errorf ("field " ++ d.Name
              ++ " does not occur in " ++ "[" ++ strings.Join lits " " ++ "]"))])) := by
  constructor
  · intro tyI v hfv hp
    subst hfv
    refine Validate_aligned ty fs k d _ tag _ pre post _ hplain hnodup hnames hget
      hexp htag hs ?_
    intro errs
    rw [clauseStep_in_int (.struct ty fs) k (fieldAt d k) errs lits tyI v
      (Field_get ty fs k d _ hget) hne hp]
    by_cases h : ∃ l ∈ lits, strconv.Atoi l = some v
    · rw [if_pos h, if_pos h, List.append_nil]
    · rw [if_neg h, if_neg h]
      rfl
  · intro tyS s hfv hsep
    subst hfv
    refine Validate_aligned ty fs k d _ tag _ pre post _ hplain hnodup hnames hget
      hexp htag hs ?_
    intro errs
    rw [clauseStep_in_str (.struct ty fs) k (fieldAt d k) errs lits tyS s
      (Field_get ty fs k d _ hget) hne (fun l hl => (hsep l hl).1) (fun l hl => (hsep l hl).2)]
    by_cases h : s ∈ lits
    · rw [if_pos h, if_pos h, List.append_nil]
    · rw [if_neg h, if_neg h]
      rfl

/-- Witness of C4: in the struct `Person`, whose second field `Num` holds 4,
its second clause `in:1,2,3` fails listing `[1 2 3]`; the run returns that
failure after those of the clauses before it. -/
theorem C4_in_scalar_field_witness :
    personFields.embedsNoStruct ∧ personFields.names.Nodup ∧ "" ∉ personFields.names ∧
    personFields.toList.get? 1 =
      some (FieldDecl.mk "Num" true (some "in:1,x,3;in:1,2,3") false, Value.int "int" 4) ∧
    (FieldDecl.mk "Num" true (some "in:1,x,3;in:1,2,3") false).Exported = true ∧
    (FieldDecl.mk "Num" true (some "in:1,x,3;in:1,2,3") false).validateTag =
      some "in:1,x,3;in:1,2,3" ∧
    strings.Split "in:1,x,3;in:1,2,3" ';' =
      ["in:1,x,3"] ++ ("in:" ++ strings.Join ["1", "2", "3"] ",") :: [] ∧
    ["1", "2", "3"] ≠ [] ∧
    (∀ l ∈ ["1", "2", "3"], (strconv.Atoi l).isSome) ∧
    ((∀ errs, clauseStep (.struct "main.Person" personFields) 1
          (fieldAt (FieldDecl.mk "Num" true (some "in:1,x,3;in:1,2,3") false) 1) errs
          ("in:" ++ strings.Join ["1", "2", "3"] ",") =
        .ok (errs ++ if ∃ l ∈ ["1", "2", "3"], strconv.Atoi l = some 4 then []
          else [ValidationError.mk (.Errorf
            ("field " ++ (FieldDecl.mk "Num" true (some "in:1,x,3;in:1,2,3") false).Name
            ++ " does not occur in " ++ "[" ++ strings.Join ["1", "2", "3"] " " ++ "]"))])) ∧
      Validate (some (.struct "main.Person" personFields)) =
        runWithClause (.struct "main.Person" personFields) (declaredFields [] personFields 0) 1
          (fieldAt (FieldDecl.mk "Num" true (some "in:1,x,3;in:1,2,3") false) 1)
          ["in:1,x,3"] []
          (if ∃ l ∈ ["1", "2", "3"], strconv.Atoi l = some 4 then []
            else [ValidationError.mk (.Errorf
              ("field " ++ (FieldDecl.mk "Num" true (some "in:1,x,3;in:1,2,3") false).Name
              ++ " does not occur in " ++ "[" ++ strings.Join ["1", "2", "3"] " " ++ "]"))])) ∧
    Validate (some (.struct "main.Person" personFields)) =
      .ok (.errors [ValidationError.mk (.Errorf "field Name has value less than min"),
        ValidationError.mk (.Errorf "field Name has value bigger than max"),
        ValidationError.mk .ErrInvalidValidatorSyntax,
        ValidationError.mk (.Errorf "field Num does not occur in [1 x 3]"),
        ValidationError.mk (.Errorf "field Num does not occur in [1 2 3]")]) :=
  ⟨by simp [personFields, Fields.embedsNoStruct], by decide, by decide, rfl, rfl, rfl,
    by decide, by decide, by decide,
    (C4_in_scalar_field "main.Person" personFields 1
      (FieldDecl.mk "Num" true (some "in:1,x,3;in:1,2,3") false) (.int "int" 4)
      "in:1,x,3;in:1,2,3" ["in:1,x,3"] [] ["1", "2", "3"]
      (by simp [personFields, Fields.embedsNoStruct]) (by decide) (by decide) rfl rfl rfl
      (by decide) (by decide)).1 "int" 4 rfl (by decide),
    by decide⟩

/-- C13, as amended: on every struct that embeds no struct and whose field
names are distinct, so that the loop reads each field at its own position, on
an exported field whose value is the `int` `v` a clause the code reads as
`in` with the argument `toCheck`, the text between its first `:` and its
second (or its end), adds one `ErrInvalidValidatorSyntax` for each literal of
`toCheck` that `strconv.Atoi` rejects, in literal order, and then the
membership failure exactly when `v` is none of the literals that parse: the
rejected literals are left out of the set and the others still count.
`Validate` returns those failures between the failures of the other clauses
and fields. -/
theorem C13_in_unparsable_literals (ty : String) (fs : Fields) (k : Nat) (d : FieldDecl)
    (tyI : String) (v : Int) (tag b toCheck : String) (rest pre post : List String)
    (hplain : fs.embedsNoStruct) (hnodup : fs.names.Nodup) (hnames : "" ∉ fs.names)
    (hget : fs.toList.get? k = some (d, .int tyI v)) (hexp : d.Exported = true)
    (htag : d.validateTag = some tag)
    (hs : strings.Split tag ';' = pre ++ b :: post)
    (hsplit : strings.Split b ':' = "in" :: toCheck :: rest) :
    (∀ errs, clauseStep (.struct ty fs) k (fieldAt d k) errs b =
      .ok (errs ++
        (((strings.Split toCheck ',').filter (fun u => (strconv.Atoi u).isNone)).map
            (fun _ => ValidationError.mk .ErrInvalidValidatorSyntax) ++
          (if v ∈ (strings.Split toCheck ',').filterMap strconv.Atoi then []
            else [ValidationError.mk (.Errorf ("field " ++ d.Name ++ " does not occur in "
              ++ formatStrings (strings.Split toCheck ',')))])))) ∧
    Validate (some (.struct ty fs)) =
      runWithClause (.struct ty fs) (declaredFields [] fs 0) k (fieldAt d k) pre post
        (((strings.Split toCheck ',').filter (fun u => (strconv.Atoi u).isNone)).map
            (fun _ => ValidationError.mk .ErrInvalidValidatorSyntax) ++
          (if v ∈ (strings.Split toCheck ',').filterMap strconv.Atoi then []
            else [ValidationError.mk (.Errorf ("field " ++ d.Name ++ " does not occur in "
              ++ formatStrings (strings.Split toCheck ',')))])) := by
  refine Validate_aligned ty fs k d _ tag _ pre post _ hplain hnodup hnames hget
    hexp htag hs ?_
  intro errs
  rw [in_unparsable_literals (.struct ty fs) k (fieldAt d k) errs b toCheck tyI rest v hsplit
    (Field_get ty fs k d _ hget), List.append_assoc]
  rfl

/-- Witness of C13: in the struct `Person`, whose second field `Num` holds 4,
the clause `in:1,x,3` gives the one syntax failure of `x` and the membership
failure; on the struct whose one field holds 3 it gives the syntax failure
only. -/
theorem C13_in_unparsable_literals_witness :
    personFields.embedsNoStruct ∧ personFields.names.Nodup ∧ "" ∉ personFields.names ∧
    personFields.toList.get? 1 =
      some (FieldDecl.mk "Num" true (some "in:1,x,3;in:1,2,3") false, Value.int "int" 4) ∧
    (FieldDecl.mk "Num" true (some "in:1,x,3;in:1,2,3") false).Exported = true ∧
    (FieldDecl.mk "Num" true (some "in:1,x,3;in:1,2,3") false).validateTag =
      some "in:1,x,3;in:1,2,3" ∧
    strings.Split "in:1,x,3;in:1,2,3" ';' = [] ++ "in:1,x,3" :: ["in:1,2,3"] ∧
    strings.Split "in:1,x,3" ':' = "in" :: "1,x,3" :: [] ∧
    ((∀ errs, clauseStep (.struct "main.Person" personFields) 1
          (fieldAt (FieldDecl.mk "Num" true (some "in:1,x,3;in:1,2,3") false) 1) errs
          "in:1,x,3" =
        .ok (errs ++
          (((strings.Split "1,x,3" ',').filter (fun u => (strconv.Atoi u).isNone)).map
              (fun _ => ValidationError.mk .ErrInvalidValidatorSyntax) ++
            (if (4 : Int) ∈ (strings.Split "1,x,3" ',').filterMap strconv.Atoi then []
              else [ValidationError.mk (.Errorf
                ("field " ++ (FieldDecl.mk "Num" true (some "in:1,x,3;in:1,2,3") false).Name
                ++ " does not occur in " ++ formatStrings (strings.Split "1,x,3" ',')))])))) ∧
      Validate (some (.struct "main.Person" personFields)) =
        runWithClause (.struct "main.Person" personFields) (declaredFields [] personFields 0) 1
          (fieldAt (FieldDecl.mk "Num" true (some "in:1,x,3;in:1,2,3") false) 1)
          [] ["in:1,2,3"]
          (((strings.Split "1,x,3" ',').filter (fun u => (strconv.Atoi u).isNone)).map
              (fun _ => ValidationError.mk .ErrInvalidValidatorSyntax) ++
            (if (4 : Int) ∈ (strings.Split "1,x,3" ',').filterMap strconv.Atoi then []
              else [ValidationError.mk (.Errorf
                ("field " ++ (FieldDecl.mk "Num" true (some "in:1,x,3;in:1,2,3") false).Name
                ++ " does not occur in " ++ formatStrings (strings.Split "1,x,3" ',')))]))) ∧
    clauseStep (.struct "main.Person" personFields) 1
        (fieldAt (FieldDecl.mk "Num" true (some "in:1,x,3;in:1,2,3") false) 1) [] "in:1,x,3" =
      .ok [ValidationError.mk .ErrInvalidValidatorSyntax,
        ValidationError.mk (.Errorf "field Num does not occur in [1 x 3]")] ∧
    Validate (some mixedLiteralsRecord) =
      .ok (.errors [ValidationError.mk .ErrInvalidValidatorSyntax]) :=
  ⟨by simp [personFields, Fields.embedsNoStruct], by decide, by decide, rfl, rfl, rfl,
    by decide, by decide,
    C13_in_unparsable_literals "main.Person" personFields 1
      (FieldDecl.mk "Num" true (some "in:1,x,3;in:1,2,3") false) "int" 4
      "in:1,x,3;in:1,2,3" "in:1,x,3" "1,x,3" [] [] ["in:1,2,3"]
      (by simp [personFields, Fields.embedsNoStruct]) (by decide) (by decide) rfl rfl rfl
      (by decide) (by decide),
    by decide, by decide⟩

/-- Counterexample to C13 as stated: under `in:1,2:x` the literal `2:x` is no
integer, and yet the `int` field valued 2 validates, no
`ErrInvalidValidatorSyntax` is reported and 2 counts as a member: the
argument read is `1,2`, the text between the first `:` and the second. And in
`Outer`, which embeds `Inner{X}`, the clause `in:1,x,3` of `Num`, which holds
3, is judged against the next field, which holds 7: the membership failure is
reported although 3 is among the literals that parse. -/
theorem C13_in_unparsable_literals_counterexample :
    Validate (some (oneField "main.T" (FieldDecl.mk "Num" true (some "in:1,2:x") false)
        (.int "int" 2))) = .ok .nil ∧
    strconv.Atoi "2:x" = none ∧
    "in:1,2:x" = "in:" ++ strings.Join ["1", "2:x"] "," ∧
    sliceIndex (strings.Split "in:1,2:x" ':') 1 = .ok "1,2" ∧
    Validate (some (paddedRecord (FieldDecl.mk "Num" true (some "in:1,x,3") false)
        (.int "int" 3) (.int "int" 7))) =
      .ok (.errors [ValidationError.mk .ErrInvalidValidatorSyntax,
        ValidationError.mk (.Errorf "field Num does not occur in [1 x 3]")]) ∧
    (3 : Int) ∈ (strings.Split "1,x,3" ',').filterMap strconv.Atoi := by
  decide

/-- Counterexample to C11 as stated: the clause `min:1:x` is named `min` and
the text after its first `:`, `1:x`, is no integer, and yet the `int` field
valued 20 validates: no `ErrInvalidValidatorSyntax` is reported, the argument
read is `1`, the text between the first `:` and the second. Under `min:18:x`
the field valued 17 gets the failure of `min:18`. -/
theorem C11_non_integer_argument_counterexample :
    Validate (some (oneField "main.T" (FieldDecl.mk "Age" true (some "min:1:x") false)
        (.int "int" 20))) = .ok .nil ∧
    strconv.Atoi "1:x" = none ∧
    "min:1:x" = "min" ++ ":" ++ "1:x" ∧
    sliceIndex (strings.Split "min:1:x" ':') 1 = .ok "1" ∧
    Validate (some (oneField "main.T" (FieldDecl.mk "Age" true (some "min:18:x") false)
        (.int "int" 17))) =
      .ok (.errors [ValidationError.mk (.Errorf "field Age has value less than min")]) := by
  decide

/-- Counterexample to C18 as stated: the struct `BlankIn` declares two blank
fields, a nil slice of `int`s and an `int`, and then `A`, the `int` 1 under
`in:1`. It embeds no struct, its one clause holds a `:` and sits on a field
of kind `Int`; `reflect.VisibleFields` drops both blank fields, the loop
meets `A` at position 0 and reads `Field(0)`, the empty slice, and `Index(0)`
panics out of range. -/
theorem C18_no_abort_counterexample :
    Validate (some (.struct "main.BlankIn" blankInFields)) = .error .indexOutOfRange ∧
    blankInFields.embedsNoStruct ∧
    (∀ dv ∈ blankInFields.toList, dv.2.wellTyped) ∧
    (∀ dv ∈ blankInFields.toList, dv.1.Exported = true →
      ∀ s, dv.1.validateTag = some s → ∀ b ∈ strings.Split s ';',
        ':' ∈ b.data ∧ ((strings.Split b ':').head? = some "in" → inKindOk dv.2)) ∧
    blankInFields.names = ["_", "_", "A"] ∧
    VisibleFields (.struct "main.BlankIn" blankInFields) =
      .ok [StructField.mk "A" true (some "in:1") false [2]] ∧
    (Value.struct "main.BlankIn" blankInFields).Field 0 = .ok (.list false "[]int" []) := by
  refine ⟨by decide, by simp [blankInFields, Fields.embedsNoStruct], ?_, ?_, by decide,
    by decide, rfl⟩
  · intro dv hdv
    simp only [blankInFields, Fields.toList, List.mem_cons, List.mem_singleton,
      List.not_mem_nil, or_false] at hdv
    rcases hdv with rfl | rfl | rfl
    · intro e he
      simp at he
    · trivial
    · trivial
  · intro dv hdv hexp s htag b hb
    simp only [blankInFields, Fields.toList, List.mem_cons, List.mem_singleton,
      List.not_mem_nil, or_false] at hdv
    rcases hdv with rfl | rfl | rfl
    · exact absurd hexp (by decide)
    · exact absurd hexp (by decide)
    · simp only [Option.some.injEq] at htag
      subst htag
      have hs : strings.Split "in:1" ';' = ["in:1"] := by decide
      rw [hs, List.mem_singleton] at hb
      subst hb
      exact ⟨by decide, fun _ => Or.inl rfl⟩

end StructValidator
